import Mathlib

/-!
# gopdf: the flowable block `Div` (div.go)

A shallow embedding of `div.go` and theorems about its content wrap
(`SetContent`), its geometry mutators (`SetMarign`, `SetBorder`) and its
page flow (`GenerateAtomicCell`).

Conventions of the embedding

* Go `float64` is idealised as `ℚ`: the arithmetic of the source is kept
  operation by operation, rounding is not modelled. The unit of a report is
  a positive conversion factor; the theorems do not depend on its value.
  Where rounding decides a statement (`SetBorder`, whose test and assignment
  add the same three numbers in two orders), the function is given a second
  time with every operation rounded (`SetBorderF`, with `fl64` for float64).
* A Go `string` is the sequence of its runes, `List Char`; the conversions
  `[]rune(s)` and `string(rs)` are then the identity (valid UTF-8 text).
  Where the bytes of the text decide a statement (what `SetContent` keeps of
  its argument), the wrap is given a second time on byte strings
  (`Bytes.SetContent`), with `[]rune(s)` and `string(rs)` as UTF-8 decoding
  and encoding.
* `*core.Report`, the drawing surface, is state passed explicitly: its page
  geometry, its cursor and the trace of the drawing calls made on it.
* A Go `panic` is `Except.error` with the message of the source.
* The package `core` is not among the sources: what the block needs of it is
  collected in `Core` (parameters) and in a few definitions marked as
  modelled.
-/

namespace Gopdf

/-! ## Data model -/

/-- Modelled from the spec: `core.Scope`, a four-sided offset
(left/top/right/bottom); its declaration is in package `core`. -/
structure Scope where
  Left : ℚ
  Top : ℚ
  Right : ℚ
  Bottom : ℚ
deriving DecidableEq

/-- Modelled from the spec: `core.NewScope(left, top, right, bottom)` builds
the four-sided offset from its sides in that order. -/
def NewScope (left top right bottom : ℚ) : Scope :=
  { Left := left, Top := top, Right := right, Bottom := bottom }

/-- Modelled from the spec: `core.Font`, the family, size and style handed to
`Font(family, size, style)`. -/
structure Font where
  Family : String
  Size : Int
  Style : String
deriving DecidableEq

/-- Modelled from the spec: `util.IsEmpty` on a font, "no font set": the
zero value of the struct. -/
def IsEmptyFont (f : Font) : Bool :=
  decide (f = { Family := "", Size := 0, Style := "" })

/-- Modelled from the spec: `util.IsEmpty` on a colour string. -/
def IsEmptyString (s : String) : Bool :=
  decide (s = "")

/-- What the block uses of package `core` beyond the surface state: text
measurement under a font (`MeasureTextWidth` with that font active) and the
two normalisations of `core.Scope`. They are parameters of every
definition. -/
structure Core where
  measure : Font → List Char → ℚ
  ReplaceMarign : Scope → Scope
  ReplaceBorder : Scope → Scope

/-- One call made on the drawing surface. -/
inductive Event where
  | lineType (name : String) (width : ℚ)
  | backgroundColor (x y w h : ℚ) (color : String)
  | lineV (x y1 y2 : ℚ)
  | lineH (x1 y x2 : ℚ)
  | textColor (color : String)
  | textDefaultColor
  | cell (x y : ℚ) (text : List Char)
  | addNewPage
deriving DecidableEq

/-- State of `*core.Report` as the block sees it: unit, page geometry,
cursor, and the trace of drawing calls (oldest first). -/
structure Report where
  unit : ℚ
  pageStartX : ℚ
  pageStartY : ℚ
  pageEndX : ℚ
  pageEndY : ℚ
  currX : ℚ
  currY : ℚ
  log : List Event
deriving DecidableEq

def DIV_STRAIGHT : Int := 1
def DIV_DASHED : Int := 2
def DIV_DOTTED : Int := 3
def DIV_NONE : Int := 4

/-- The struct `Div` without its `pdf` pointer (the surface is passed
explicitly). -/
structure Div where
  font : Font
  frameType : Int
  contents : List (List Char)
  width : ℚ
  height : ℚ
  lineHeight : ℚ
  lineSpace : ℚ
  fontColor : String
  backColor : String
  margin : Scope
  border : Scope
  horizontalCentered : Bool
  rightAlign : Bool
deriving DecidableEq

/-! ## Content wrap: `SetContent` -/

/-- `strings.Replace(content, "\t", "    ", -1)`. -/
def replaceTabs : List Char → List Char
  | [] => []
  | c :: cs =>
    if c = '\t' then ' ' :: ' ' :: ' ' :: ' ' :: replaceTabs cs
    else c :: replaceTabs cs

/-- `strings.Split(s, "\n")`: always at least one block. -/
def splitLines : List Char → List (List Char)
  | [] => [[]]
  | c :: cs =>
    if c = '\n' then [] :: splitLines cs
    else
      match splitLines cs with
      | [] => [[c]]
      | l :: ls => (c :: l) :: ls

/-- Body of the rune loop of `SetContent` (div.go 221-233): the state is the
pair of `div.contents` and the candidate `line`. -/
def wrapStep (measure : List Char → ℚ) (unit contentWidth : ℚ)
    (st : List (List Char) × List Char) (r : Char) : List (List Char) × List Char :=
  let line := st.2 ++ [r]
  let lineLength := measure line
  if lineLength / unit ≥ contentWidth then
    if lineLength - contentWidth / unit > unit * 2 then
      (st.1 ++ [line.take (line.length - 1)], line.drop (line.length - 1))
    else
      (st.1 ++ [line], [])
  else
    (st.1, line)

/-- Body of the block loop of `SetContent` (div.go 210-239); `whole` is the
measured width of the whole converted text. -/
def wrapBlock (measure : List Char → ℚ) (unit contentWidth whole : ℚ)
    (contents : List (List Char)) (block : List Char) : List (List Char) :=
  if whole / unit < contentWidth then
    contents ++ [block]
  else
    let st := block.foldl (wrapStep measure unit contentWidth) (contents, [])
    if st.2.length > 0 then st.1 ++ [st.2] else st.1

/-- `Div.SetContent` (div.go 185-246). -/
def SetContent (core : Core) (pdf : Report) (div : Div) (content : List Char) :
    Except String Div :=
  let convertStr := replaceTabs content
  let unit := pdf.unit
  let blocks := splitLines convertStr
  let contentWidth := div.width - |div.border.Left| - |div.border.Right|
  if IsEmptyFont div.font then
    Except.error "there no avliable font"
  else if blocks.length = 1 ∧ core.measure div.font convertStr / unit < contentWidth then
    Except.ok { div with
      contents := [convertStr]
      height := |div.border.Top| + |div.border.Bottom| + div.lineHeight }
  else
    let contents := blocks.foldl
      (wrapBlock (core.measure div.font) unit contentWidth (core.measure div.font convertStr))
      div.contents
    let length : ℚ := (contents.length : ℚ)
    Except.ok { div with
      contents := contents
      height := div.border.Top + div.lineHeight * length + div.lineSpace * (length - 1) }

/-- `strings.Join(lines, "\n")`. -/
def joinLines : List (List Char) → List Char
  | [] => []
  | [l] => l
  | l :: ls => l ++ '\n' :: joinLines ls

/-! ## Geometry: `SetMarign`, `SetBorder`, `resetHeight`, `getContentPosition` -/

/-- `Div.SetMarign` (div.go 109-126). -/
def SetMarign (core : Core) (pdf : Report) (div : Div) (margin : Scope) : Except String Div :=
  let margin := core.ReplaceMarign margin
  let currX := pdf.currX
  let endX := pdf.pageEndX
  if endX - (currX + margin.Left) ≤ 0 then
    Except.error "the marign out of page boundary"
  else
    let div :=
      if endX - (currX + margin.Left) ≤ div.width then
        { div with width := endX - (currX + margin.Left) }
      else div
    Except.ok { div with margin := margin }

/-- `Div.SetBorder` (div.go 127-140). -/
def SetBorder (core : Core) (pdf : Report) (div : Div) (border : Scope) : Div :=
  let border := core.ReplaceBorder border
  let currX := pdf.currX
  let endX := pdf.pageEndX
  let div :=
    if endX - (currX + div.margin.Left) ≥ div.width + border.Left + border.Right then
      { div with width := div.width + (border.Left + border.Right) }
    else div
  { div with border := border }

/-- `Div.resetHeight` (div.go 372-378): the branch for no content does not
return, the assignment after it always runs. -/
def resetHeight (div : Div) : Div :=
  let div := if div.contents.length = 0 then { div with height := 0 } else div
  let length : ℚ := (div.contents.length : ℚ)
  { div with height := div.lineHeight * length + div.lineSpace * (length - 1) + div.border.Top }

/-- `Div.getContentPosition` (div.go 380-387). -/
def getContentPosition (div : Div) (sx sy : ℚ) (index : Nat) : ℚ × ℚ :=
  (sx + div.margin.Left + div.border.Left,
   sy + div.margin.Top + div.border.Top + (index : ℚ) * (div.lineHeight + div.lineSpace))

/-! ## Page flow: `drawLine`, `GenerateAtomicCell` -/

/-- Records one drawing call on the surface. -/
def Report.emit (pdf : Report) (e : Event) : Report :=
  { pdf with log := pdf.log ++ [e] }

/-- `Div.drawLine` (div.go 332-370): background and frame of the part of the
block on the current page. -/
def drawLine (div : Div) (pdf : Report) (sx sy : ℚ) : Report :=
  let pageEndY := pdf.pageEndY
  if sy + div.height > pageEndY then
    let x := sx + div.margin.Left
    let y := sy + div.margin.Top
    let pdf :=
      if !IsEmptyString div.backColor then
        pdf.emit (Event.backgroundColor x y div.width (pageEndY - y) div.backColor)
      else pdf
    if div.frameType ≠ DIV_NONE then
      (((pdf.emit (Event.lineV (sx + div.margin.Left) y pageEndY)).emit
        (Event.lineV (sx + div.margin.Left + div.width) y pageEndY)).emit
        (Event.lineH (sx + div.margin.Left) y (sx + div.margin.Left + div.width))).emit
        (Event.lineH (sx + div.margin.Left) pageEndY (sx + div.margin.Left + div.width))
    else pdf
  else
    let x := sx + div.margin.Left
    let y := sy + div.margin.Top
    let pdf :=
      if !IsEmptyString div.backColor then
        pdf.emit (Event.backgroundColor x y div.width div.height div.backColor)
      else pdf
    if div.frameType ≠ DIV_NONE then
      (((pdf.emit (Event.lineV (sx + div.margin.Left) y (y + div.height))).emit
        (Event.lineV (sx + div.margin.Left + div.width) y (y + div.height))).emit
        (Event.lineH (sx + div.margin.Left) y (sx + div.margin.Left + div.width))).emit
        (Event.lineH (sx + div.margin.Left) (y + div.height) (sx + div.margin.Left + div.width))
    else pdf

/-- The `switch` on the frame type at the head of `GenerateAtomicCell`
(div.go 261-268). -/
def selectLineType (div : Div) (pdf : Report) : Report :=
  if div.frameType = DIV_STRAIGHT then pdf.emit (Event.lineType "straight" (1 / 100))
  else if div.frameType = DIV_DASHED then pdf.emit (Event.lineType "dashed" (1 / 100))
  else if div.frameType = DIV_DOTTED then pdf.emit (Event.lineType "dotted" (1 / 100))
  else pdf

/-- The two alignment blocks at the head of the line loop (div.go 276-290):
`border` is the copy of `div.border` saved before the loop. -/
def alignLine (core : Core) (pdf : Report) (div : Div) (border : Scope) (text : List Char) :
    Div :=
  let div :=
    if div.horizontalCentered then
      let width := core.measure div.font text / pdf.unit
      if width < div.width then
        let left := (div.width - width) / 2
        { div with border := NewScope left border.Top 0 border.Right }
      else div
    else div
  if div.rightAlign then
    let width := core.measure div.font text / pdf.unit
    let left := div.width - width
    { div with border := NewScope left border.Top 0 border.Right }
  else div

/-- The page-break branch of the line loop up to the recursive call
(div.go 296-311), at line index `i`. `AddNewPage` is recorded in the trace;
the cursor it leaves is overwritten by the `SetXY` that follows. -/
def pageBreak (core : Core) (pdf : Report) (div : Div) (border : Scope) (i : Nat) :
    Except String (Div × Report) :=
  match SetMarign core pdf div (NewScope div.margin.Left 0 div.margin.Right 0) with
  | Except.error e => Except.error e
  | Except.ok div =>
    let div := SetBorder core pdf div (NewScope border.Left div.lineSpace border.Right 0)
    let div := { div with contents := div.contents.drop i }
    let div := resetHeight div
    let newY := pdf.pageStartY
    let newX := if div.contents.length > 0 then pdf.currX else pdf.pageStartX
    let pdf := pdf.emit Event.addNewPage
    Except.ok (div, { pdf with currX := newX, currY := newY })

/-- Painting of one line (div.go 316-323): the text colour when one is set,
the cell, the default colour again. -/
def paintLine (div : Div) (pdf : Report) (x y : ℚ) (text : List Char) : Report :=
  let pdf :=
    if !IsEmptyString div.fontColor then pdf.emit (Event.textColor div.fontColor) else pdf
  let pdf := pdf.emit (Event.cell x y text)
  if !IsEmptyString div.fontColor then pdf.emit Event.textDefaultColor else pdf

/-- How the line loop of `GenerateAtomicCell` ends. -/
inductive Flow where
  | done (div : Div) (pdf : Report) (y : ℚ)
  | next (div : Div) (pdf : Report)
  | fatal (msg : String)

/-- The end of the loop at a page break: a panic of `SetMarign`, or the
recursive call on the truncated block and the new page. -/
def Flow.ofBreak : Except String (Div × Report) → Flow
  | Except.error e => Flow.fatal e
  | Except.ok (div, pdf) => Flow.next div pdf

/-- The line loop of `GenerateAtomicCell` (div.go 275-324): `n` iterations
remain, `i` is the loop index, `y` the variable `y` of the function. It ends
with `done` when the index reaches the end of the contents, with `next` on the
state handed to the recursive call at a page break. -/
def drawLines (core : Core) (sx sy pageEndY : ℚ) (border : Scope) :
    Nat → Nat → Div → Report → ℚ → Flow
  | 0, _, div, pdf, y => Flow.done div pdf y
  | n + 1, i, div, pdf, _ =>
    let text := div.contents.getD i []
    let div := alignLine core pdf div border text
    let xy := getContentPosition div sx sy i
    if xy.2 + div.lineHeight > pageEndY then
      Flow.ofBreak (pageBreak core pdf div border i)
    else
      let pdf := paintLine div pdf xy.1 xy.2 text
      drawLines core sx sy pageEndY border n (i + 1) div pdf xy.2

/-- `Div.GenerateAtomicCell` (div.go 249-330). The recursion of the source is
bounded by `fuel` (one unit per call); `none` is "fuel exhausted". The result
is the block and the surface as the call leaves them (the Go function returns
`nil`). -/
def GenerateAtomicCell (core : Core) : Nat → Div → Report → Option (Except String (Div × Report))
  | 0, _, _ => none
  | fuel + 1, div, pdf =>
    let sx := pdf.currX
    let sy := pdf.currY
    let pageEndY := pdf.pageEndY
    if IsEmptyFont div.font then
      some (Except.error "no font")
    else
      let pdf := selectLineType div pdf
      let pdf := drawLine div pdf sx sy
      let border := div.border
      match drawLines core sx sy pageEndY border div.contents.length 0 div pdf 0 with
      | Flow.fatal e => some (Except.error e)
      | Flow.next div pdf => GenerateAtomicCell core fuel div pdf
      | Flow.done div pdf y =>
        let x := pdf.pageStartX
        some (Except.ok (div, { pdf with currX := x, currY := y + div.lineHeight + div.margin.Bottom }))

/-! ## Construction: `NewDiv`, `NewDivWithWidth`, `SetFont`, `Copy` -/

/-- `NewDiv` (div.go 39-56): the fields not named in the literal have their
zero value. -/
def NewDiv (lineHeight lineSpce : ℚ) (pdf : Report) : Except String Div :=
  let currX := pdf.currX
  let endX := pdf.pageEndX
  if endX - currX ≤ 0 then
    Except.error "please modify current X"
  else
    Except.ok
      { font := { Family := "", Size := 0, Style := "" }
        frameType := DIV_NONE
        contents := []
        width := endX - currX
        height := lineHeight
        lineHeight := lineHeight
        lineSpace := lineSpce
        fontColor := ""
        backColor := ""
        margin := { Left := 0, Top := 0, Right := 0, Bottom := 0 }
        border := { Left := 0, Top := 0, Right := 0, Bottom := 0 }
        horizontalCentered := false
        rightAlign := false }

/-- `NewDivWithWidth` (div.go 58-79). -/
def NewDivWithWidth (width lineHeight lineSpce : ℚ) (pdf : Report) : Except String Div :=
  let currX := pdf.currX
  let endX := pdf.pageEndX
  if endX - currX ≤ 0 then
    Except.error "please modify current X"
  else
    let width := if endX - currX ≤ width then endX - currX else width
    Except.ok
      { font := { Family := "", Size := 0, Style := "" }
        frameType := DIV_NONE
        contents := []
        width := width
        height := lineHeight
        lineHeight := lineHeight
        lineSpace := lineSpce
        fontColor := ""
        backColor := ""
        margin := { Left := 0, Top := 0, Right := 0, Bottom := 0 }
        border := { Left := 0, Top := 0, Right := 0, Bottom := 0 }
        horizontalCentered := false
        rightAlign := false }

/-- `Div.SetFont` (div.go 171-178): on the block it assigns the font; the
registration and activation on the surface select the font that
`MeasureTextWidth` uses, which the model passes to `Core.measure`. -/
def SetFont (div : Div) (font : Font) : Div :=
  { div with font := font }

/-- `Div.Copy` (div.go 81-97): a new block from seven fields of `div`, then
`SetBorder`, `SetFont` and `SetContent` on it. -/
def Copy (core : Core) (pdf : Report) (div : Div) (content : List Char) : Except String Div :=
  let f : Div :=
    { font := { Family := "", Size := 0, Style := "" }
      frameType := div.frameType
      contents := []
      width := div.width
      height := 0
      lineHeight := div.lineHeight
      lineSpace := div.lineSpace
      fontColor := div.fontColor
      backColor := div.backColor
      margin := { Left := 0, Top := 0, Right := 0, Bottom := 0 }
      border := { Left := 0, Top := 0, Right := 0, Bottom := 0 }
      horizontalCentered := false
      rightAlign := false }
  let f := SetBorder core pdf f div.border
  let f := SetFont f div.font
  SetContent core pdf f content

/-! ## Reading the trace -/

/-- The texts passed to `Cell`, in call order. -/
def cellTexts : List Event → List (List Char)
  | [] => []
  | Event.cell _ _ text :: es => text :: cellTexts es
  | _ :: es => cellTexts es

/-- The `y` of the last `Cell` call, if any. -/
def lastCellY : List Event → Option ℚ
  | [] => none
  | Event.cell _ y _ :: es =>
    match lastCellY es with
    | some y2 => some y2
    | none => some y
  | _ :: es => lastCellY es

/-- The number of `AddNewPage` calls. -/
def pageBreaks : List Event → Nat
  | [] => 0
  | Event.addNewPage :: es => pageBreaks es + 1
  | _ :: es => pageBreaks es

/-! ## Predicates on wrapped lines -/

/-- A candidate line of the rune loop none of whose non-empty prefixes
reaches the width budget. -/
def FitsPrefixes (m : List Char → ℚ) (u W : ℚ) (c : List Char) : Prop :=
  ∀ k, 0 < k → k ≤ c.length → m (c.take k) / u < W

/-- A non-empty line whose proper prefixes stay below the width budget and
which itself is below it or within the tolerance of the rune loop. -/
def StableLine (m : List Char → ℚ) (u W : ℚ) (l : List Char) : Prop :=
  l ≠ [] ∧ (∀ k, 0 < k → k < l.length → m (l.take k) / u < W) ∧
    (m l / u < W ∨ m l - W / u ≤ u * 2)

/-- The surface `q` is `pdf` after drawing calls that are neither `Cell` nor
`AddNewPage`. -/
def QuietFrom (pdf q : Report) : Prop :=
  ∃ evs, q = { pdf with log := pdf.log ++ evs } ∧
    cellTexts evs = [] ∧ pageBreaks evs = 0 ∧ lastCellY evs = none

/-! ## Concrete surface used by the examples -/

/-- A measurement in which every rune is one device unit wide. -/
def monoMeasure (_ : Font) (s : List Char) : ℚ := (s.length : ℚ)

/-- A measurement in which `W` is ten device units wide and every other rune
one. -/
def wideMeasure (_ : Font) (s : List Char) : ℚ :=
  ((s.map (fun c => if c = 'W' then 10 else 1)).sum : ℚ)

/-- Clamps a side to zero when it is negative. -/
def clampSide (q : ℚ) : ℚ := if q < 0 then 0 else q

/-- A sign-correcting normalisation: negative sides become zero. -/
def clampScope (s : Scope) : Scope :=
  { Left := clampSide s.Left, Top := clampSide s.Top,
    Right := clampSide s.Right, Bottom := clampSide s.Bottom }

def demoCore : Core :=
  { measure := monoMeasure, ReplaceMarign := clampScope, ReplaceBorder := clampScope }

def wideCore : Core :=
  { measure := wideMeasure, ReplaceMarign := clampScope, ReplaceBorder := clampScope }

def demoFont : Font := { Family := "f", Size := 10, Style := "" }

def zeroScope : Scope := NewScope 0 0 0 0

/-- A page from (0,0) to (100,30), unit 1, cursor at the page start. -/
def demoReport : Report :=
  { unit := 1, pageStartX := 0, pageStartY := 0, pageEndX := 100, pageEndY := 30,
    currX := 0, currY := 0, log := [] }

/-- A block of the given width with a font, no content, no frame. -/
def demoDiv (width : ℚ) : Div :=
  { font := demoFont, frameType := DIV_NONE, contents := [], width := width,
    height := 10, lineHeight := 10, lineSpace := 0, fontColor := "", backColor := "",
    margin := zeroScope, border := zeroScope, horizontalCentered := false,
    rightAlign := false }


/-- Three lines in a block of width 50, line height 10. -/
def threeLines : Div :=
  { demoDiv 50 with contents := ["one".toList, "two".toList, "three".toList], height := 30 }

/-- Three lines with line height 10, line spacing 2 and bottom margin 5. -/
def spacedLines : Div :=
  { threeLines with lineSpace := 2, margin := NewScope 0 0 0 5, height := 34 }

/-- The three spaced lines with line spacing -2: each line overlaps the one
before by 2. -/
def tightLines : Div :=
  { spacedLines with lineSpace := -2, height := 26 }

/-- The demo page with the cursor half a line height above the page bottom. -/
def bottomReport : Report := { demoReport with currY := 25 }

/-- A page that holds two lines of height 10. -/
def shortReport : Report := { demoReport with pageEndY := 20 }

/-- The demo page with the cursor one line height above the page bottom. -/
def lowReport : Report := { demoReport with currY := 20 }

/-- The demo page with unit 1/10: a rune of one device unit measures ten
logical units. -/
def fineReport : Report := { demoReport with unit := 1 / 10 }

/-- A centered block of width 100 with right border 7 and the single line
`abcd`, which measures 40 on `fineReport`. -/
def centeredDiv : Div :=
  { demoDiv 100 with
    contents := ["abcd".toList], border := NewScope 0 0 7 0, horizontalCentered := true }

/-- A centered block of width 50 with border (2, 0, 3, 0), margin
(5, 0, 0, 0) and three lines. -/
def framedDiv : Div :=
  { threeLines with
    border := NewScope 2 0 3 0, margin := NewScope 5 0 0 0, horizontalCentered := true }

/-- The demo page with the cursor at x = 95, one line height above the page
bottom. -/
def edgeReport : Report := { demoReport with currX := 95, currY := 20 }

/-- One line of height 40 in a block of width 50: taller than the demo page,
which is 30 high. -/
def tallDiv : Div :=
  { demoDiv 50 with contents := ["tall".toList], lineHeight := 40, height := 40 }

/-! ## Content wrap on byte strings -/

namespace Bytes

/-- The struct `Div` with the elements of `contents` as Go strings, that is
sequences of bytes. -/
structure Div where
  font : Font
  frameType : Int
  contents : List (List Nat)
  width : ℚ
  height : ℚ
  lineHeight : ℚ
  lineSpace : ℚ
  fontColor : String
  backColor : String
  margin : Scope
  border : Scope
  horizontalCentered : Bool
  rightAlign : Bool
deriving DecidableEq

/-- `utf8.RuneError`, U+FFFD. -/
def RuneError : Nat := 0xFFFD

/-- Tables `first` and `acceptRanges` of package `utf8`: for a lead byte of a
multi-byte encoding, the size of the encoding and the range of its second
byte; `none` for a byte that starts no multi-byte encoding. -/
def acceptRange (s0 : Nat) : Option (Nat × Nat × Nat) :=
  if 0xC2 ≤ s0 ∧ s0 ≤ 0xDF then some (2, 0x80, 0xBF)
  else if s0 = 0xE0 then some (3, 0xA0, 0xBF)
  else if 0xE1 ≤ s0 ∧ s0 ≤ 0xEC then some (3, 0x80, 0xBF)
  else if s0 = 0xED then some (3, 0x80, 0x9F)
  else if 0xEE ≤ s0 ∧ s0 ≤ 0xEF then some (3, 0x80, 0xBF)
  else if s0 = 0xF0 then some (4, 0x90, 0xBF)
  else if 0xF1 ≤ s0 ∧ s0 ≤ 0xF3 then some (4, 0x80, 0xBF)
  else if s0 = 0xF4 then some (4, 0x80, 0x8F)
  else none

/-- `utf8.DecodeRuneInString`: the first rune of a byte string and its width
in bytes; `(RuneError, 1)` at a byte that starts no valid encoding. -/
def DecodeRuneInString (s : List Nat) : Nat × Nat :=
  match s with
  | [] => (RuneError, 0)
  | s0 :: _ =>
    if s0 < 0x80 then (s0, 1)
    else
      match acceptRange s0 with
      | none => (RuneError, 1)
      | some (sz, lo, hi) =>
        if s.length < sz then (RuneError, 1)
        else if s.getD 1 0 < lo ∨ hi < s.getD 1 0 then (RuneError, 1)
        else if sz ≤ 2 then (s0 % 32 * 64 + s.getD 1 0 % 64, 2)
        else if s.getD 2 0 < 0x80 ∨ 0xBF < s.getD 2 0 then (RuneError, 1)
        else if sz ≤ 3 then (s0 % 16 * 4096 + s.getD 1 0 % 64 * 64 + s.getD 2 0 % 64, 3)
        else if s.getD 3 0 < 0x80 ∨ 0xBF < s.getD 3 0 then (RuneError, 1)
        else (s0 % 8 * 262144 + s.getD 1 0 % 64 * 4096 + s.getD 2 0 % 64 * 64
          + s.getD 3 0 % 64, 4)

/-- The loop of the conversion `[]rune(s)`: `skip` bytes of the encoding
decoded last are still to be passed over; at `skip = 0` a rune is decoded at
the current byte. -/
def runesFrom : Nat → List Nat → List Nat
  | _, [] => []
  | skip + 1, _ :: rest => runesFrom skip rest
  | 0, s0 :: rest =>
    (DecodeRuneInString (s0 :: rest)).1
      :: runesFrom ((DecodeRuneInString (s0 :: rest)).2 - 1) rest

/-- The conversion `[]rune(s)`: the runes of a byte string, an invalid byte
giving U+FFFD. -/
def toRunes (s : List Nat) : List Nat :=
  runesFrom 0 s

/-- `utf8.EncodeRune`: the UTF-8 bytes of a rune; a surrogate or a value
above U+10FFFF is encoded as U+FFFD. -/
def EncodeRune (r : Nat) : List Nat :=
  if r ≤ 0x7F then [r]
  else if r ≤ 0x7FF then [0xC0 + r / 64, 0x80 + r % 64]
  else if r > 0x10FFFF ∨ (0xD800 ≤ r ∧ r ≤ 0xDFFF) then [0xEF, 0xBF, 0xBD]
  else if r ≤ 0xFFFF then [0xE0 + r / 4096, 0x80 + r / 64 % 64, 0x80 + r % 64]
  else [0xF0 + r / 262144, 0x80 + r / 4096 % 64, 0x80 + r / 64 % 64, 0x80 + r % 64]

/-- The conversion `string(line)` of a rune slice. -/
def ofRunes (line : List Nat) : List Nat :=
  line.flatMap EncodeRune

/-- `strings.Replace(content, "\t", "    ", -1)` on bytes: byte 9 becomes
four bytes 32. -/
def replaceTabs : List Nat → List Nat
  | [] => []
  | c :: cs =>
    if c = 9 then 32 :: 32 :: 32 :: 32 :: replaceTabs cs
    else c :: replaceTabs cs

/-- `strings.Split(s, "\n")` on bytes: split at every byte 10, always at
least one block. -/
def splitLines : List Nat → List (List Nat)
  | [] => [[]]
  | c :: cs =>
    if c = 10 then [] :: splitLines cs
    else
      match splitLines cs with
      | [] => [[c]]
      | l :: ls => (c :: l) :: ls

/-- Body of the rune loop of `SetContent` (div.go 221-233): the state is the
pair of `div.contents` (strings) and the candidate `line` (runes); `measure`
takes the string `string(line)`. -/
def wrapStep (measure : List Nat → ℚ) (unit contentWidth : ℚ)
    (st : List (List Nat) × List Nat) (r : Nat) : List (List Nat) × List Nat :=
  let line := st.2 ++ [r]
  let lineLength := measure (ofRunes line)
  if lineLength / unit ≥ contentWidth then
    if lineLength - contentWidth / unit > unit * 2 then
      (st.1 ++ [ofRunes (line.take (line.length - 1))], line.drop (line.length - 1))
    else
      (st.1 ++ [ofRunes line], [])
  else
    (st.1, line)

/-- Body of the block loop of `SetContent` (div.go 210-239): a block is
appended as it is when the whole text fits, and goes through `[]rune` and
`string` otherwise; `whole` is the measured width of the whole converted
text. -/
def wrapBlock (measure : List Nat → ℚ) (unit contentWidth whole : ℚ)
    (contents : List (List Nat)) (block : List Nat) : List (List Nat) :=
  if whole / unit < contentWidth then
    contents ++ [block]
  else
    let st := (toRunes block).foldl (wrapStep measure unit contentWidth) (contents, [])
    if st.2.length > 0 then st.1 ++ [ofRunes st.2] else st.1

/-- `Div.SetContent` (div.go 185-246) on byte strings; `measure` is
`MeasureTextWidth` under a font. -/
def SetContent (measure : Font → List Nat → ℚ) (pdf : Report) (div : Div)
    (content : List Nat) : Except String Div :=
  let convertStr := replaceTabs content
  let unit := pdf.unit
  let blocks := splitLines convertStr
  let contentWidth := div.width - |div.border.Left| - |div.border.Right|
  if IsEmptyFont div.font then
    Except.error "there no avliable font"
  else if blocks.length = 1 ∧ measure div.font convertStr / unit < contentWidth then
    Except.ok { div with
      contents := [convertStr]
      height := |div.border.Top| + |div.border.Bottom| + div.lineHeight }
  else
    let contents := blocks.foldl
      (wrapBlock (measure div.font) unit contentWidth (measure div.font convertStr))
      div.contents
    let length : ℚ := (contents.length : ℚ)
    Except.ok { div with
      contents := contents
      height := div.border.Top + div.lineHeight * length + div.lineSpace * (length - 1) }

/-- A measure of one unit for every rune of the string. -/
def runeMeasure (_ : Font) (s : List Nat) : ℚ :=
  ((toRunes s).length : ℚ)

/-- A block of the given width on byte strings, with the demo font and no
content. -/
def demoDiv (width : ℚ) : Div :=
  { font := demoFont, frameType := DIV_NONE, contents := [], width := width, height := 10,
    lineHeight := 10, lineSpace := 0, fontColor := "", backColor := "",
    margin := zeroScope, border := zeroScope, horizontalCentered := false,
    rightAlign := false }

end Bytes

/-! ## float64 arithmetic -/

/-- Round to the nearest integer, a tie going to the even one. -/
def roundHalfEven (q : ℚ) : ℤ :=
  if q - ⌊q⌋ < 1 / 2 then ⌊q⌋
  else if q - ⌊q⌋ > 1 / 2 then ⌊q⌋ + 1
  else if ⌊q⌋ % 2 = 0 then ⌊q⌋ else ⌊q⌋ + 1

/-- The float64 nearest to a rational (round to nearest, ties to even, 53
bits of significand), for results in the normal range: with `e` the exponent,
`2^e ≤ |x| < 2^(e+1)`, the result is the multiple of `2^(e-52)` nearest to
`x`. Overflow and subnormal numbers are not modelled. -/
def fl64 (x : ℚ) : ℚ :=
  if x = 0 then 0
  else (roundHalfEven (x / 2 ^ (Int.log 2 |x| - 52)) : ℚ) * 2 ^ (Int.log 2 |x| - 52)

/-- `Div.SetBorder` (div.go 127-140) with the result of every float64
operation rounded by `fl`: the test adds `(width + border.Left) +
border.Right`, the assignment `width + (border.Left + border.Right)`. -/
def SetBorderF (fl : ℚ → ℚ) (core : Core) (pdf : Report) (div : Div) (border : Scope) : Div :=
  let border := core.ReplaceBorder border
  let currX := pdf.currX
  let endX := pdf.pageEndX
  let div :=
    if fl (endX - fl (currX + div.margin.Left))
        ≥ fl (fl (div.width + border.Left) + border.Right) then
      { div with width := fl (div.width + fl (border.Left + border.Right)) }
    else div
  { div with border := border }

/-- The demo page ending at x = 0.6, the float64 `5404319552844595 / 2^53`. -/
def narrowReport : Report :=
  { demoReport with pageEndX := 5404319552844595 / 2 ^ 53 }

/-- A block of width 0.3, the float64 `5404319552844595 / 2^54`. -/
def narrowDiv : Div :=
  demoDiv (5404319552844595 / 2 ^ 54)

/-- A border of 0.2 on the left and 0.1 on the right, the float64s
`3602879701896397 / 2^54` and `3602879701896397 / 2^55`. -/
def narrowBorder : Scope :=
  NewScope (3602879701896397 / 2 ^ 54) 0 (3602879701896397 / 2 ^ 55) 0

/-! ## Lemmas on the content wrap -/

theorem wrapStep_eq (m : List Char → ℚ) (u W : ℚ) (out : List (List Char))
    (line : List Char) (r : Char) :
    wrapStep m u W (out, line) r =
      if m (line ++ [r]) / u ≥ W then
        if m (line ++ [r]) - W / u > u * 2 then (out ++ [line], [r])
        else (out ++ [line ++ [r]], [])
      else (out, line ++ [r]) := by
  simp [wrapStep]

theorem wrapStep_join (m : List Char → ℚ) (u W : ℚ) (st : List (List Char) × List Char)
    (r : Char) :
    (wrapStep m u W st r).1.flatten ++ (wrapStep m u W st r).2 = st.1.flatten ++ st.2 ++ [r] := by
  obtain ⟨out, line⟩ := st
  rw [wrapStep_eq]
  split_ifs <;> simp

theorem wrapFold_join (m : List Char → ℚ) (u W : ℚ) (block : List Char) :
    ∀ st : List (List Char) × List Char,
      (block.foldl (wrapStep m u W) st).1.flatten ++ (block.foldl (wrapStep m u W) st).2
        = st.1.flatten ++ st.2 ++ block := by
  induction block with
  | nil => intro st; simp
  | cons r rs ih =>
    intro st
    simp only [List.foldl_cons]
    rw [ih, wrapStep_join]
    simp

theorem wrapBlock_join (m : List Char → ℚ) (u W whole : ℚ) (contents : List (List Char))
    (block : List Char) :
    (wrapBlock m u W whole contents block).flatten = contents.flatten ++ block := by
  simp only [wrapBlock]
  have := wrapFold_join m u W block (contents, [])
  by_cases h1 : whole / u < W
  · simp [h1]
  · by_cases h2 : (block.foldl (wrapStep m u W) (contents, [])).2.length > 0
    · simpa [h1, h2] using this
    · have h3 : (block.foldl (wrapStep m u W) (contents, [])).2 = [] := by
        simpa using h2
      simpa [h1, h3] using this

theorem wrapBlocks_join (m : List Char → ℚ) (u W whole : ℚ) (blocks : List (List Char)) :
    ∀ contents : List (List Char),
      (blocks.foldl (wrapBlock m u W whole) contents).flatten = contents.flatten ++ blocks.flatten := by
  induction blocks with
  | nil => intro c; simp
  | cons b bs ih =>
    intro c
    simp only [List.foldl_cons]
    rw [ih, wrapBlock_join]
    simp

theorem wrapStep_width (m : List Char → ℚ) (u W : ℚ) (st : List (List Char) × List Char)
    (r : Char)
    (hout : ∀ l ∈ st.1, l.length ≤ 1 ∨ m l / u < W ∨ m l - W / u ≤ u * 2)
    (hcand : st.2.length ≤ 1 ∨ m st.2 / u < W) :
    (∀ l ∈ (wrapStep m u W st r).1, l.length ≤ 1 ∨ m l / u < W ∨ m l - W / u ≤ u * 2) ∧
      ((wrapStep m u W st r).2.length ≤ 1 ∨ m (wrapStep m u W st r).2 / u < W) := by
  obtain ⟨out, line⟩ := st
  rw [wrapStep_eq]
  by_cases h1 : m (line ++ [r]) / u ≥ W
  · by_cases h2 : m (line ++ [r]) - W / u > u * 2
    · simp only [h1, h2, if_true]
      refine ⟨?_, Or.inl (by simp)⟩
      intro l hl
      rcases List.mem_append.1 hl with h | h
      · exact hout l h
      · have : l = line := by simpa using h
        subst this
        rcases hcand with h | h
        · exact Or.inl h
        · exact Or.inr (Or.inl h)
    · simp only [h1, h2, if_true, if_false]
      refine ⟨?_, Or.inl (by simp)⟩
      intro l hl
      rcases List.mem_append.1 hl with h | h
      · exact hout l h
      · have : l = line ++ [r] := by simpa using h
        subst this
        exact Or.inr (Or.inr (not_lt.1 h2))
  · simp only [h1, if_false]
    exact ⟨hout, Or.inr (not_le.1 h1)⟩

theorem wrapFold_width (m : List Char → ℚ) (u W : ℚ) (block : List Char) :
    ∀ st : List (List Char) × List Char,
      (∀ l ∈ st.1, l.length ≤ 1 ∨ m l / u < W ∨ m l - W / u ≤ u * 2) →
      (st.2.length ≤ 1 ∨ m st.2 / u < W) →
      (∀ l ∈ (block.foldl (wrapStep m u W) st).1,
          l.length ≤ 1 ∨ m l / u < W ∨ m l - W / u ≤ u * 2) ∧
        ((block.foldl (wrapStep m u W) st).2.length ≤ 1 ∨
          m (block.foldl (wrapStep m u W) st).2 / u < W) := by
  induction block with
  | nil => intro st h1 h2; exact ⟨h1, h2⟩
  | cons r rs ih =>
    intro st h1 h2
    simp only [List.foldl_cons]
    have h := wrapStep_width m u W st r h1 h2
    exact ih _ h.1 h.2

theorem wrapBlock_width (m : List Char → ℚ) (u W whole : ℚ) (hw : ¬ whole / u < W)
    (contents : List (List Char)) (block : List Char)
    (hout : ∀ l ∈ contents, l.length ≤ 1 ∨ m l / u < W ∨ m l - W / u ≤ u * 2) :
    ∀ l ∈ wrapBlock m u W whole contents block,
      l.length ≤ 1 ∨ m l / u < W ∨ m l - W / u ≤ u * 2 := by
  have h := wrapFold_width m u W block (contents, []) hout (Or.inl (by simp))
  simp only [wrapBlock, hw, if_false]
  by_cases h2 : (block.foldl (wrapStep m u W) (contents, [])).2.length > 0
  · simp only [h2, if_true]
    intro l hl
    rcases List.mem_append.1 hl with h3 | h3
    · exact h.1 l h3
    · have : l = (block.foldl (wrapStep m u W) (contents, [])).2 := by simpa using h3
      rw [this]
      rcases h.2 with h4 | h4
      · exact Or.inl h4
      · exact Or.inr (Or.inl h4)
  · simp only [h2, if_false]
    exact h.1

theorem wrapBlocks_width (m : List Char → ℚ) (u W whole : ℚ) (hw : ¬ whole / u < W)
    (blocks : List (List Char)) :
    ∀ contents : List (List Char),
      (∀ l ∈ contents, l.length ≤ 1 ∨ m l / u < W ∨ m l - W / u ≤ u * 2) →
      ∀ l ∈ blocks.foldl (wrapBlock m u W whole) contents,
        l.length ≤ 1 ∨ m l / u < W ∨ m l - W / u ≤ u * 2 := by
  induction blocks with
  | nil => intro c h; simpa using h
  | cons b bs ih =>
    intro c h
    simp only [List.foldl_cons]
    exact ih _ (wrapBlock_width m u W whole hw c b h)

theorem wrapBlocks_fits (m : List Char → ℚ) (u W whole : ℚ) (hw : whole / u < W)
    (blocks : List (List Char)) :
    ∀ contents : List (List Char),
      blocks.foldl (wrapBlock m u W whole) contents = contents ++ blocks := by
  induction blocks with
  | nil => intro c; simp
  | cons b bs ih =>
    intro c
    simp only [List.foldl_cons]
    rw [ih]
    simp [wrapBlock, hw]

/-! ### `strings.Split` and `strings.Replace` -/

theorem splitLines_ne_nil (s : List Char) : splitLines s ≠ [] := by
  cases s with
  | nil => simp [splitLines]
  | cons c cs =>
    simp only [splitLines]
    split_ifs
    · simp
    · split <;> simp

theorem splitLines_flatten (s : List Char) :
    (splitLines s).flatten = s.filter (fun c => decide (c ≠ '\n')) := by
  induction s with
  | nil => simp [splitLines]
  | cons c cs ih =>
    simp only [splitLines]
    by_cases h : c = '\n'
    · simp [h, ih]
    · simp only [h, if_false]
      have hne := splitLines_ne_nil cs
      cases hs : splitLines cs with
      | nil => exact absurd hs hne
      | cons l ls =>
        rw [hs] at ih
        simp only [List.flatten_cons] at ih
        simp [h, ih]

theorem splitLines_length (s : List Char) :
    (splitLines s).length = s.count '\n' + 1 := by
  induction s with
  | nil => simp [splitLines]
  | cons c cs ih =>
    simp only [splitLines]
    by_cases h : c = '\n'
    · simp [h, ih]
    · simp only [h, if_false]
      have hne := splitLines_ne_nil cs
      cases hs : splitLines cs with
      | nil => exact absurd hs hne
      | cons l ls =>
        rw [hs] at ih
        have : (c == '\n') = false := by simpa using h
        simp [List.count_cons, this, ← ih]

theorem splitLines_single (s : List Char) (h : (splitLines s).length = 1) :
    splitLines s = [s] ∧ '\n' ∉ s := by
  have hc : s.count '\n' = 0 := by
    have := splitLines_length s
    omega
  have hn : '\n' ∉ s := List.count_eq_zero.1 hc
  refine ⟨?_, hn⟩
  have hf := splitLines_flatten s
  have hfil : s.filter (fun c => decide (c ≠ '\n')) = s := by
    rw [List.filter_eq_self]
    intro a ha
    have : a ≠ '\n' := fun e => hn (e ▸ ha)
    simpa using this
  rw [hfil] at hf
  match hs : splitLines s, h with
  | [b], _ =>
    rw [hs] at hf
    simp at hf
    rw [hf]

theorem replaceTabs_no_tab (s : List Char) : '\t' ∉ replaceTabs s := by
  induction s with
  | nil => simp [replaceTabs]
  | cons c cs ih =>
    simp only [replaceTabs]
    by_cases h : c = '\t'
    · simp only [h, if_true]
      simp [ih]
    · simp only [h, if_false]
      simp [ih]
      exact fun e => h e.symm

theorem mem_replaceTabs (s : List Char) (c : Char) (h : c ∈ replaceTabs s) :
    c = ' ' ∨ c ∈ s := by
  induction s with
  | nil => simp [replaceTabs] at h
  | cons a as ih =>
    simp only [replaceTabs] at h
    by_cases ha : a = '\t'
    · simp only [ha, if_true, List.mem_cons] at h
      rcases h with h | h | h | h | h
      · exact Or.inl h
      · exact Or.inl h
      · exact Or.inl h
      · exact Or.inl h
      · rcases ih h with h | h
        · exact Or.inl h
        · exact Or.inr (List.mem_cons_of_mem _ h)
    · simp only [ha, if_false, List.mem_cons] at h
      rcases h with h | h
      · exact Or.inr (by simp [h])
      · rcases ih h with h | h
        · exact Or.inl h
        · exact Or.inr (List.mem_cons_of_mem _ h)

/-- With a font set, `SetContent` does not panic: it is one of its two
assignments. -/
theorem SetContent_eq (core : Core) (pdf : Report) (div : Div) (content : List Char)
    (hfont : IsEmptyFont div.font = false) :
    SetContent core pdf div content =
      if (splitLines (replaceTabs content)).length = 1 ∧
          core.measure div.font (replaceTabs content) / pdf.unit
            < div.width - |div.border.Left| - |div.border.Right| then
        Except.ok { div with
          contents := [replaceTabs content]
          height := |div.border.Top| + |div.border.Bottom| + div.lineHeight }
      else
        Except.ok { div with
          contents := (splitLines (replaceTabs content)).foldl
            (wrapBlock (core.measure div.font) pdf.unit
              (div.width - |div.border.Left| - |div.border.Right|)
              (core.measure div.font (replaceTabs content))) div.contents
          height := div.border.Top
            + div.lineHeight * (((splitLines (replaceTabs content)).foldl
                (wrapBlock (core.measure div.font) pdf.unit
                  (div.width - |div.border.Left| - |div.border.Right|)
                  (core.measure div.font (replaceTabs content))) div.contents).length : ℚ)
            + div.lineSpace * ((((splitLines (replaceTabs content)).foldl
                (wrapBlock (core.measure div.font) pdf.unit
                  (div.width - |div.border.Left| - |div.border.Right|)
                  (core.measure div.font (replaceTabs content))) div.contents).length : ℚ) - 1) } := by
  simp [SetContent, hfont]

/-! ## C1: measured width of the produced lines -/

/-- C1, as stated, fails: with every rune one unit wide, unit 1 and a budget
of 3, `SetContent "abcdef"` commits the line `abc`, whose measured width 3 is
not strictly less than the budget. -/
theorem SetContent_width_counterexample :
    ∃ d, SetContent demoCore demoReport (demoDiv 3) "abcdef".toList = Except.ok d ∧
      IsEmptyFont (demoDiv 3).font = false ∧ (demoDiv 3).contents = [] ∧
      ∃ l ∈ d.contents,
        ¬ (demoCore.measure (demoDiv 3).font l / demoReport.unit
            < (demoDiv 3).width - |(demoDiv 3).border.Left| - |(demoDiv 3).border.Right|) := by
  refine ⟨{ demoDiv 3 with contents := ["abc".toList, "def".toList], height := 20 }, ?_, ?_, ?_,
    "abc".toList, ?_, ?_⟩
  · simp +decide [SetContent, demoCore, demoReport, demoDiv, replaceTabs, splitLines, wrapBlock,
      wrapStep, monoMeasure, IsEmptyFont, demoFont, zeroScope, NewScope]
    norm_num
  · decide
  · rfl
  · simp
  · simp [demoCore, demoReport, demoDiv, monoMeasure, zeroScope, NewScope]

/-- C1, amended: on a block with a font and no prior content `SetContent`
returns normally and, with `W = width - |border.Left| - |border.Right|`:
if the whole converted text measures below `W` the lines are its paragraphs
unchanged (a single line measuring below `W` when the text has no newline);
otherwise every produced line measures below `W`, or overshoots `W` within
the tolerance of the source (`measure - W/unit ≤ 2*unit`), or has at most
one rune. -/
theorem SetContent_line_widths (core : Core) (pdf : Report) (div : Div) (content : List Char)
    (hfont : IsEmptyFont div.font = false) (hnil : div.contents = []) :
    ∃ d, SetContent core pdf div content = Except.ok d ∧
      (core.measure div.font (replaceTabs content) / pdf.unit
          < div.width - |div.border.Left| - |div.border.Right| →
        d.contents = splitLines (replaceTabs content) ∧
        ('\n' ∉ content → ∀ l ∈ d.contents,
          core.measure div.font l / pdf.unit
            < div.width - |div.border.Left| - |div.border.Right|)) ∧
      (¬ core.measure div.font (replaceTabs content) / pdf.unit
          < div.width - |div.border.Left| - |div.border.Right| →
        ∀ l ∈ d.contents,
          l.length ≤ 1 ∨
          core.measure div.font l / pdf.unit
            < div.width - |div.border.Left| - |div.border.Right| ∨
          core.measure div.font l - (div.width - |div.border.Left| - |div.border.Right|) / pdf.unit
            ≤ pdf.unit * 2) := by
  rw [SetContent_eq core pdf div content hfont]
  by_cases hw : core.measure div.font (replaceTabs content) / pdf.unit
      < div.width - |div.border.Left| - |div.border.Right|
  · have hcont : ∀ d : Div, (d.contents = splitLines (replaceTabs content)) →
        (d.contents = splitLines (replaceTabs content) ∧
        ('\n' ∉ content → ∀ l ∈ d.contents,
          core.measure div.font l / pdf.unit
            < div.width - |div.border.Left| - |div.border.Right|)) := by
      intro d hd
      refine ⟨hd, ?_⟩
      intro hn l hl
      have hn2 : '\n' ∉ replaceTabs content := by
        intro hmem
        rcases mem_replaceTabs _ _ hmem with h | h
        · exact absurd h (by decide)
        · exact hn h
      have hlen : (splitLines (replaceTabs content)).length = 1 := by
        rw [splitLines_length, List.count_eq_zero.2 hn2]
      rw [hd, (splitLines_single _ hlen).1] at hl
      have : l = replaceTabs content := by simpa using hl
      rw [this]
      exact hw
    by_cases h1 : (splitLines (replaceTabs content)).length = 1
    · refine ⟨_, by rw [if_pos ⟨h1, hw⟩], fun _ => hcont _ ?_, fun h => absurd hw h⟩
      exact (splitLines_single _ h1).1.symm
    · refine ⟨_, by rw [if_neg (fun h => h1 h.1)], fun _ => hcont _ ?_, fun h => absurd hw h⟩
      simp only
      rw [wrapBlocks_fits _ _ _ _ hw, hnil]
      simp
  · refine ⟨_, by rw [if_neg (fun h => hw h.2)], fun h => absurd h hw, fun _ => ?_⟩
    simp only
    apply wrapBlocks_width _ _ _ _ hw
    rw [hnil]
    simp

/-- C1, amended, at a concrete input: budget 3, text `abcdef`. -/
theorem SetContent_line_widths_witness :
    ∃ d, SetContent demoCore demoReport (demoDiv 3) "abcdef".toList = Except.ok d ∧
      (demoCore.measure (demoDiv 3).font (replaceTabs "abcdef".toList) / demoReport.unit
          < (demoDiv 3).width - |(demoDiv 3).border.Left| - |(demoDiv 3).border.Right| →
        d.contents = splitLines (replaceTabs "abcdef".toList) ∧
        ('\n' ∉ "abcdef".toList → ∀ l ∈ d.contents,
          demoCore.measure (demoDiv 3).font l / demoReport.unit
            < (demoDiv 3).width - |(demoDiv 3).border.Left| - |(demoDiv 3).border.Right|)) ∧
      (¬ demoCore.measure (demoDiv 3).font (replaceTabs "abcdef".toList) / demoReport.unit
          < (demoDiv 3).width - |(demoDiv 3).border.Left| - |(demoDiv 3).border.Right| →
        ∀ l ∈ d.contents,
          l.length ≤ 1 ∨
          demoCore.measure (demoDiv 3).font l / demoReport.unit
            < (demoDiv 3).width - |(demoDiv 3).border.Left| - |(demoDiv 3).border.Right| ∨
          demoCore.measure (demoDiv 3).font l
              - ((demoDiv 3).width - |(demoDiv 3).border.Left| - |(demoDiv 3).border.Right|)
                / demoReport.unit
            ≤ demoReport.unit * 2) :=
  SetContent_line_widths demoCore demoReport (demoDiv 3) "abcdef".toList (by decide) (by rfl)

/-! ## Lemmas on byte strings and runes -/

theorem ofRunes_append (a b : List Nat) :
    Bytes.ofRunes (a ++ b) = Bytes.ofRunes a ++ Bytes.ofRunes b := by
  simp [Bytes.ofRunes]

theorem ofRunes_cons (r : Nat) (rs : List Nat) :
    Bytes.ofRunes (r :: rs) = Bytes.EncodeRune r ++ Bytes.ofRunes rs := by
  simp [Bytes.ofRunes]

/-- A byte below 0x80 in the encoding of a rune is the rune itself. -/
theorem mem_EncodeRune_ascii (r b : Nat) (hb : b ∈ Bytes.EncodeRune r) (h : b < 0x80) :
    b = r ∧ Bytes.EncodeRune r = [r] := by
  unfold Bytes.EncodeRune at hb ⊢
  split_ifs at hb ⊢
  · simp at hb
    exact ⟨hb, rfl⟩
  all_goals
    simp at hb
    omega

theorem decode_two (b0 b1 : Nat) (s : List Nat) (h0 : 0xC2 ≤ b0 ∧ b0 ≤ 0xDF)
    (h1 : 0x80 ≤ b1 ∧ b1 ≤ 0xBF) :
    Bytes.DecodeRuneInString (b0 :: b1 :: s) = (b0 % 32 * 64 + b1 % 64, 2) := by
  have ha : Bytes.acceptRange b0 = some (2, 0x80, 0xBF) := by
    unfold Bytes.acceptRange
    rw [if_pos h0]
  have hlt : ¬ b0 < 0x80 := by omega
  have hr : ¬ (b1 < 0x80 ∨ 0xBF < b1) := by omega
  simp only [Bytes.DecodeRuneInString, hlt, if_false, ha, List.length_cons, List.getD_cons_succ,
    List.getD_cons_zero, hr]
  simp

theorem decode_three (b0 b1 b2 lo hi : Nat) (s : List Nat)
    (ha : Bytes.acceptRange b0 = some (3, lo, hi)) (h0 : 0x80 ≤ b0)
    (h1 : lo ≤ b1 ∧ b1 ≤ hi) (h2 : 0x80 ≤ b2 ∧ b2 ≤ 0xBF) :
    Bytes.DecodeRuneInString (b0 :: b1 :: b2 :: s)
      = (b0 % 16 * 4096 + b1 % 64 * 64 + b2 % 64, 3) := by
  have hlt : ¬ b0 < 0x80 := by omega
  have hr1 : ¬ (b1 < lo ∨ hi < b1) := by omega
  have hr2 : ¬ (b2 < 0x80 ∨ 0xBF < b2) := by omega
  simp only [Bytes.DecodeRuneInString, hlt, if_false, ha, List.length_cons, List.getD_cons_succ,
    List.getD_cons_zero, hr1, hr2]
  simp

theorem decode_four (b0 b1 b2 b3 lo hi : Nat) (s : List Nat)
    (ha : Bytes.acceptRange b0 = some (4, lo, hi)) (h0 : 0x80 ≤ b0)
    (h1 : lo ≤ b1 ∧ b1 ≤ hi) (h2 : 0x80 ≤ b2 ∧ b2 ≤ 0xBF) (h3 : 0x80 ≤ b3 ∧ b3 ≤ 0xBF) :
    Bytes.DecodeRuneInString (b0 :: b1 :: b2 :: b3 :: s)
      = (b0 % 8 * 262144 + b1 % 64 * 4096 + b2 % 64 * 64 + b3 % 64, 4) := by
  have hlt : ¬ b0 < 0x80 := by omega
  have hr1 : ¬ (b1 < lo ∨ hi < b1) := by omega
  have hr2 : ¬ (b2 < 0x80 ∨ 0xBF < b2) := by omega
  have hr3 : ¬ (b3 < 0x80 ∨ 0xBF < b3) := by omega
  simp only [Bytes.DecodeRuneInString, hlt, if_false, ha, List.length_cons, List.getD_cons_succ,
    List.getD_cons_zero, hr1, hr2, hr3]
  simp

/-- The second-byte range of a three-byte lead byte. -/
theorem acceptRange_three (r : Nat) (h1 : 0x800 ≤ r) (h2 : r ≤ 0xFFFF)
    (hs : r < 0xD800 ∨ 0xE000 ≤ r) :
    ∃ lo hi, Bytes.acceptRange (0xE0 + r / 4096) = some (3, lo, hi) ∧
      lo ≤ 0x80 + r / 64 % 64 ∧ 0x80 + r / 64 % 64 ≤ hi := by
  unfold Bytes.acceptRange
  split_ifs <;> first
    | (exfalso; omega)
    | exact ⟨_, _, rfl, by omega, by omega⟩

/-- The second-byte range of a four-byte lead byte. -/
theorem acceptRange_four (r : Nat) (h1 : 0x10000 ≤ r) (h2 : r ≤ 0x10FFFF) :
    ∃ lo hi, Bytes.acceptRange (0xF0 + r / 262144) = some (4, lo, hi) ∧
      lo ≤ 0x80 + r / 4096 % 64 ∧ 0x80 + r / 4096 % 64 ≤ hi := by
  unfold Bytes.acceptRange
  split_ifs <;> first
    | (exfalso; omega)
    | exact ⟨_, _, rfl, by omega, by omega⟩

/-- Decoding at the encoding of a Unicode scalar value gives the value back
and the width of its encoding. -/
theorem decode_encode (r : Nat) (s : List Nat)
    (hr : r < 0xD800 ∨ (0xE000 ≤ r ∧ r ≤ 0x10FFFF)) :
    Bytes.DecodeRuneInString (Bytes.EncodeRune r ++ s) = (r, (Bytes.EncodeRune r).length) := by
  unfold Bytes.EncodeRune
  split_ifs with h1 h2 h3 h4
  · have : r < 0x80 := by omega
    simp [Bytes.DecodeRuneInString, this]
  · simp only [List.cons_append, List.nil_append]
    rw [decode_two _ _ _ (by omega) (by omega)]
    simp only [List.length_cons, List.length_nil, Prod.mk.injEq, and_true]
    omega
  · exfalso
    omega
  · obtain ⟨lo, hi, ha, hlo, hhi⟩ := acceptRange_three r (by omega) h4 (by omega)
    simp only [List.cons_append, List.nil_append]
    rw [decode_three _ _ _ lo hi _ ha (by omega) ⟨hlo, hhi⟩ (by omega)]
    simp only [List.length_cons, List.length_nil, Prod.mk.injEq, and_true]
    omega
  · obtain ⟨lo, hi, ha, hlo, hhi⟩ := acceptRange_four r (by omega) (by omega)
    simp only [List.cons_append, List.nil_append]
    rw [decode_four _ _ _ _ lo hi _ ha (by omega) ⟨hlo, hhi⟩ (by omega) (by omega)]
    simp only [List.length_cons, List.length_nil, Prod.mk.injEq, and_true]
    omega

theorem runesFrom_skip (pre s : List Nat) :
    Bytes.runesFrom pre.length (pre ++ s) = Bytes.runesFrom 0 s := by
  induction pre with
  | nil => rfl
  | cons a as ih =>
    simp only [List.length_cons, List.cons_append, Bytes.runesFrom]
    exact ih

theorem EncodeRune_ne_nil (r : Nat) : ∃ b tl, Bytes.EncodeRune r = b :: tl := by
  unfold Bytes.EncodeRune
  split_ifs <;> exact ⟨_, _, rfl⟩

theorem toRunes_encode (r : Nat) (s : List Nat)
    (hr : r < 0xD800 ∨ (0xE000 ≤ r ∧ r ≤ 0x10FFFF)) :
    Bytes.toRunes (Bytes.EncodeRune r ++ s) = r :: Bytes.toRunes s := by
  have hd := decode_encode r s hr
  obtain ⟨b, tl, he⟩ := EncodeRune_ne_nil r
  rw [he] at hd ⊢
  simp only [List.cons_append] at hd ⊢
  simp only [Bytes.toRunes, Bytes.runesFrom, hd, List.length_cons, Nat.add_sub_cancel]
  rw [runesFrom_skip]

/-- Decoding the encoding of Unicode scalar values gives them back. -/
theorem toRunes_ofRunes (rs : List Nat)
    (hrs : ∀ r ∈ rs, r < 0xD800 ∨ (0xE000 ≤ r ∧ r ≤ 0x10FFFF)) :
    Bytes.toRunes (Bytes.ofRunes rs) = rs := by
  induction rs with
  | nil => rfl
  | cons r rs ih =>
    rw [ofRunes_cons, toRunes_encode r _ (hrs r (List.mem_cons_self _ _)),
      ih (fun x hx => hrs x (List.mem_cons_of_mem _ hx))]


theorem bytes_wrapStep_join (m : List Nat → ℚ) (u W : ℚ) (st : List (List Nat) × List Nat)
    (r : Nat) :
    (Bytes.wrapStep m u W st r).1.flatten ++ Bytes.ofRunes (Bytes.wrapStep m u W st r).2
      = st.1.flatten ++ Bytes.ofRunes st.2 ++ Bytes.EncodeRune r := by
  obtain ⟨out, line⟩ := st
  have e : Bytes.ofRunes (line ++ [r]) = Bytes.ofRunes line ++ Bytes.EncodeRune r := by
    simp [Bytes.ofRunes]
  simp only [Bytes.wrapStep]
  split_ifs
  · simp [Bytes.ofRunes]
  · simp [e, Bytes.ofRunes]
  · simp [e]

theorem bytes_wrapFold_join (m : List Nat → ℚ) (u W : ℚ) (runes : List Nat) :
    ∀ st : List (List Nat) × List Nat,
      (runes.foldl (Bytes.wrapStep m u W) st).1.flatten
          ++ Bytes.ofRunes (runes.foldl (Bytes.wrapStep m u W) st).2
        = st.1.flatten ++ Bytes.ofRunes st.2 ++ Bytes.ofRunes runes := by
  induction runes with
  | nil => intro st; simp [Bytes.ofRunes]
  | cons r rs ih =>
    intro st
    simp only [List.foldl_cons]
    rw [ih, bytes_wrapStep_join, ofRunes_cons]
    simp

/-- The lines added for a block concatenate to the block itself when the
whole text fits, and to the encoding of its runes otherwise. -/
theorem bytes_wrapBlock_join (m : List Nat → ℚ) (u W whole : ℚ) (contents : List (List Nat))
    (block : List Nat) :
    (Bytes.wrapBlock m u W whole contents block).flatten
      = contents.flatten
        ++ (if whole / u < W then block else Bytes.ofRunes (Bytes.toRunes block)) := by
  simp only [Bytes.wrapBlock]
  have := bytes_wrapFold_join m u W (Bytes.toRunes block) (contents, [])
  by_cases h1 : whole / u < W
  · simp [h1]
  · by_cases h2 : ((Bytes.toRunes block).foldl (Bytes.wrapStep m u W) (contents, [])).2.length > 0
    · simpa [h1, h2, Bytes.ofRunes] using this
    · have h3 : ((Bytes.toRunes block).foldl (Bytes.wrapStep m u W) (contents, [])).2 = [] := by
        simpa using h2
      simpa [h1, h3, Bytes.ofRunes] using this

theorem bytes_wrapBlocks_join (m : List Nat → ℚ) (u W whole : ℚ) (blocks : List (List Nat))
    (hb : ∀ b ∈ blocks, Bytes.ofRunes (Bytes.toRunes b) = b) :
    ∀ contents : List (List Nat),
      (blocks.foldl (Bytes.wrapBlock m u W whole) contents).flatten
        = contents.flatten ++ blocks.flatten := by
  induction blocks with
  | nil => intro c; simp
  | cons b bs ih =>
    intro c
    simp only [List.foldl_cons]
    rw [ih (fun x hx => hb x (List.mem_cons_of_mem _ hx)), bytes_wrapBlock_join,
      hb b (List.mem_cons_self _ _)]
    simp

theorem bytes_splitLines_ne_nil (s : List Nat) : Bytes.splitLines s ≠ [] := by
  cases s with
  | nil => simp [Bytes.splitLines]
  | cons c cs =>
    simp only [Bytes.splitLines]
    split_ifs
    · simp
    · split <;> simp

theorem bytes_splitLines_flatten (s : List Nat) :
    (Bytes.splitLines s).flatten = s.filter (fun c => decide (c ≠ 10)) := by
  induction s with
  | nil => simp [Bytes.splitLines]
  | cons c cs ih =>
    simp only [Bytes.splitLines]
    by_cases h : c = 10
    · simp [h, ih]
    · simp only [h, if_false]
      have hne := bytes_splitLines_ne_nil cs
      cases hs : Bytes.splitLines cs with
      | nil => exact absurd hs hne
      | cons l ls =>
        rw [hs] at ih
        simp only [List.flatten_cons] at ih
        simp [h, ih]

/-- A prefix without a newline byte stays in front of the first block. -/
theorem bytes_splitLines_append (e t : List Nat) (he : 10 ∉ e) :
    ∃ hd tl, Bytes.splitLines t = hd :: tl ∧ Bytes.splitLines (e ++ t) = (e ++ hd) :: tl := by
  induction e with
  | nil =>
    cases hs : Bytes.splitLines t with
    | nil => exact absurd hs (bytes_splitLines_ne_nil t)
    | cons l ls => exact ⟨l, ls, rfl, by simpa using hs⟩
  | cons c cs ih =>
    have hc : c ≠ 10 := fun e => he (by simp [e])
    obtain ⟨hd, tl, h1, h2⟩ := ih (fun h => he (List.mem_cons_of_mem _ h))
    refine ⟨hd, tl, h1, ?_⟩
    have e : Bytes.splitLines (c :: (cs ++ t))
        = (match Bytes.splitLines (cs ++ t) with
          | [] => [[c]]
          | l :: ls => (c :: l) :: ls) := by
      simp only [Bytes.splitLines, hc, if_false]
    rw [List.cons_append, e, h2]
    rfl

theorem bytes_replaceTabs_append (a b : List Nat) :
    Bytes.replaceTabs (a ++ b) = Bytes.replaceTabs a ++ Bytes.replaceTabs b := by
  induction a with
  | nil => rfl
  | cons c cs ih =>
    simp only [List.cons_append, Bytes.replaceTabs]
    split_ifs <;> simp [ih]

theorem bytes_replaceTabs_no_tab (s : List Nat) : 9 ∉ Bytes.replaceTabs s := by
  induction s with
  | nil => simp [Bytes.replaceTabs]
  | cons c cs ih =>
    simp only [Bytes.replaceTabs]
    by_cases h : c = 9
    · simp only [h, if_true]
      simp [ih]
    · simp only [h, if_false]
      simp [ih]
      exact fun e => h e.symm

theorem bytes_replaceTabs_of_no_tab (s : List Nat) (h : 9 ∉ s) : Bytes.replaceTabs s = s := by
  induction s with
  | nil => rfl
  | cons c cs ih =>
    have hc : c ≠ 9 := fun e => h (by simp [e])
    simp only [Bytes.replaceTabs, hc, if_false, ih (fun h2 => h (List.mem_cons_of_mem _ h2))]

/-- The tab-expanded encoding of one scalar value is a newline byte, or has
no newline byte and is the encoding of scalar values. -/
theorem replaceTabs_encode (r : Nat) (hr : r < 0xD800 ∨ (0xE000 ≤ r ∧ r ≤ 0x10FFFF)) :
    Bytes.replaceTabs (Bytes.EncodeRune r) = [10] ∨
      (10 ∉ Bytes.replaceTabs (Bytes.EncodeRune r) ∧
        ∃ re, (∀ x ∈ re, x < 0xD800 ∨ (0xE000 ≤ x ∧ x ≤ 0x10FFFF)) ∧
          Bytes.replaceTabs (Bytes.EncodeRune r) = Bytes.ofRunes re) := by
  by_cases h9 : r = 9
  · subst h9
    exact Or.inr ⟨by decide, [32, 32, 32, 32], by decide, by decide⟩
  · by_cases h10 : r = 10
    · subst h10
      exact Or.inl (by decide)
    · have hno : ∀ b ∈ Bytes.EncodeRune r, b ≠ 9 ∧ b ≠ 10 := by
        intro b hb
        by_cases hs : b < 0x80
        · have := (mem_EncodeRune_ascii r b hb hs).1
          omega
        · omega
      have e : Bytes.replaceTabs (Bytes.EncodeRune r) = Bytes.EncodeRune r :=
        bytes_replaceTabs_of_no_tab _ (fun h => (hno 9 h).1 rfl)
      rw [e]
      refine Or.inr ⟨fun h => (hno 10 h).2 rfl, [r], ?_, by simp [Bytes.ofRunes]⟩
      intro x hx
      have : x = r := by simpa using hx
      rw [this]
      exact hr

/-- Every paragraph of the tab-expanded encoding of scalar values is itself
the encoding of scalar values. -/
theorem blocks_encoded (rs : List Nat)
    (hrs : ∀ r ∈ rs, r < 0xD800 ∨ (0xE000 ≤ r ∧ r ≤ 0x10FFFF)) :
    ∀ b ∈ Bytes.splitLines (Bytes.replaceTabs (Bytes.ofRunes rs)),
      ∃ rb, (∀ x ∈ rb, x < 0xD800 ∨ (0xE000 ≤ x ∧ x ≤ 0x10FFFF)) ∧ b = Bytes.ofRunes rb := by
  induction rs with
  | nil =>
    intro b hb
    have : b = [] := by simpa [Bytes.ofRunes, Bytes.replaceTabs, Bytes.splitLines] using hb
    exact ⟨[], by simp, by rw [this]; rfl⟩
  | cons r rs ih =>
    have ih2 := ih (fun x hx => hrs x (List.mem_cons_of_mem _ hx))
    intro b hb
    rw [ofRunes_cons, bytes_replaceTabs_append] at hb
    rcases replaceTabs_encode r (hrs r (List.mem_cons_self _ _)) with h | ⟨hno, re, hre, he⟩
    · rw [h] at hb
      simp only [List.cons_append, List.nil_append, Bytes.splitLines, if_true,
        List.mem_cons] at hb
      rcases hb with hb | hb
      · exact ⟨[], by simp, by rw [hb]; rfl⟩
      · exact ih2 b hb
    · obtain ⟨hd, tl, h1, h2⟩ := bytes_splitLines_append _
        (Bytes.replaceTabs (Bytes.ofRunes rs)) hno
      rw [h2] at hb
      rw [h1] at ih2
      rcases List.mem_cons.1 hb with hb | hb
      · obtain ⟨rh, hrh, hh⟩ := ih2 hd (List.mem_cons_self _ _)
        refine ⟨re ++ rh, ?_, ?_⟩
        · intro x hx
          rcases List.mem_append.1 hx with hx | hx
          · exact hre x hx
          · exact hrh x hx
        · rw [hb, he, hh, ofRunes_append]
      · exact ih2 b (List.mem_cons_of_mem _ hb)

theorem bytes_splitLines_length (s : List Nat) :
    (Bytes.splitLines s).length = s.count 10 + 1 := by
  induction s with
  | nil => simp [Bytes.splitLines]
  | cons c cs ih =>
    simp only [Bytes.splitLines]
    by_cases h : c = 10
    · simp [h, ih]
    · simp only [h, if_false]
      have hne := bytes_splitLines_ne_nil cs
      cases hs : Bytes.splitLines cs with
      | nil => exact absurd hs hne
      | cons l ls =>
        rw [hs] at ih
        have : (c == 10) = false := by simpa using h
        simp [List.count_cons, this, ← ih]

/-- With a font set, `SetContent` on byte strings does not panic: it is one of
its two assignments. -/
theorem bytes_SetContent_eq (measure : Font → List Nat → ℚ) (pdf : Report) (div : Bytes.Div)
    (content : List Nat) (hfont : IsEmptyFont div.font = false) :
    Bytes.SetContent measure pdf div content =
      if (Bytes.splitLines (Bytes.replaceTabs content)).length = 1 ∧
          measure div.font (Bytes.replaceTabs content) / pdf.unit
            < div.width - |div.border.Left| - |div.border.Right| then
        Except.ok { div with
          contents := [Bytes.replaceTabs content]
          height := |div.border.Top| + |div.border.Bottom| + div.lineHeight }
      else
        Except.ok { div with
          contents := (Bytes.splitLines (Bytes.replaceTabs content)).foldl
            (Bytes.wrapBlock (measure div.font) pdf.unit
              (div.width - |div.border.Left| - |div.border.Right|)
              (measure div.font (Bytes.replaceTabs content))) div.contents
          height := div.border.Top
            + div.lineHeight * (((Bytes.splitLines (Bytes.replaceTabs content)).foldl
                (Bytes.wrapBlock (measure div.font) pdf.unit
                  (div.width - |div.border.Left| - |div.border.Right|)
                  (measure div.font (Bytes.replaceTabs content))) div.contents).length : ℚ)
            + div.lineSpace * ((((Bytes.splitLines (Bytes.replaceTabs content)).foldl
                (Bytes.wrapBlock (measure div.font) pdf.unit
                  (div.width - |div.border.Left| - |div.border.Right|)
                  (measure div.font (Bytes.replaceTabs content))) div.contents).length : ℚ)
              - 1) } := by
  simp [Bytes.SetContent, hfont]

/-! ## C2: conservation of the text -/

/-- C2, as stated, fails: on a block of width 1 with a font and no content,
under a measure of one unit a rune, the content `a\xffb` (bytes 97, 255, 98)
is wrapped through `[]rune` and `string` into the lines `a`, U+FFFD (bytes
239, 191, 189) and `b`, whose concatenation is not the content: the byte 255
is lost. -/
theorem SetContent_conservation_counterexample :
    ∃ d, Bytes.SetContent Bytes.runeMeasure demoReport (Bytes.demoDiv 1) [97, 255, 98]
        = Except.ok d ∧
      d.contents = [[97], [239, 191, 189], [98]] ∧
      d.contents.flatten
        ≠ (Bytes.replaceTabs [97, 255, 98]).filter (fun c => decide (c ≠ 10)) := by
  refine ⟨{ Bytes.demoDiv 1 with contents := [[97], [239, 191, 189], [98]], height := 30 },
    ?_, rfl, by decide⟩
  norm_num +decide [Bytes.SetContent, Bytes.demoDiv, Bytes.runeMeasure, Bytes.replaceTabs,
    Bytes.splitLines, Bytes.wrapBlock, Bytes.wrapStep, Bytes.toRunes, Bytes.runesFrom,
    Bytes.DecodeRuneInString, Bytes.acceptRange, Bytes.RuneError, Bytes.ofRunes,
    Bytes.EncodeRune, demoReport, IsEmptyFont, demoFont, zeroScope, NewScope]

/-- C2, amended: on a block with a font and no prior content, for every
content that is valid UTF-8, that is the encoding of a sequence of Unicode
scalar values, `SetContent` returns normally, the concatenation of the
produced lines is the content with every tab replaced by four spaces and
every newline removed, and no produced line contains a tab or a newline. -/
theorem SetContent_conservation (measure : Font → List Nat → ℚ) (pdf : Report)
    (div : Bytes.Div) (content runes : List Nat)
    (hfont : IsEmptyFont div.font = false) (hnil : div.contents = [])
    (hrunes : ∀ r ∈ runes, r < 0xD800 ∨ (0xE000 ≤ r ∧ r ≤ 0x10FFFF))
    (hvalid : content = Bytes.ofRunes runes) :
    ∃ d, Bytes.SetContent measure pdf div content = Except.ok d ∧
      d.contents.flatten = (Bytes.replaceTabs content).filter (fun c => decide (c ≠ 10)) ∧
      ∀ l ∈ d.contents, 9 ∉ l ∧ 10 ∉ l := by
  have key : ∀ d : Bytes.Div,
      d.contents.flatten = (Bytes.replaceTabs content).filter (fun c => decide (c ≠ 10)) →
      (d.contents.flatten = (Bytes.replaceTabs content).filter (fun c => decide (c ≠ 10)) ∧
        ∀ l ∈ d.contents, 9 ∉ l ∧ 10 ∉ l) := by
    intro d hd
    refine ⟨hd, ?_⟩
    intro l hl
    have hsub : ∀ c ∈ l,
        c ∈ (Bytes.replaceTabs content).filter (fun c => decide (c ≠ 10)) := by
      intro c hc
      rw [← hd]
      exact List.mem_flatten.2 ⟨l, hl, hc⟩
    constructor
    · intro ht
      have := (List.mem_filter.1 (hsub _ ht)).1
      exact bytes_replaceTabs_no_tab content this
    · intro hn
      have := (List.mem_filter.1 (hsub _ hn)).2
      simp at this
  have hblocks : ∀ b ∈ Bytes.splitLines (Bytes.replaceTabs content),
      Bytes.ofRunes (Bytes.toRunes b) = b := by
    intro b hb
    rw [hvalid] at hb
    obtain ⟨rb, hrb, e⟩ := blocks_encoded runes hrunes b hb
    rw [e, toRunes_ofRunes rb hrb]
  rw [bytes_SetContent_eq measure pdf div content hfont]
  by_cases h1 : (Bytes.splitLines (Bytes.replaceTabs content)).length = 1 ∧
      measure div.font (Bytes.replaceTabs content) / pdf.unit
        < div.width - |div.border.Left| - |div.border.Right|
  · refine ⟨_, by rw [if_pos h1], key _ ?_⟩
    have hc : (Bytes.replaceTabs content).count 10 = 0 := by
      have := bytes_splitLines_length (Bytes.replaceTabs content)
      omega
    have hn : 10 ∉ Bytes.replaceTabs content := List.count_eq_zero.1 hc
    simp only [List.flatten_cons, List.flatten_nil, List.append_nil]
    symm
    rw [List.filter_eq_self]
    intro a ha
    have : a ≠ 10 := fun e => hn (e ▸ ha)
    simpa using this
  · refine ⟨_, by rw [if_neg h1], key _ ?_⟩
    simp only
    rw [bytes_wrapBlocks_join _ _ _ _ _ hblocks, hnil, bytes_splitLines_flatten]
    simp

/-- C2, amended, at a concrete input: the text `é`, tab, `b`, newline, `€`
(bytes 195 169, 9, 98, 10, 226 130 172) on a block of width 1, where every
rune is wrapped into a line of its own. -/
theorem SetContent_conservation_witness :
    ∃ d, Bytes.SetContent Bytes.runeMeasure demoReport (Bytes.demoDiv 1)
        [195, 169, 9, 98, 10, 226, 130, 172] = Except.ok d ∧
      d.contents.flatten
        = (Bytes.replaceTabs [195, 169, 9, 98, 10, 226, 130, 172]).filter
            (fun c => decide (c ≠ 10)) ∧
      ∀ l ∈ d.contents, 9 ∉ l ∧ 10 ∉ l :=
  SetContent_conservation Bytes.runeMeasure demoReport (Bytes.demoDiv 1)
    [195, 169, 9, 98, 10, 226, 130, 172] [233, 9, 98, 10, 8364] (by decide) (by rfl)
    (by decide) (by decide)

/-! ## C3: height and line count -/

/-- C3 fails on the code: the line `ab` on a block with border (0, 1, 0, 2),
line height 10 and line spacing 0 is assigned by the single-line branch of
`SetContent` at width 3 with height `|1| + |2| + 10 = 13`, and by the
wrapping branch of the same function at width 2 with height
`1 + 10*1 + 0*0 = 11`, the value of the height formula; `SetBorder` leaves
the height of the three-line block at 30 with `border.Top = 1`; and
`resetHeight` on a block without lines (line spacing 2) leaves height -2,
not 0. -/
theorem height_not_consistent :
    (∃ d, SetContent demoCore demoReport
        (SetBorder demoCore demoReport (demoDiv 3) (NewScope 0 1 0 2)) "ab".toList
          = Except.ok d ∧
      d.contents = ["ab".toList] ∧ d.height = 13 ∧
      d.border.Top + d.lineHeight * (d.contents.length : ℚ)
        + d.lineSpace * ((d.contents.length : ℚ) - 1) = 11) ∧
    (∃ d, SetContent demoCore demoReport
        (SetBorder demoCore demoReport (demoDiv 2) (NewScope 0 1 0 2)) "ab".toList
          = Except.ok d ∧
      d.contents = ["ab".toList] ∧ d.height = 11) ∧
    ((SetBorder demoCore demoReport threeLines (NewScope 0 1 0 2)).height = 30 ∧
      (SetBorder demoCore demoReport threeLines (NewScope 0 1 0 2)).border.Top = 1 ∧
      (SetBorder demoCore demoReport threeLines (NewScope 0 1 0 2)).contents.length = 3) ∧
    (resetHeight { spacedLines with contents := [] }).height = -2 := by
  refine ⟨⟨{ demoDiv 3 with
        contents := ["ab".toList], height := 13, border := NewScope 0 1 0 2 }, ?_, rfl, rfl, ?_⟩,
    ⟨{ demoDiv 2 with
        contents := ["ab".toList], height := 11, border := NewScope 0 1 0 2 }, ?_, rfl, rfl⟩,
    ⟨?_, ?_, ?_⟩, ?_⟩
  · norm_num +decide [SetContent, SetBorder, demoCore, demoReport, demoDiv, replaceTabs,
      splitLines, monoMeasure, IsEmptyFont, demoFont, zeroScope, NewScope, clampScope, clampSide]
  · norm_num [demoDiv, NewScope]
  · norm_num +decide [SetContent, SetBorder, demoCore, demoReport, demoDiv, replaceTabs,
      splitLines, wrapBlock, wrapStep, monoMeasure, IsEmptyFont, demoFont, zeroScope, NewScope,
      clampScope, clampSide]
  · norm_num [SetBorder, demoCore, demoReport, threeLines, demoDiv, zeroScope, NewScope,
      clampScope, clampSide]
  · norm_num [SetBorder, demoCore, demoReport, threeLines, demoDiv, zeroScope, NewScope,
      clampScope, clampSide]
  · norm_num [SetBorder, demoCore, demoReport, threeLines, demoDiv, zeroScope, NewScope,
      clampScope, clampSide]
  · norm_num [resetHeight, spacedLines, threeLines, demoDiv, zeroScope, NewScope]

/-! ## C4: reassigning the content -/

/-- C4 fails on the code: on a block of width 50 holding the lines of
`"ab\ncd"`, `SetContent "ef\ngh"` appends and leaves four lines, while the
same call on the block without content leaves the two lines `ef`, `gh`. -/
theorem SetContent_reassign_appends :
    ∃ d1 d2 d3,
      SetContent demoCore demoReport (demoDiv 50) "ab\ncd".toList = Except.ok d1 ∧
      SetContent demoCore demoReport d1 "ef\ngh".toList = Except.ok d2 ∧
      SetContent demoCore demoReport (demoDiv 50) "ef\ngh".toList = Except.ok d3 ∧
      d2.contents = ["ab".toList, "cd".toList, "ef".toList, "gh".toList] ∧
      d3.contents = ["ef".toList, "gh".toList] ∧
      d2.height = 40 ∧ d3.height = 20 := by
  refine ⟨{ demoDiv 50 with contents := ["ab".toList, "cd".toList], height := 20 },
    { demoDiv 50 with
      contents := ["ab".toList, "cd".toList, "ef".toList, "gh".toList], height := 40 },
    { demoDiv 50 with contents := ["ef".toList, "gh".toList], height := 20 },
    ?_, ?_, ?_, rfl, rfl, rfl, rfl⟩
  · norm_num +decide [SetContent, demoCore, demoReport, demoDiv, replaceTabs, splitLines,
      wrapBlock, monoMeasure, IsEmptyFont, demoFont, zeroScope, NewScope]
  · norm_num +decide [SetContent, demoCore, demoReport, demoDiv, replaceTabs, splitLines,
      wrapBlock, monoMeasure, IsEmptyFont, demoFont, zeroScope, NewScope]
  · norm_num +decide [SetContent, demoCore, demoReport, demoDiv, replaceTabs, splitLines,
      wrapBlock, monoMeasure, IsEmptyFont, demoFont, zeroScope, NewScope]

/-! ## C5: wrapping the wrapped lines again -/

theorem fitsPrefixes_snoc (m : List Char → ℚ) (u W : ℚ) (c : List Char) (r : Char)
    (hc : FitsPrefixes m u W c) (h : m (c ++ [r]) / u < W) :
    FitsPrefixes m u W (c ++ [r]) := by
  intro k hk hkl
  by_cases h1 : k ≤ c.length
  · rw [List.take_append_of_le_length h1]
    exact hc k hk h1
  · have : (c ++ [r]).length ≤ k := by
      simp only [List.length_append, List.length_singleton] at hkl ⊢
      omega
    rw [List.take_of_length_le this]
    exact h

theorem stableLine_of_fits (m : List Char → ℚ) (u W : ℚ) (c : List Char)
    (hc : FitsPrefixes m u W c) (hne : c ≠ []) : StableLine m u W c := by
  refine ⟨hne, fun k hk hkl => hc k hk (le_of_lt hkl), Or.inl ?_⟩
  have hpos : 0 < c.length := List.length_pos.2 hne
  have := hc c.length hpos (le_refl _)
  rwa [List.take_length] at this

theorem stableLine_snoc (m : List Char → ℚ) (u W : ℚ) (c : List Char) (r : Char)
    (hc : FitsPrefixes m u W c) (h : m (c ++ [r]) - W / u ≤ u * 2) :
    StableLine m u W (c ++ [r]) := by
  refine ⟨by simp, ?_, Or.inr h⟩
  intro k hk hkl
  have h1 : k ≤ c.length := by
    simp only [List.length_append, List.length_singleton] at hkl
    omega
  rw [List.take_append_of_le_length h1]
  exact hc k hk h1

theorem wrapStep_stable (m : List Char → ℚ) (u W : ℚ) (st : List (List Char) × List Char)
    (r : Char) (hr : m [r] / u < W)
    (hout : ∀ l ∈ st.1, StableLine m u W l) (hcand : FitsPrefixes m u W st.2) :
    (∀ l ∈ (wrapStep m u W st r).1, StableLine m u W l) ∧
      FitsPrefixes m u W (wrapStep m u W st r).2 := by
  obtain ⟨out, line⟩ := st
  rw [wrapStep_eq]
  by_cases h1 : m (line ++ [r]) / u ≥ W
  · by_cases h2 : m (line ++ [r]) - W / u > u * 2
    · simp only [h1, h2, if_true]
      have hne : line ≠ [] := by
        intro e
        rw [e] at h1
        simp only [List.nil_append] at h1
        exact absurd hr (not_lt.2 h1)
      refine ⟨?_, ?_⟩
      · intro l hl
        rcases List.mem_append.1 hl with h | h
        · exact hout l h
        · have : l = line := by simpa using h
          rw [this]
          exact stableLine_of_fits m u W line hcand hne
      · intro k hk hkl
        have : k = 1 := by
          simp only [List.length_singleton] at hkl
          omega
        subst this
        simpa using hr
    · simp only [h1, h2, if_true, if_false]
      refine ⟨?_, ?_⟩
      · intro l hl
        rcases List.mem_append.1 hl with h | h
        · exact hout l h
        · have : l = line ++ [r] := by simpa using h
          rw [this]
          exact stableLine_snoc m u W line r hcand (not_lt.1 h2)
      · intro k hk hkl
        simp only [List.length_nil] at hkl
        omega
  · simp only [h1, if_false]
    exact ⟨hout, fitsPrefixes_snoc m u W line r hcand (not_le.1 h1)⟩

theorem wrapFold_stable (m : List Char → ℚ) (u W : ℚ) (block : List Char) :
    ∀ st : List (List Char) × List Char,
      (∀ r ∈ block, m [r] / u < W) →
      (∀ l ∈ st.1, StableLine m u W l) → FitsPrefixes m u W st.2 →
      (∀ l ∈ (block.foldl (wrapStep m u W) st).1, StableLine m u W l) ∧
        FitsPrefixes m u W (block.foldl (wrapStep m u W) st).2 := by
  induction block with
  | nil => intro st _ h1 h2; exact ⟨h1, h2⟩
  | cons r rs ih =>
    intro st hr h1 h2
    simp only [List.foldl_cons]
    have h := wrapStep_stable m u W st r (hr r (List.mem_cons_self _ _)) h1 h2
    exact ih _ (fun x hx => hr x (List.mem_cons_of_mem _ hx)) h.1 h.2

theorem wrapBlock_stable (m : List Char → ℚ) (u W whole : ℚ) (hw : ¬ whole / u < W)
    (contents : List (List Char)) (block : List Char)
    (hr : ∀ r ∈ block, m [r] / u < W)
    (hout : ∀ l ∈ contents, StableLine m u W l) :
    ∀ l ∈ wrapBlock m u W whole contents block, StableLine m u W l := by
  have hnil : FitsPrefixes m u W [] := by
    intro k hk hkl
    simp only [List.length_nil] at hkl
    omega
  have h := wrapFold_stable m u W block (contents, []) hr hout hnil
  simp only [wrapBlock, hw, if_false]
  by_cases h2 : (block.foldl (wrapStep m u W) (contents, [])).2.length > 0
  · simp only [h2, if_true]
    intro l hl
    rcases List.mem_append.1 hl with h3 | h3
    · exact h.1 l h3
    · have : l = (block.foldl (wrapStep m u W) (contents, [])).2 := by simpa using h3
      rw [this]
      exact stableLine_of_fits m u W _ h.2 (List.length_pos.1 h2)
  · simp only [h2, if_false]
    exact h.1

theorem wrapBlocks_stable (m : List Char → ℚ) (u W whole : ℚ) (hw : ¬ whole / u < W)
    (blocks : List (List Char)) :
    ∀ contents : List (List Char),
      (∀ b ∈ blocks, ∀ r ∈ b, m [r] / u < W) →
      (∀ l ∈ contents, StableLine m u W l) →
      ∀ l ∈ blocks.foldl (wrapBlock m u W whole) contents, StableLine m u W l := by
  induction blocks with
  | nil => intro c _ h; simpa using h
  | cons b bs ih =>
    intro c hr h
    simp only [List.foldl_cons]
    exact ih _ (fun b2 hb2 => hr b2 (List.mem_cons_of_mem _ hb2))
      (wrapBlock_stable m u W whole hw c b (hr b (List.mem_cons_self _ _)) h)

/-- A candidate whose prefixes all fit goes through the rune loop without a
commit. -/
theorem wrapFold_fits (m : List Char → ℚ) (u W : ℚ) (out : List (List Char)) (p : List Char)
    (hp : FitsPrefixes m u W p) :
    p.foldl (wrapStep m u W) (out, []) = (out, p) := by
  induction p using List.reverseRecOn with
  | nil => rfl
  | append_singleton q r ih =>
    have hq : FitsPrefixes m u W q := by
      intro k hk hkl
      have := hp k hk (by simp only [List.length_append, List.length_singleton]; omega)
      rwa [List.take_append_of_le_length hkl] at this
    have hall : m (q ++ [r]) / u < W := by
      have := hp (q ++ [r]).length (by simp) (le_refl _)
      rwa [List.take_length] at this
    rw [List.foldl_append, ih hq]
    simp only [List.foldl_cons, List.foldl_nil]
    rw [wrapStep_eq, if_neg (not_le.2 hall)]

/-- A stable line is wrapped to itself. -/
theorem wrapBlock_of_stable (m : List Char → ℚ) (u W whole : ℚ) (hw : ¬ whole / u < W)
    (out : List (List Char)) (l : List Char) (hl : StableLine m u W l) :
    wrapBlock m u W whole out l = out ++ [l] := by
  obtain ⟨hne, hpre, hlast⟩ := hl
  rcases List.eq_nil_or_concat l with h | ⟨q, r, h⟩
  · exact absurd h hne
  · rw [List.concat_eq_append] at h
    subst h
    have hq : FitsPrefixes m u W q := by
      intro k hk hkl
      have := hpre k hk (by simp only [List.length_append, List.length_singleton]; omega)
      rwa [List.take_append_of_le_length hkl] at this
    simp only [wrapBlock, hw, if_false]
    rw [List.foldl_append, wrapFold_fits m u W out q hq]
    simp only [List.foldl_cons, List.foldl_nil]
    rw [wrapStep_eq]
    by_cases h1 : m (q ++ [r]) / u ≥ W
    · have h2 : ¬ m (q ++ [r]) - W / u > u * 2 := by
        rcases hlast with h3 | h3
        · exact absurd h3 (not_lt.2 h1)
        · exact not_lt.2 h3
      simp [h1, h2]
    · simp [h1]

theorem wrapBlocks_of_stable (m : List Char → ℚ) (u W whole : ℚ) (hw : ¬ whole / u < W)
    (ls : List (List Char)) :
    ∀ out : List (List Char), (∀ l ∈ ls, StableLine m u W l) →
      ls.foldl (wrapBlock m u W whole) out = out ++ ls := by
  induction ls with
  | nil => intro out _; simp
  | cons l ls ih =>
    intro out h
    simp only [List.foldl_cons]
    rw [wrapBlock_of_stable m u W whole hw out l (h l (List.mem_cons_self _ _)),
      ih _ (fun x hx => h x (List.mem_cons_of_mem _ hx))]
    simp

theorem splitLines_of_no_nl (s : List Char) (h : '\n' ∉ s) : splitLines s = [s] := by
  have hlen : (splitLines s).length = 1 := by
    rw [splitLines_length, List.count_eq_zero.2 h]
  exact (splitLines_single s hlen).1

theorem splitLines_append_nl (l rest : List Char) (h : '\n' ∉ l) :
    splitLines (l ++ '\n' :: rest) = l :: splitLines rest := by
  induction l with
  | nil => simp [splitLines]
  | cons c cs ih =>
    have hc : c ≠ '\n' := fun e => h (by simp [e])
    have hcs : '\n' ∉ cs := fun e => h (List.mem_cons_of_mem _ e)
    have e : splitLines (c :: (cs ++ '\n' :: rest))
        = (match splitLines (cs ++ '\n' :: rest) with
          | [] => [[c]]
          | l :: ls => (c :: l) :: ls) := by
      simp only [splitLines, hc, if_false]
    rw [List.cons_append, e, ih hcs]

theorem splitLines_joinLines (ls : List (List Char)) (hne : ls ≠ [])
    (h : ∀ l ∈ ls, '\n' ∉ l) : splitLines (joinLines ls) = ls := by
  induction ls with
  | nil => exact absurd rfl hne
  | cons l rest ih =>
    cases rest with
    | nil =>
      simp only [joinLines]
      exact splitLines_of_no_nl l (h l (List.mem_cons_self _ _))
    | cons l2 rest2 =>
      simp only [joinLines]
      rw [splitLines_append_nl l _ (h l (List.mem_cons_self _ _))]
      rw [ih (by simp) (fun x hx => h x (List.mem_cons_of_mem _ hx))]

theorem joinLines_splitLines (s : List Char) : joinLines (splitLines s) = s := by
  induction s with
  | nil => simp [splitLines, joinLines]
  | cons c cs ih =>
    have hne := splitLines_ne_nil cs
    simp only [splitLines]
    by_cases h : c = '\n'
    · simp only [h, if_true]
      cases hs : splitLines cs with
      | nil => exact absurd hs hne
      | cons l ls =>
        rw [hs] at ih
        simp only [joinLines, List.nil_append, ih]
    · simp only [h, if_false]
      cases hs : splitLines cs with
      | nil => exact absurd hs hne
      | cons l ls =>
        rw [hs] at ih
        cases ls with
        | nil =>
          simp only [joinLines] at ih ⊢
          rw [ih]
        | cons l2 ls2 =>
          simp only [joinLines, List.cons_append] at ih ⊢
          rw [ih]

theorem replaceTabs_of_no_tab (s : List Char) (h : '\t' ∉ s) : replaceTabs s = s := by
  induction s with
  | nil => rfl
  | cons c cs ih =>
    have hc : c ≠ '\t' := fun e => h (by simp [e])
    simp only [replaceTabs, hc, if_false]
    rw [ih (fun e => h (List.mem_cons_of_mem _ e))]

theorem mem_joinLines (ls : List (List Char)) (c : Char) (h : c ∈ joinLines ls) :
    c = '\n' ∨ ∃ l ∈ ls, c ∈ l := by
  induction ls with
  | nil => simp [joinLines] at h
  | cons l rest ih =>
    cases rest with
    | nil =>
      simp only [joinLines] at h
      exact Or.inr ⟨l, List.mem_cons_self _ _, h⟩
    | cons l2 rest2 =>
      simp only [joinLines, List.mem_append, List.mem_cons] at h
      rcases h with h | h | h
      · exact Or.inr ⟨l, List.mem_cons_self _ _, h⟩
      · exact Or.inl h
      · rcases ih h with h2 | ⟨x, hx, hc⟩
        · exact Or.inl h2
        · exact Or.inr ⟨x, List.mem_cons_of_mem _ hx, hc⟩

/-- The lines `SetContent` leaves on a block with a font and no prior
content. -/
theorem SetContent_contents (core : Core) (pdf : Report) (div : Div) (content : List Char)
    (hfont : IsEmptyFont div.font = false) (hnil : div.contents = []) :
    ∃ d, SetContent core pdf div content = Except.ok d ∧
      (core.measure div.font (replaceTabs content) / pdf.unit
          < div.width - |div.border.Left| - |div.border.Right| →
        d.contents = splitLines (replaceTabs content)) ∧
      (¬ core.measure div.font (replaceTabs content) / pdf.unit
          < div.width - |div.border.Left| - |div.border.Right| →
        d.contents = (splitLines (replaceTabs content)).foldl
          (wrapBlock (core.measure div.font) pdf.unit
            (div.width - |div.border.Left| - |div.border.Right|)
            (core.measure div.font (replaceTabs content))) []) := by
  rw [SetContent_eq core pdf div content hfont]
  by_cases hw : core.measure div.font (replaceTabs content) / pdf.unit
      < div.width - |div.border.Left| - |div.border.Right|
  · by_cases h1 : (splitLines (replaceTabs content)).length = 1
    · rw [if_pos ⟨h1, hw⟩]
      exact ⟨_, rfl, fun _ => (splitLines_single _ h1).1.symm, fun h => absurd hw h⟩
    · rw [if_neg (fun h => h1 h.1)]
      refine ⟨_, rfl, fun _ => ?_, fun h => absurd hw h⟩
      simp only
      rw [wrapBlocks_fits _ _ _ _ hw, hnil]
      simp
  · rw [if_neg (fun h => hw h.2)]
    refine ⟨_, rfl, fun h => absurd h hw, fun _ => ?_⟩
    simp only
    rw [hnil]

/-- C5, as stated, fails: with `W` ten units wide, every other rune one unit
and a budget of 3, `SetContent "aW"` gives the lines `a`, `W`; `SetContent`
of `"a\nW"` on the same empty block gives `a`, the empty line and `W`. -/
theorem rewrap_counterexample :
    ∃ d d2, SetContent wideCore demoReport (demoDiv 3) "aW".toList = Except.ok d ∧
      SetContent wideCore demoReport (demoDiv 3) (joinLines d.contents) = Except.ok d2 ∧
      d.contents = ["a".toList, "W".toList] ∧
      d2.contents = ["a".toList, [], "W".toList] ∧
      d2.contents ≠ d.contents := by
  refine ⟨{ demoDiv 3 with contents := ["a".toList, "W".toList], height := 20 },
    { demoDiv 3 with contents := ["a".toList, [], "W".toList], height := 30 },
    ?_, ?_, rfl, rfl, by decide⟩
  · norm_num +decide [SetContent, wideCore, demoReport, demoDiv, replaceTabs, splitLines,
      wrapBlock, wrapStep, wideMeasure, IsEmptyFont, demoFont, zeroScope, NewScope]
  · norm_num +decide [SetContent, wideCore, demoReport, demoDiv, replaceTabs, splitLines,
      wrapBlock, wrapStep, wideMeasure, IsEmptyFont, demoFont, zeroScope, NewScope, joinLines]

/-- C5, amended: on a block with a font and no prior content, if every
single rune of the converted text measures below the budget
`W = width - |border.Left| - |border.Right|`, then `SetContent c` returns
lines `L` and, when `L` is not empty, `SetContent` of the lines of `L` joined
by newlines on the same block returns exactly `L` again. -/
theorem rewrap_idempotent (core : Core) (pdf : Report) (div : Div) (content : List Char)
    (hfont : IsEmptyFont div.font = false) (hnil : div.contents = [])
    (hrune : ∀ r ∈ replaceTabs content,
      core.measure div.font [r] / pdf.unit
        < div.width - |div.border.Left| - |div.border.Right|) :
    ∃ d, SetContent core pdf div content = Except.ok d ∧
      (d.contents ≠ [] →
        ∃ d2, SetContent core pdf div (joinLines d.contents) = Except.ok d2 ∧
          d2.contents = d.contents) := by
  obtain ⟨d, hd, hfit, hwrap⟩ := SetContent_contents core pdf div content hfont hnil
  refine ⟨d, hd, fun hne => ?_⟩
  by_cases hw : core.measure div.font (replaceTabs content) / pdf.unit
      < div.width - |div.border.Left| - |div.border.Right|
  · have hc := hfit hw
    have hj : joinLines d.contents = replaceTabs content := by
      rw [hc, joinLines_splitLines]
    have hsame : SetContent core pdf div (joinLines d.contents)
        = SetContent core pdf div content := by
      rw [SetContent_eq core pdf div _ hfont, SetContent_eq core pdf div content hfont, hj,
        replaceTabs_of_no_tab _ (replaceTabs_no_tab content)]
    exact ⟨d, by rw [hsame, hd], rfl⟩
  · have hc := hwrap hw
    have hflat : d.contents.flatten
        = (replaceTabs content).filter (fun c => decide (c ≠ '\n')) := by
      rw [hc, wrapBlocks_join, splitLines_flatten]
      simp
    have hsub : ∀ l ∈ d.contents, ∀ c ∈ l,
        c ∈ (replaceTabs content).filter (fun c => decide (c ≠ '\n')) := by
      intro l hl c hcl
      rw [← hflat]
      exact List.mem_flatten.2 ⟨l, hl, hcl⟩
    have hnonl : ∀ l ∈ d.contents, '\n' ∉ l := by
      intro l hl hn
      have := (List.mem_filter.1 (hsub l hl _ hn)).2
      simp at this
    have hnotab : '\t' ∉ joinLines d.contents := by
      intro ht
      rcases mem_joinLines _ _ ht with h | ⟨l, hl, hcl⟩
      · exact absurd h (by decide)
      · exact replaceTabs_no_tab content (List.mem_filter.1 (hsub l hl _ hcl)).1
    have hblocks : ∀ b ∈ splitLines (replaceTabs content), ∀ r ∈ b,
        core.measure div.font [r] / pdf.unit
          < div.width - |div.border.Left| - |div.border.Right| := by
      intro b hb r hr
      apply hrune
      have : r ∈ (splitLines (replaceTabs content)).flatten :=
        List.mem_flatten.2 ⟨b, hb, hr⟩
      rw [splitLines_flatten] at this
      exact (List.mem_filter.1 this).1
    have hstable : ∀ l ∈ d.contents,
        StableLine (core.measure div.font) pdf.unit
          (div.width - |div.border.Left| - |div.border.Right|) l := by
      rw [hc]
      exact wrapBlocks_stable _ _ _ _ hw _ [] hblocks (by simp)
    obtain ⟨d2, hd2, hfit2, hwrap2⟩ :=
      SetContent_contents core pdf div (joinLines d.contents) hfont hnil
    rw [replaceTabs_of_no_tab _ hnotab, splitLines_joinLines _ hne hnonl] at hfit2 hwrap2
    refine ⟨d2, hd2, ?_⟩
    by_cases hw2 : core.measure div.font (joinLines d.contents) / pdf.unit
        < div.width - |div.border.Left| - |div.border.Right|
    · exact hfit2 hw2
    · rw [hwrap2 hw2, wrapBlocks_of_stable _ _ _ _ hw2 _ [] hstable]
      simp

/-- C5, amended, at a concrete input: one-unit runes, budget 3, the text
`abcdef`. -/
theorem rewrap_idempotent_witness :
    ∃ d, SetContent demoCore demoReport (demoDiv 3) "abcdef".toList = Except.ok d ∧
      (d.contents ≠ [] →
        ∃ d2, SetContent demoCore demoReport (demoDiv 3) (joinLines d.contents) = Except.ok d2 ∧
          d2.contents = d.contents) :=
  rewrap_idempotent demoCore demoReport (demoDiv 3) "abcdef".toList (by decide) (by rfl)
    (by
      intro r _
      norm_num [demoCore, monoMeasure, demoReport, demoDiv, zeroScope, NewScope])

/-! ## Lemmas on the page flow -/

theorem cellTexts_append (a b : List Event) : cellTexts (a ++ b) = cellTexts a ++ cellTexts b := by
  induction a with
  | nil => rfl
  | cons e es ih => cases e <;> simp [cellTexts, ih]

theorem pageBreaks_append (a b : List Event) :
    pageBreaks (a ++ b) = pageBreaks a + pageBreaks b := by
  induction a with
  | nil => simp [pageBreaks]
  | cons e es ih => cases e <;> simp [pageBreaks, ih]; omega

theorem lastCellY_append_some (a b : List Event) (y : ℚ) (h : lastCellY b = some y) :
    lastCellY (a ++ b) = some y := by
  induction a with
  | nil => simpa using h
  | cons e es ih => cases e <;> simp [lastCellY, ih]

theorem lastCellY_append_none (a b : List Event) (h : lastCellY b = none) :
    lastCellY (a ++ b) = lastCellY a := by
  induction a with
  | nil => simpa using h
  | cons e es ih => cases e <;> simp [lastCellY, ih]

/-- What `paintLine` adds to the trace. -/
theorem paintLine_spec (div : Div) (pdf : Report) (x y : ℚ) (text : List Char) :
    ∃ evs, paintLine div pdf x y text = { pdf with log := pdf.log ++ evs } ∧
      cellTexts evs = [text] ∧ pageBreaks evs = 0 ∧ lastCellY evs = some y := by
  by_cases h : IsEmptyString div.fontColor = true
  · exact ⟨[Event.cell x y text], by simp [paintLine, Report.emit, h], rfl, rfl, rfl⟩
  · exact ⟨[Event.textColor div.fontColor, Event.cell x y text, Event.textDefaultColor],
      by simp [paintLine, Report.emit, h], rfl, rfl, rfl⟩

theorem quietFrom_refl (pdf : Report) : QuietFrom pdf pdf :=
  ⟨[], by simp, rfl, rfl, rfl⟩

theorem quietFrom_emit (pdf q : Report) (e : Event) (h : QuietFrom pdf q)
    (he : cellTexts [e] = [] ∧ pageBreaks [e] = 0 ∧ lastCellY [e] = none) :
    QuietFrom pdf (q.emit e) := by
  obtain ⟨evs, hq, hc, hp, hl⟩ := h
  refine ⟨evs ++ [e], ?_, ?_, ?_, ?_⟩
  · rw [hq]
    simp [Report.emit]
  · rw [cellTexts_append, hc, he.1]; rfl
  · rw [pageBreaks_append, hp, he.2.1]
  · rw [lastCellY_append_none _ _ he.2.2, hl]

/-- What the head of `GenerateAtomicCell` (line type, frame, background) adds
to the trace. -/
theorem prelude_spec (div : Div) (pdf : Report) (sx sy : ℚ) :
    QuietFrom pdf (drawLine div (selectLineType div pdf) sx sy) := by
  have h1 : QuietFrom pdf (selectLineType div pdf) := by
    simp only [selectLineType]
    split_ifs
    · exact quietFrom_emit _ _ _ (quietFrom_refl _) ⟨rfl, rfl, rfl⟩
    · exact quietFrom_emit _ _ _ (quietFrom_refl _) ⟨rfl, rfl, rfl⟩
    · exact quietFrom_emit _ _ _ (quietFrom_refl _) ⟨rfl, rfl, rfl⟩
    · exact quietFrom_refl _
  generalize selectLineType div pdf = q at h1 ⊢
  have hbg : ∀ h : ℚ, QuietFrom pdf (if (!IsEmptyString div.backColor) = true then
      q.emit (Event.backgroundColor (sx + div.margin.Left) (sy + div.margin.Top) div.width h
        div.backColor) else q) := by
    intro h
    by_cases hc : (!IsEmptyString div.backColor) = true
    · rw [if_pos hc]
      exact quietFrom_emit _ _ _ h1 ⟨rfl, rfl, rfl⟩
    · rw [if_neg hc]
      exact h1
  have hframe : ∀ (q2 : Report) (a b c d : Event), QuietFrom pdf q2 →
      (cellTexts [a] = [] ∧ pageBreaks [a] = 0 ∧ lastCellY [a] = none) →
      (cellTexts [b] = [] ∧ pageBreaks [b] = 0 ∧ lastCellY [b] = none) →
      (cellTexts [c] = [] ∧ pageBreaks [c] = 0 ∧ lastCellY [c] = none) →
      (cellTexts [d] = [] ∧ pageBreaks [d] = 0 ∧ lastCellY [d] = none) →
      QuietFrom pdf ((((q2.emit a).emit b).emit c).emit d) := by
    intro q2 a b c d h ha hb hc hd
    exact quietFrom_emit _ _ _ (quietFrom_emit _ _ _ (quietFrom_emit _ _ _
      (quietFrom_emit _ _ _ h ha) hb) hc) hd
  simp only [drawLine]
  by_cases hy : sy + div.height > q.pageEndY
  · rw [if_pos hy]
    by_cases hf : div.frameType ≠ DIV_NONE
    · rw [if_pos hf]
      exact hframe _ _ _ _ _ (hbg _) ⟨rfl, rfl, rfl⟩ ⟨rfl, rfl, rfl⟩ ⟨rfl, rfl, rfl⟩
        ⟨rfl, rfl, rfl⟩
    · rw [if_neg hf]
      exact hbg _
  · rw [if_neg hy]
    by_cases hf : div.frameType ≠ DIV_NONE
    · rw [if_pos hf]
      exact hframe _ _ _ _ _ (hbg _) ⟨rfl, rfl, rfl⟩ ⟨rfl, rfl, rfl⟩ ⟨rfl, rfl, rfl⟩
        ⟨rfl, rfl, rfl⟩
    · rw [if_neg hf]
      exact hbg _

/-- The alignment blocks change the border of the block only, and keep its
top at the top of the saved border. -/
theorem alignLine_spec (core : Core) (pdf : Report) (div : Div) (border : Scope)
    (text : List Char) (hb : div.border.Top = border.Top) :
    ∃ b, alignLine core pdf div border text = { div with border := b } ∧
      b.Top = border.Top := by
  simp only [alignLine]
  split_ifs
  · exact ⟨_, rfl, rfl⟩
  · exact ⟨_, rfl, rfl⟩
  · exact ⟨_, rfl, rfl⟩
  · exact ⟨div.border, rfl, hb⟩
  · exact ⟨_, rfl, rfl⟩
  · exact ⟨div.border, rfl, hb⟩

/-- The page-break branch does not read the border of the block. -/
theorem pageBreak_border (core : Core) (pdf : Report) (div : Div) (border b : Scope) (i : Nat) :
    pageBreak core pdf { div with border := b } border i = pageBreak core pdf div border i := by
  simp only [pageBreak, SetMarign]
  split_ifs
  · rfl
  · simp only [SetBorder]
    split_ifs <;> rfl
  · simp only [SetBorder]
    split_ifs <;> rfl

/-- Either a property holds below `n`, or there is a first index below `n`
at which it fails. -/
theorem first_failure (P : Nat → Prop) (n : Nat) :
    (∀ j, j < n → P j) ∨ ∃ k, k < n ∧ (∀ j, j < k → P j) ∧ ¬ P k := by
  induction n with
  | zero => exact Or.inl (fun j hj => absurd hj (Nat.not_lt_zero j))
  | succ n ih =>
    rcases ih with h | ⟨k, hk, h1, h2⟩
    · by_cases hn : P n
      · left
        intro j hj
        rcases Nat.lt_succ_iff_lt_or_eq.1 hj with h3 | h3
        · exact h j h3
        · rw [h3]; exact hn
      · exact Or.inr ⟨n, Nat.lt_succ_self n, h, hn⟩
    · exact Or.inr ⟨k, Nat.lt_succ_of_lt hk, h1, h2⟩

theorem drop_take_succ (l : List (List Char)) (i n : Nat) (h : i + (n + 1) ≤ l.length) :
    (l.drop i).take (n + 1) = l.getD i [] :: (l.drop (i + 1)).take n := by
  have hi : i < l.length := by omega
  rw [List.drop_eq_getElem_cons hi, List.take_succ_cons]
  simp [List.getD_eq_getElem?_getD, List.getElem?_eq_getElem hi]

/-- The line loop when every remaining line fits on the page: it ends with
`done`, having painted the remaining lines in order; only the border of the
block may have changed, and not its top. -/
theorem drawLines_done (core : Core) (sx sy pageEndY : ℚ) (border : Scope) :
    ∀ (n i : Nat) (div : Div) (pdf : Report) (y : ℚ),
      div.border.Top = border.Top →
      i + n ≤ div.contents.length →
      (∀ j, j < n → ¬ (sy + div.margin.Top + border.Top
          + ((i + j : ℕ) : ℚ) * (div.lineHeight + div.lineSpace) + div.lineHeight > pageEndY)) →
      ∃ b evs, drawLines core sx sy pageEndY border n i div pdf y
          = Flow.done { div with border := b } { pdf with log := pdf.log ++ evs }
              (if n = 0 then y else sy + div.margin.Top + border.Top
                + ((i + n - 1 : ℕ) : ℚ) * (div.lineHeight + div.lineSpace)) ∧
        b.Top = border.Top ∧
        cellTexts evs = (div.contents.drop i).take n ∧
        pageBreaks evs = 0 ∧
        (0 < n → lastCellY evs = some (sy + div.margin.Top + border.Top
                + ((i + n - 1 : ℕ) : ℚ) * (div.lineHeight + div.lineSpace))) := by
  intro n
  induction n with
  | zero =>
    intro i div pdf y hb _ _
    refine ⟨div.border, [], ?_, hb, by simp [cellTexts], rfl, fun h => absurd h (Nat.lt_irrefl 0)⟩
    simp [drawLines]
  | succ n ih =>
    intro i div pdf y hb hlen hfit
    obtain ⟨b1, hal, hb1⟩ := alignLine_spec core pdf div border (div.contents.getD i []) hb
    have h0 := hfit 0 (Nat.succ_pos n)
    simp only [Nat.add_zero] at h0
    obtain ⟨evs1, hp1, hc1, hpb1, hl1⟩ := paintLine_spec { div with border := b1 } pdf
      (sx + div.margin.Left + b1.Left)
      (sy + div.margin.Top + border.Top + (i : ℚ) * (div.lineHeight + div.lineSpace))
      (div.contents.getD i [])
    have hfit2 : ∀ j, j < n → ¬ (sy + div.margin.Top + border.Top
        + ((i + 1 + j : ℕ) : ℚ) * (div.lineHeight + div.lineSpace) + div.lineHeight
          > pageEndY) := by
      intro j hj
      have := hfit (j + 1) (Nat.succ_lt_succ hj)
      have e : i + (j + 1) = i + 1 + j := by omega
      rwa [e] at this
    obtain ⟨b, evs, hrec, hbt, hct, hpbt, hlt⟩ := ih (i + 1) { div with border := b1 }
      { pdf with log := pdf.log ++ evs1 }
      (sy + div.margin.Top + border.Top + (i : ℚ) * (div.lineHeight + div.lineSpace))
      hb1 (by simpa using (by omega : i + 1 + n ≤ div.contents.length)) hfit2
    refine ⟨b, evs1 ++ evs, ?_, hbt, ?_, ?_, ?_⟩
    · simp only [drawLines, hal, getContentPosition, hb1, h0, if_false]
      rw [hp1, hrec]
      have e1 : i + 1 + n - 1 = i + (n + 1) - 1 := by omega
      by_cases hn : n = 0
      · subst hn
        simp
      · simp [hn, e1]
    · rw [cellTexts_append, hc1, hct, drop_take_succ _ _ _ hlen]
      rfl
    · rw [pageBreaks_append, hpb1, hpbt]
    · intro _
      by_cases hn : n = 0
      · subst hn
        have hnone : lastCellY evs = none := by
          have h1 : cellTexts evs = [] := by simpa using hct
          clear hrec hlt hct hpbt
          induction evs with
          | nil => rfl
          | cons e es ihe =>
            cases e <;> simp [cellTexts, lastCellY] at h1 ⊢ <;> exact ihe h1
        rw [lastCellY_append_none _ _ hnone, hl1]
        simp
      · have := hlt (Nat.pos_of_ne_zero hn)
        rw [lastCellY_append_some _ _ _ this]
        have e1 : i + 1 + n - 1 = i + (n + 1) - 1 := by omega
        simp [e1]

/-- The line loop when line `i + k` is the first that does not fit: the `k`
lines before it are painted in order and the loop ends in the page-break
branch at index `i + k`. -/
theorem drawLines_break (core : Core) (sx sy pageEndY : ℚ) (border : Scope) :
    ∀ (k n i : Nat) (div : Div) (pdf : Report) (y : ℚ),
      k < n →
      div.border.Top = border.Top →
      i + n ≤ div.contents.length →
      (∀ j, j < k → ¬ (sy + div.margin.Top + border.Top
          + ((i + j : ℕ) : ℚ) * (div.lineHeight + div.lineSpace) + div.lineHeight > pageEndY)) →
      (sy + div.margin.Top + border.Top
          + ((i + k : ℕ) : ℚ) * (div.lineHeight + div.lineSpace) + div.lineHeight > pageEndY) →
      ∃ evs, drawLines core sx sy pageEndY border n i div pdf y
          = Flow.ofBreak (pageBreak core { pdf with log := pdf.log ++ evs } div border (i + k)) ∧
        cellTexts evs = (div.contents.drop i).take k ∧
        pageBreaks evs = 0 := by
  intro k
  induction k with
  | zero =>
    intro n i div pdf y hk hb _ _ hbrk
    obtain ⟨n, rfl⟩ : ∃ m, n = m + 1 := ⟨n - 1, by omega⟩
    obtain ⟨b1, hal, hb1⟩ := alignLine_spec core pdf div border (div.contents.getD i []) hb
    simp only [Nat.add_zero] at hbrk
    refine ⟨[], ?_, by simp [cellTexts], rfl⟩
    simp only [drawLines, hal, getContentPosition, hb1, hbrk, if_true, pageBreak_border]
    simp
  | succ k ih =>
    intro n i div pdf y hk hb hlen hfit hbrk
    obtain ⟨n, rfl⟩ : ∃ m, n = m + 1 := ⟨n - 1, by omega⟩
    obtain ⟨b1, hal, hb1⟩ := alignLine_spec core pdf div border (div.contents.getD i []) hb
    have h0 := hfit 0 (Nat.succ_pos k)
    simp only [Nat.add_zero] at h0
    obtain ⟨evs1, hp1, hc1, hpb1, _⟩ := paintLine_spec { div with border := b1 } pdf
      (sx + div.margin.Left + b1.Left)
      (sy + div.margin.Top + border.Top + (i : ℚ) * (div.lineHeight + div.lineSpace))
      (div.contents.getD i [])
    have hfit2 : ∀ j, j < k → ¬ (sy + div.margin.Top + border.Top
        + ((i + 1 + j : ℕ) : ℚ) * (div.lineHeight + div.lineSpace) + div.lineHeight
          > pageEndY) := by
      intro j hj
      have := hfit (j + 1) (Nat.succ_lt_succ hj)
      have e : i + (j + 1) = i + 1 + j := by omega
      rwa [e] at this
    have hbrk2 : sy + div.margin.Top + border.Top
        + ((i + 1 + k : ℕ) : ℚ) * (div.lineHeight + div.lineSpace) + div.lineHeight
          > pageEndY := by
      have e : i + (k + 1) = i + 1 + k := by omega
      rwa [e] at hbrk
    obtain ⟨evs, hrec, hct, hpbt⟩ := ih n (i + 1) { div with border := b1 }
      { pdf with log := pdf.log ++ evs1 }
      (sy + div.margin.Top + border.Top + (i : ℚ) * (div.lineHeight + div.lineSpace))
      (by omega) hb1 (by simpa using (by omega : i + 1 + n ≤ div.contents.length)) hfit2 hbrk2
    refine ⟨evs1 ++ evs, ?_, ?_, ?_⟩
    · simp only [drawLines, hal, getContentPosition, hb1, h0, if_false]
      rw [hp1, hrec, pageBreak_border]
      have e : i + 1 + k = i + (k + 1) := by omega
      simp [e]
    · rw [cellTexts_append, hc1, hct, drop_take_succ _ _ _ (by omega)]
      rfl
    · rw [pageBreaks_append, hpb1, hpbt]

/-- The state handed to the recursive call by the page-break branch, when
`SetMarign` does not panic. -/
theorem pageBreak_ok (core : Core) (pdf : Report) (div : Div) (border : Scope) (i : Nat)
    (hroom : ¬ (pdf.pageEndX
      - (pdf.currX + (core.ReplaceMarign (NewScope div.margin.Left 0 div.margin.Right 0)).Left)
        ≤ 0)) :
    ∃ d p, pageBreak core pdf div border i = Except.ok (d, p) ∧
      d.margin = core.ReplaceMarign (NewScope div.margin.Left 0 div.margin.Right 0) ∧
      d.border = core.ReplaceBorder (NewScope border.Left div.lineSpace border.Right 0) ∧
      d.contents = div.contents.drop i ∧
      d.height = d.lineHeight * ((div.contents.length - i : ℕ) : ℚ)
        + d.lineSpace * (((div.contents.length - i : ℕ) : ℚ) - 1) + d.border.Top ∧
      d.lineHeight = div.lineHeight ∧ d.lineSpace = div.lineSpace ∧ d.font = div.font ∧
      p.log = pdf.log ++ [Event.addNewPage] ∧
      p.currX = (if i < div.contents.length then pdf.currX else pdf.pageStartX) ∧
      p.currY = pdf.pageStartY ∧
      p.unit = pdf.unit ∧ p.pageStartX = pdf.pageStartX ∧ p.pageStartY = pdf.pageStartY ∧
      p.pageEndX = pdf.pageEndX ∧ p.pageEndY = pdf.pageEndY := by
  simp only [pageBreak, SetMarign, hroom, if_false, SetBorder, resetHeight, Report.emit]
  refine ⟨_, _, rfl, ?_⟩
  split_ifs <;> simp_all <;> omega

/-- The page-break branch either panics in `SetMarign` or hands on a block
holding the lines from the break index on, on a surface with one more page. -/
theorem pageBreak_cases (core : Core) (pdf : Report) (div : Div) (border : Scope) (i : Nat) :
    (∃ e, pageBreak core pdf div border i = Except.error e) ∨
    (¬ (pdf.pageEndX
      - (pdf.currX + (core.ReplaceMarign (NewScope div.margin.Left 0 div.margin.Right 0)).Left)
        ≤ 0)) := by
  by_cases h : pdf.pageEndX
      - (pdf.currX + (core.ReplaceMarign (NewScope div.margin.Left 0 div.margin.Right 0)).Left)
        ≤ 0
  · left
    refine ⟨"the marign out of page boundary", ?_⟩
    simp only [pageBreak, SetMarign, h, if_true]
  · exact Or.inr h

theorem GenerateAtomicCell_done (core : Core) (fuel : Nat) (div : Div) (pdf : Report)
    (hfont : IsEmptyFont div.font = false) (d : Div) (p : Report) (y : ℚ)
    (h : drawLines core pdf.currX pdf.currY pdf.pageEndY div.border div.contents.length 0 div
      (drawLine div (selectLineType div pdf) pdf.currX pdf.currY) 0 = Flow.done d p y) :
    GenerateAtomicCell core (fuel + 1) div pdf
      = some (Except.ok (d, { p with
          currX := p.pageStartX, currY := y + d.lineHeight + d.margin.Bottom })) := by
  simp only [GenerateAtomicCell, hfont]
  rw [h]
  simp

theorem GenerateAtomicCell_next (core : Core) (fuel : Nat) (div : Div) (pdf : Report)
    (hfont : IsEmptyFont div.font = false) (d : Div) (p : Report)
    (h : drawLines core pdf.currX pdf.currY pdf.pageEndY div.border div.contents.length 0 div
      (drawLine div (selectLineType div pdf) pdf.currX pdf.currY) 0 = Flow.next d p) :
    GenerateAtomicCell core (fuel + 1) div pdf = GenerateAtomicCell core fuel d p := by
  simp only [GenerateAtomicCell, hfont]
  rw [h]
  simp

theorem GenerateAtomicCell_fatal (core : Core) (fuel : Nat) (div : Div) (pdf : Report)
    (hfont : IsEmptyFont div.font = false) (e : String)
    (h : drawLines core pdf.currX pdf.currY pdf.pageEndY div.border div.contents.length 0 div
      (drawLine div (selectLineType div pdf) pdf.currX pdf.currY) 0 = Flow.fatal e) :
    GenerateAtomicCell core (fuel + 1) div pdf = some (Except.error e) := by
  simp only [GenerateAtomicCell, hfont]
  rw [h]
  simp

/-- One call of `GenerateAtomicCell` when every line fits on the page. -/
theorem GenerateAtomicCell_all_fit (core : Core) (fuel : Nat) (div : Div) (pdf : Report)
    (hfont : IsEmptyFont div.font = false)
    (hfit : ∀ j, j < div.contents.length → ¬ (pdf.currY + div.margin.Top + div.border.Top
        + (j : ℚ) * (div.lineHeight + div.lineSpace) + div.lineHeight > pdf.pageEndY)) :
    ∃ b evs, GenerateAtomicCell core (fuel + 1) div pdf
        = some (Except.ok ({ div with border := b },
            { pdf with
              log := pdf.log ++ evs
              currX := pdf.pageStartX
              currY := (if div.contents.length = 0 then 0 else
                  pdf.currY + div.margin.Top + div.border.Top
                    + ((div.contents.length - 1 : ℕ) : ℚ) * (div.lineHeight + div.lineSpace))
                + div.lineHeight + div.margin.Bottom })) ∧
      cellTexts evs = div.contents ∧ pageBreaks evs = 0 ∧
      (0 < div.contents.length → lastCellY evs = some (pdf.currY + div.margin.Top
        + div.border.Top
        + ((div.contents.length - 1 : ℕ) : ℚ) * (div.lineHeight + div.lineSpace))) := by
  obtain ⟨pre, hpre, hcpre, hppre, hlpre⟩ := prelude_spec div pdf pdf.currX pdf.currY
  obtain ⟨b, evs, hrun, hbt, hct, hpt, hlt⟩ := drawLines_done core pdf.currX pdf.currY
    pdf.pageEndY div.border div.contents.length 0 div
    (drawLine div (selectLineType div pdf) pdf.currX pdf.currY) 0 rfl (by omega)
    (by intro j hj; simpa using hfit j hj)
  refine ⟨b, pre ++ evs, ?_, ?_, ?_, ?_⟩
  · rw [GenerateAtomicCell_done core fuel div pdf hfont _ _ _ hrun, hpre]
    simp
  · rw [cellTexts_append, hcpre, hct]
    simp
  · rw [pageBreaks_append, hppre, hpt]
  · intro hpos
    have := hlt hpos
    rw [lastCellY_append_some _ _ _ this]
    simp

/-- One call of `GenerateAtomicCell` when line `k` is the first that does not
fit: the `k` lines before it are painted, then the call ends as the
page-break branch at index `k` does. -/
theorem GenerateAtomicCell_break (core : Core) (fuel : Nat) (div : Div) (pdf : Report) (k : Nat)
    (hfont : IsEmptyFont div.font = false) (hk : k < div.contents.length)
    (hfit : ∀ j, j < k → ¬ (pdf.currY + div.margin.Top + div.border.Top
        + (j : ℚ) * (div.lineHeight + div.lineSpace) + div.lineHeight > pdf.pageEndY))
    (hbrk : pdf.currY + div.margin.Top + div.border.Top
        + (k : ℚ) * (div.lineHeight + div.lineSpace) + div.lineHeight > pdf.pageEndY) :
    ∃ evs, cellTexts evs = div.contents.take k ∧ pageBreaks evs = 0 ∧
      (∀ e, pageBreak core { pdf with log := pdf.log ++ evs } div div.border k = Except.error e →
        GenerateAtomicCell core (fuel + 1) div pdf = some (Except.error e)) ∧
      (∀ d p, pageBreak core { pdf with log := pdf.log ++ evs } div div.border k
          = Except.ok (d, p) →
        drawLines core pdf.currX pdf.currY pdf.pageEndY div.border div.contents.length 0 div
          (drawLine div (selectLineType div pdf) pdf.currX pdf.currY) 0 = Flow.next d p ∧
        GenerateAtomicCell core (fuel + 1) div pdf = GenerateAtomicCell core fuel d p) := by
  obtain ⟨pre, hpre, hcpre, hppre, _⟩ := prelude_spec div pdf pdf.currX pdf.currY
  obtain ⟨evs, hrun, hct, hpt⟩ := drawLines_break core pdf.currX pdf.currY
    pdf.pageEndY div.border k div.contents.length 0 div
    (drawLine div (selectLineType div pdf) pdf.currX pdf.currY) 0 hk rfl (by omega)
    (by intro j hj; simpa using hfit j hj) (by simpa using hbrk)
  have hpdf : ({ drawLine div (selectLineType div pdf) pdf.currX pdf.currY with
      log := (drawLine div (selectLineType div pdf) pdf.currX pdf.currY).log ++ evs } : Report)
      = { pdf with log := pdf.log ++ (pre ++ evs) } := by
    rw [hpre]
    simp
  rw [hpdf, Nat.zero_add] at hrun
  refine ⟨pre ++ evs, ?_, ?_, ?_, ?_⟩
  · rw [cellTexts_append, hcpre, hct]
    simp
  · rw [pageBreaks_append, hppre, hpt]
  · intro e he
    rw [he] at hrun
    exact GenerateAtomicCell_fatal core fuel div pdf hfont e hrun
  · intro d p he
    rw [he] at hrun
    exact ⟨hrun, GenerateAtomicCell_next core fuel div pdf hfont d p hrun⟩

/-- What a run of `GenerateAtomicCell` that returns normally has done: the
texts painted, the pages added, the final cursor and the final margin. -/
theorem GenerateAtomicCell_result (core : Core) :
    ∀ (fuel : Nat) (div : Div) (pdf : Report) (d2 : Div) (p2 : Report),
      GenerateAtomicCell core fuel div pdf = some (Except.ok (d2, p2)) →
      cellTexts p2.log = cellTexts pdf.log ++ div.contents ∧
      pageBreaks pdf.log ≤ pageBreaks p2.log ∧
      p2.currX = pdf.pageStartX ∧
      (div.contents ≠ [] →
        ∃ y, lastCellY p2.log = some y ∧ p2.currY = y + d2.lineHeight + d2.margin.Bottom) ∧
      (pageBreaks p2.log = pageBreaks pdf.log → d2.margin = div.margin) ∧
      (pageBreaks p2.log ≠ pageBreaks pdf.log →
        ∃ l r, d2.margin = core.ReplaceMarign (NewScope l 0 r 0)) := by
  intro fuel
  induction fuel with
  | zero =>
    intro div pdf d2 p2 h
    simp [GenerateAtomicCell] at h
  | succ fuel ih =>
    intro div pdf d2 p2 h
    have hfont : IsEmptyFont div.font = false := by
      by_contra hf
      have hf2 : IsEmptyFont div.font = true := by simpa using hf
      simp [GenerateAtomicCell, hf2] at h
    rcases first_failure (fun j => ¬ (pdf.currY + div.margin.Top + div.border.Top
        + (j : ℚ) * (div.lineHeight + div.lineSpace) + div.lineHeight > pdf.pageEndY))
        div.contents.length with hall | ⟨k, hk, hfit, hbrk⟩
    · obtain ⟨b, evs, hrun, hct, hpt, hlt⟩ :=
        GenerateAtomicCell_all_fit core fuel div pdf hfont hall
      rw [hrun] at h
      simp only [Option.some.injEq, Except.ok.injEq, Prod.mk.injEq] at h
      obtain ⟨hd, hp⟩ := h
      subst hd hp
      have hpb : pageBreaks (pdf.log ++ evs) = pageBreaks pdf.log := by
        rw [pageBreaks_append, hpt]; rfl
      refine ⟨?_, ?_, rfl, ?_, fun _ => rfl, fun hne => absurd hpb hne⟩
      · simp only [cellTexts_append, hct]
      · exact le_of_eq hpb.symm
      · intro hne
        have hpos : 0 < div.contents.length := List.length_pos.2 hne
        refine ⟨_, lastCellY_append_some _ _ _ (hlt hpos), ?_⟩
        simp [Nat.pos_iff_ne_zero.1 hpos]
    · have hbrk2 : pdf.currY + div.margin.Top + div.border.Top
          + (k : ℚ) * (div.lineHeight + div.lineSpace) + div.lineHeight > pdf.pageEndY := by
        simpa using hbrk
      obtain ⟨evs, hct, hpt, herr, hok⟩ :=
        GenerateAtomicCell_break core fuel div pdf k hfont hk hfit hbrk2
      rcases pageBreak_cases core { pdf with log := pdf.log ++ evs } div div.border k with
        ⟨e, he⟩ | hroom
      · rw [herr e he] at h
        simp at h
      · obtain ⟨d, p, hpb, hm, _, hc, _, _, _, _, hlog, _, _, _, hsx, _⟩ :=
          pageBreak_ok core { pdf with log := pdf.log ++ evs } div div.border k hroom
        rw [(hok d p hpb).2] at h
        obtain ⟨h1, h2, h3, h4, h5, h6⟩ := ih d p d2 p2 h
        have hpl : pageBreaks p.log = pageBreaks pdf.log + 1 := by
          rw [hlog]
          simp only [pageBreaks_append, hpt]
          rfl
        have hdne : d.contents ≠ [] := by
          rw [hc]
          intro e
          have := congrArg List.length e
          simp only [List.length_drop, List.length_nil] at this
          omega
        refine ⟨?_, by omega, ?_, fun _ => h4 hdne, fun e => by omega, fun _ => ?_⟩
        · rw [h1, hlog, hc]
          simp only [cellTexts_append, hct, List.append_assoc]
          have : cellTexts [Event.addNewPage] = [] := rfl
          rw [this, List.nil_append, List.take_append_drop]
        · rw [h3]
          exact hsx
        · by_cases hq : pageBreaks p2.log = pageBreaks p.log
          · exact ⟨_, _, (h5 hq).trans hm⟩
          · exact h6 hq

/-- A run of the three spaced lines from one line height above the page
bottom: one line, a page break, two lines. -/
theorem spacedLines_run :
    GenerateAtomicCell demoCore 2 spacedLines lowReport
      = some (Except.ok ({ spacedLines with
            contents := ["two".toList, "three".toList], height := 24,
            margin := NewScope 0 0 0 0, border := NewScope 0 2 0 0 },
          { lowReport with
            currX := 0, currY := 24
            log := [Event.cell 0 20 "one".toList, Event.addNewPage,
              Event.cell 0 2 "two".toList, Event.cell 0 14 "three".toList] })) := by
  norm_num +decide [GenerateAtomicCell, drawLines, Flow.ofBreak, pageBreak, paintLine,
    SetMarign, SetBorder, resetHeight, alignLine, getContentPosition, drawLine,
    selectLineType, Report.emit, spacedLines, threeLines, lowReport, demoReport, demoDiv,
    demoCore, clampScope, clampSide, zeroScope, NewScope, IsEmptyFont, IsEmptyString,
    demoFont, DIV_NONE, DIV_STRAIGHT, DIV_DASHED, DIV_DOTTED]

/-- The line loop on the three spaced lines one line height above the page
bottom: one line painted, then the page break at index 1. -/
theorem spacedLines_break :
    drawLines demoCore lowReport.currX lowReport.currY lowReport.pageEndY spacedLines.border
        spacedLines.contents.length 0 spacedLines
        (drawLine spacedLines (selectLineType spacedLines lowReport) lowReport.currX
          lowReport.currY) 0
      = Flow.next { spacedLines with
            contents := ["two".toList, "three".toList], height := 24,
            margin := NewScope 0 0 0 0, border := NewScope 0 2 0 0 }
          { lowReport with
            currY := 0, log := [Event.cell 0 20 "one".toList, Event.addNewPage] } := by
  norm_num +decide [drawLines, Flow.ofBreak, pageBreak, paintLine,
    SetMarign, SetBorder, resetHeight, alignLine, getContentPosition, drawLine,
    selectLineType, Report.emit, spacedLines, threeLines, lowReport, demoReport, demoDiv,
    demoCore, clampScope, clampSide, zeroScope, NewScope,
    IsEmptyString, DIV_NONE, DIV_STRAIGHT, DIV_DASHED, DIV_DOTTED]

/-- With the first line of every continuation fitting on a fresh page, a block
of at least one line whose first line fits below the cursor is flowed within
as many calls as it has lines, with fewer page breaks than lines. -/
theorem continuation_terminates (core : Core) :
    ∀ (n : Nat) (div : Div) (pdf : Report),
      1 ≤ div.contents.length → div.contents.length ≤ n →
      ¬ (pdf.currY + div.margin.Top + div.border.Top + div.lineHeight > pdf.pageEndY) →
      (∀ m b : Scope, ¬ (pdf.pageStartY
        + (core.ReplaceMarign (NewScope m.Left 0 m.Right 0)).Top
        + (core.ReplaceBorder (NewScope b.Left div.lineSpace b.Right 0)).Top
        + div.lineHeight > pdf.pageEndY)) →
      ∃ r, GenerateAtomicCell core n div pdf = some r ∧
        ∀ d2 p2, r = Except.ok (d2, p2) →
          pageBreaks p2.log + 1 ≤ pageBreaks pdf.log + div.contents.length := by
  intro n
  induction n with
  | zero =>
    intro div pdf h1 h2 _ _
    omega
  | succ n ih =>
    intro div pdf h1 h2 hfirst hfresh
    by_cases hfont : IsEmptyFont div.font = true
    · exact ⟨Except.error "no font", by simp [GenerateAtomicCell, hfont],
        fun d2 p2 h => by simp at h⟩
    · have hfont : IsEmptyFont div.font = false := by simpa using hfont
      rcases first_failure (fun j => ¬ (pdf.currY + div.margin.Top + div.border.Top
          + (j : ℚ) * (div.lineHeight + div.lineSpace) + div.lineHeight > pdf.pageEndY))
          div.contents.length with hall | ⟨k, hk, hfit, hbrk⟩
      · obtain ⟨b, evs, hrun, _, hpt, _⟩ :=
          GenerateAtomicCell_all_fit core n div pdf hfont hall
        refine ⟨_, hrun, ?_⟩
        intro d2 p2 h
        simp only [Except.ok.injEq, Prod.mk.injEq] at h
        obtain ⟨_, hp⟩ := h
        subst hp
        simp only [pageBreaks_append, hpt]
        omega
      · have hbrk2 : pdf.currY + div.margin.Top + div.border.Top
            + (k : ℚ) * (div.lineHeight + div.lineSpace) + div.lineHeight > pdf.pageEndY := by
          simpa using hbrk
        have hk0 : k ≠ 0 := by
          intro e
          subst e
          apply hfirst
          simpa using hbrk2
        obtain ⟨evs, _, hpt, herr, hok⟩ :=
          GenerateAtomicCell_break core n div pdf k hfont hk hfit hbrk2
        rcases pageBreak_cases core { pdf with log := pdf.log ++ evs } div div.border k with
          ⟨e, he⟩ | hroom
        · exact ⟨_, herr e he, fun d2 p2 h => by simp at h⟩
        · obtain ⟨d, p, hpb, hm, hb, hc, _, hlh, hls, _, hlog, _, hy, _, _, hsy, _, hey⟩ :=
            pageBreak_ok core { pdf with log := pdf.log ++ evs } div div.border k hroom
          have hlen : d.contents.length = div.contents.length - k := by
            rw [hc, List.length_drop]
          have hfirst2 : ¬ (p.currY + d.margin.Top + d.border.Top + d.lineHeight
              > p.pageEndY) := by
            rw [hy, hm, hb, hlh, hey]
            exact hfresh div.margin div.border
          have hfresh2 : ∀ m b : Scope, ¬ (p.pageStartY
              + (core.ReplaceMarign (NewScope m.Left 0 m.Right 0)).Top
              + (core.ReplaceBorder (NewScope b.Left d.lineSpace b.Right 0)).Top
              + d.lineHeight > p.pageEndY) := by
            intro m b
            rw [hsy, hls, hlh, hey]
            exact hfresh m b
          obtain ⟨r, hr, hbound⟩ := ih d p (by omega) (by omega) hfirst2 hfresh2
          refine ⟨r, by rw [(hok d p hpb).2, hr], ?_⟩
          intro d2 p2 h
          have := hbound d2 p2 h
          have hpl : pageBreaks p.log = pageBreaks pdf.log + 1 := by
            rw [hlog]
            simp only [pageBreaks_append, hpt]
            rfl
          omega

/-! ## C6: the update made at a page break -/

/-- C6, as stated, fails. For the centered three-line block with left margin
5, flowed with the cursor at x = 95 on a page ending at x = 100, line 0 fits
and line 1 is the first with `y + lineHeight > pageEndY`; the page-break
branch panics in `SetMarign` and no block with the stated margin, border and
contents is handed to a new page. And for three lines with line spacing -2,
under a normalisation that sets negative sides to zero, the block handed to
the new page has `border.Top = 0`, not the line spacing. -/
theorem pageBreak_update_counterexample :
    ¬ (edgeReport.currY + framedDiv.margin.Top + framedDiv.border.Top
        + ((0 : ℕ) : ℚ) * (framedDiv.lineHeight + framedDiv.lineSpace) + framedDiv.lineHeight
          > edgeReport.pageEndY) ∧
    (edgeReport.currY + framedDiv.margin.Top + framedDiv.border.Top
        + ((1 : ℕ) : ℚ) * (framedDiv.lineHeight + framedDiv.lineSpace) + framedDiv.lineHeight
          > edgeReport.pageEndY) ∧
    drawLines demoCore edgeReport.currX edgeReport.currY edgeReport.pageEndY framedDiv.border
        framedDiv.contents.length 0 framedDiv
        (drawLine framedDiv (selectLineType framedDiv edgeReport) edgeReport.currX
          edgeReport.currY) 0 = Flow.fatal "the marign out of page boundary" ∧
    drawLines demoCore lowReport.currX lowReport.currY lowReport.pageEndY tightLines.border
        tightLines.contents.length 0 tightLines
        (drawLine tightLines (selectLineType tightLines lowReport) lowReport.currX
          lowReport.currY) 0
      = Flow.next { tightLines with
            contents := ["two".toList, "three".toList], height := 18,
            margin := NewScope 0 0 0 0, border := NewScope 0 0 0 0 }
          { lowReport with
            currY := 0, log := [Event.cell 0 20 "one".toList, Event.addNewPage] } := by
  refine ⟨?_, ?_, ?_, ?_⟩
  · norm_num [framedDiv, threeLines, edgeReport, demoReport, demoDiv, zeroScope, NewScope]
  · norm_num [framedDiv, threeLines, edgeReport, demoReport, demoDiv, zeroScope, NewScope]
  · norm_num +decide [drawLines, Flow.ofBreak, pageBreak, paintLine,
      SetMarign, SetBorder, resetHeight, alignLine, getContentPosition, drawLine,
      selectLineType, Report.emit, framedDiv, threeLines, edgeReport, demoReport, demoDiv,
      demoCore, monoMeasure, clampScope, clampSide, zeroScope, NewScope,
      IsEmptyString, DIV_NONE, DIV_STRAIGHT, DIV_DASHED, DIV_DOTTED]
  · norm_num +decide [drawLines, Flow.ofBreak, pageBreak, paintLine,
      SetMarign, SetBorder, resetHeight, alignLine, getContentPosition, drawLine,
      selectLineType, Report.emit, tightLines, spacedLines, threeLines, lowReport, demoReport,
      demoDiv, demoCore, clampScope, clampSide, zeroScope, NewScope,
      IsEmptyString, DIV_NONE, DIV_STRAIGHT, DIV_DASHED, DIV_DOTTED]

/-- C6, amended: when line `k` is the first line with
`y_k + lineHeight > pageEndY` and the `SetMarign` of the page break finds room
(`pageEndX - (cursorX + m'.Left) > 0`, with `m'` the normalised
`(margin.Left, 0, margin.Right, 0)`), `GenerateAtomicCell` has painted lines
`0..k-1`, calls `AddNewPage`, and recurses with the cursor at
`(x, pageStartY)` on a block with margin `m'`, border `b'` the normalised
`(border.Left, lineSpace, border.Right, 0)` (left/right of the border at the
call), contents from index `k` on and height
`lineHeight*N + lineSpace*(N-1) + b'.Top` for the `N` remaining lines. Where
the normalisation leaves the two scopes as they are, margin and border are
`(left, 0, right, 0)` and `(left, lineSpace, right, 0)` and the height ends in
`+ lineSpace`. -/
theorem pageBreak_update (core : Core) (fuel : Nat) (div : Div) (pdf : Report) (k : Nat)
    (hfont : IsEmptyFont div.font = false) (hk : k < div.contents.length)
    (hfit : ∀ j, j < k → ¬ (pdf.currY + div.margin.Top + div.border.Top
        + (j : ℚ) * (div.lineHeight + div.lineSpace) + div.lineHeight > pdf.pageEndY))
    (hbrk : pdf.currY + div.margin.Top + div.border.Top
        + (k : ℚ) * (div.lineHeight + div.lineSpace) + div.lineHeight > pdf.pageEndY)
    (hroom : pdf.pageEndX
      - (pdf.currX + (core.ReplaceMarign (NewScope div.margin.Left 0 div.margin.Right 0)).Left)
        > 0) :
    ∃ d p evs,
      drawLines core pdf.currX pdf.currY pdf.pageEndY div.border div.contents.length 0 div
          (drawLine div (selectLineType div pdf) pdf.currX pdf.currY) 0 = Flow.next d p ∧
      GenerateAtomicCell core (fuel + 1) div pdf = GenerateAtomicCell core fuel d p ∧
      p.log = pdf.log ++ evs ++ [Event.addNewPage] ∧
      cellTexts evs = div.contents.take k ∧ pageBreaks evs = 0 ∧
      d.margin = core.ReplaceMarign (NewScope div.margin.Left 0 div.margin.Right 0) ∧
      d.border = core.ReplaceBorder (NewScope div.border.Left div.lineSpace div.border.Right 0) ∧
      d.contents = div.contents.drop k ∧
      d.height = div.lineHeight * ((div.contents.length - k : ℕ) : ℚ)
        + div.lineSpace * (((div.contents.length - k : ℕ) : ℚ) - 1)
        + (core.ReplaceBorder
            (NewScope div.border.Left div.lineSpace div.border.Right 0)).Top ∧
      p.currX = pdf.currX ∧ p.currY = pdf.pageStartY ∧
      (core.ReplaceMarign (NewScope div.margin.Left 0 div.margin.Right 0)
          = NewScope div.margin.Left 0 div.margin.Right 0 →
        d.margin = NewScope div.margin.Left 0 div.margin.Right 0) ∧
      (core.ReplaceBorder (NewScope div.border.Left div.lineSpace div.border.Right 0)
          = NewScope div.border.Left div.lineSpace div.border.Right 0 →
        d.border = NewScope div.border.Left div.lineSpace div.border.Right 0 ∧
        d.height = div.lineHeight * ((div.contents.length - k : ℕ) : ℚ)
          + div.lineSpace * (((div.contents.length - k : ℕ) : ℚ) - 1) + div.lineSpace) := by
  obtain ⟨evs, hct, hpt, _, hok⟩ := GenerateAtomicCell_break core fuel div pdf k hfont hk hfit hbrk
  have hroom2 : ¬ (({ pdf with log := pdf.log ++ evs } : Report).pageEndX
      - (({ pdf with log := pdf.log ++ evs } : Report).currX
        + (core.ReplaceMarign (NewScope div.margin.Left 0 div.margin.Right 0)).Left) ≤ 0) :=
    not_le.2 hroom
  obtain ⟨d, p, hpb, hm, hb, hc, hh, hlh, hls, _, hlog, hx, hy, _⟩ :=
    pageBreak_ok core { pdf with log := pdf.log ++ evs } div div.border k hroom2
  obtain ⟨hrun, hgac⟩ := hok d p hpb
  have hheight : d.height = div.lineHeight * ((div.contents.length - k : ℕ) : ℚ)
      + div.lineSpace * (((div.contents.length - k : ℕ) : ℚ) - 1)
      + (core.ReplaceBorder
          (NewScope div.border.Left div.lineSpace div.border.Right 0)).Top := by
    rw [hh, hlh, hls, hb]
  refine ⟨d, p, evs, hrun, hgac, hlog, hct, hpt, hm, hb, hc, hheight, ?_, hy, ?_, ?_⟩
  · rw [hx, if_pos hk]
  · intro hM
    rw [hm, hM]
  · intro hB
    refine ⟨by rw [hb, hB], ?_⟩
    rw [hheight, hB]
    rfl

/-- C6, amended, at the scenario of the claim: a three-line block (line
height 10, line spacing 2) placed one line height above the page bottom paints
one line, breaks, and paints the remaining two lines on the new page with top
margin 0 and `border.Top = lineSpace`. -/
theorem pageBreak_update_witness :
    (∃ d p evs,
      drawLines demoCore lowReport.currX lowReport.currY lowReport.pageEndY spacedLines.border
          spacedLines.contents.length 0 spacedLines
          (drawLine spacedLines (selectLineType spacedLines lowReport) lowReport.currX
            lowReport.currY) 0 = Flow.next d p ∧
      GenerateAtomicCell demoCore (1 + 1) spacedLines lowReport
        = GenerateAtomicCell demoCore 1 d p ∧
      p.log = lowReport.log ++ evs ++ [Event.addNewPage] ∧
      cellTexts evs = spacedLines.contents.take 1 ∧ pageBreaks evs = 0 ∧
      d.margin = NewScope spacedLines.margin.Left 0 spacedLines.margin.Right 0 ∧
      d.border = NewScope spacedLines.border.Left spacedLines.lineSpace
        spacedLines.border.Right 0 ∧
      d.contents = spacedLines.contents.drop 1 ∧
      d.height = spacedLines.lineHeight * ((spacedLines.contents.length - 1 : ℕ) : ℚ)
        + spacedLines.lineSpace * (((spacedLines.contents.length - 1 : ℕ) : ℚ) - 1)
        + spacedLines.lineSpace ∧
      p.currX = lowReport.currX ∧ p.currY = lowReport.pageStartY) ∧
    (∃ d p, GenerateAtomicCell demoCore 2 spacedLines lowReport = some (Except.ok (d, p)) ∧
      p.log = [Event.cell 0 20 "one".toList, Event.addNewPage, Event.cell 0 2 "two".toList,
        Event.cell 0 14 "three".toList] ∧
      d.margin.Top = 0 ∧ d.border.Top = 2) := by
  obtain ⟨d, p, evs, h1, h2, h3, h4, h5, _, _, h8, _, h10, h11, h12, h13⟩ :=
    pageBreak_update demoCore 1 spacedLines lowReport 1 (by decide) (by decide)
      (by
        intro j hj
        obtain rfl : j = 0 := by omega
        norm_num [spacedLines, threeLines, lowReport, demoReport, demoDiv, zeroScope, NewScope])
      (by norm_num [spacedLines, threeLines, lowReport, demoReport, demoDiv, zeroScope,
        NewScope])
      (by norm_num [demoCore, clampScope, clampSide, spacedLines, threeLines, lowReport,
        demoReport, demoDiv, zeroScope, NewScope])
  have hM : demoCore.ReplaceMarign (NewScope spacedLines.margin.Left 0 spacedLines.margin.Right 0)
      = NewScope spacedLines.margin.Left 0 spacedLines.margin.Right 0 := by
    norm_num [spacedLines, threeLines, demoCore, demoDiv, zeroScope, NewScope, clampScope,
      clampSide]
  have hB : demoCore.ReplaceBorder
      (NewScope spacedLines.border.Left spacedLines.lineSpace spacedLines.border.Right 0)
      = NewScope spacedLines.border.Left spacedLines.lineSpace spacedLines.border.Right 0 := by
    norm_num [spacedLines, threeLines, demoCore, demoDiv, zeroScope, NewScope, clampScope,
      clampSide]
  exact ⟨⟨d, p, evs, h1, h2, h3, h4, h5, h12 hM, (h13 hB).1, h8, (h13 hB).2, h10, h11⟩,
    ⟨_, _, spacedLines_run, rfl, rfl, rfl⟩⟩

/-! ## C7: lines drained at a page break, termination -/

/-- A block whose first line fits neither below the cursor nor at the top of
a fresh page is never flowed: with room for `SetMarign`, every call ends in
the page-break branch at index 0 and recurses on all its lines. -/
theorem flow_never_returns (core : Core) :
    ∀ (fuel : Nat) (div : Div) (pdf : Report),
      IsEmptyFont div.font = false →
      0 < div.contents.length →
      pdf.currY + div.margin.Top + div.border.Top + div.lineHeight > pdf.pageEndY →
      (∀ m b : Scope, pdf.pageStartY
        + (core.ReplaceMarign (NewScope m.Left 0 m.Right 0)).Top
        + (core.ReplaceBorder (NewScope b.Left div.lineSpace b.Right 0)).Top
        + div.lineHeight > pdf.pageEndY) →
      core.ReplaceMarign (NewScope div.margin.Left 0 div.margin.Right 0)
        = NewScope div.margin.Left 0 div.margin.Right 0 →
      pdf.pageEndX - (pdf.currX + div.margin.Left) > 0 →
      GenerateAtomicCell core fuel div pdf = none := by
  intro fuel
  induction fuel with
  | zero =>
    intro div pdf _ _ _ _ _ _
    rfl
  | succ fuel ih =>
    intro div pdf hfont hlen hfirst hfresh hM hroom
    obtain ⟨evs, _, _, _, hok⟩ := GenerateAtomicCell_break core fuel div pdf 0 hfont hlen
      (fun j hj => absurd hj (Nat.not_lt_zero j)) (by simpa using hfirst)
    have hroom2 : ¬ (({ pdf with log := pdf.log ++ evs } : Report).pageEndX
        - (({ pdf with log := pdf.log ++ evs } : Report).currX
          + (core.ReplaceMarign (NewScope div.margin.Left 0 div.margin.Right 0)).Left)
            ≤ 0) := by
      rw [hM]
      exact not_le.2 hroom
    obtain ⟨d, p, hpb, hm, hb, hc, _, hlh, hls, hdf, _, hpx, hpy, _, _, hsy, hex, hey⟩ :=
      pageBreak_ok core { pdf with log := pdf.log ++ evs } div div.border 0 hroom2
    rw [(hok d p hpb).2]
    have hdm : d.margin = NewScope div.margin.Left 0 div.margin.Right 0 := by
      rw [hm, hM]
    have hl : d.margin.Left = div.margin.Left := by rw [hdm]; rfl
    have hr : d.margin.Right = div.margin.Right := by rw [hdm]; rfl
    refine ih d p (by rw [hdf]; exact hfont) (by rw [hc]; simpa using hlen) ?_ ?_
      (by rw [hl, hr]; exact hM) ?_
    · rw [hpy, hm, hb, hlh, hey]
      exact hfresh div.margin div.border
    · intro m b
      rw [hsy, hls, hlh, hey]
      exact hfresh m b
    · rw [hex, hpx, if_pos hlen, hl]
      exact hroom

/-- C7 fails on the code: for a block of one line of height 40 on a page 30
high, with the cursor at the page start, the first call ends in a page break
at index 0 that carries the whole contents to the new page (no line is
drained), and the recursion does not end: the flow returns with no amount of
fuel. -/
theorem flow_never_ends :
    (∃ d p,
      drawLines demoCore demoReport.currX demoReport.currY demoReport.pageEndY tallDiv.border
          tallDiv.contents.length 0 tallDiv
          (drawLine tallDiv (selectLineType tallDiv demoReport) demoReport.currX
            demoReport.currY) 0 = Flow.next d p ∧
      d.contents = tallDiv.contents ∧
      pageBreaks p.log = pageBreaks demoReport.log + 1 ∧
      cellTexts p.log = [] ∧
      p.currX = demoReport.currX ∧ p.currY = demoReport.currY) ∧
    ∀ fuel, GenerateAtomicCell demoCore fuel tallDiv demoReport = none := by
  refine ⟨⟨tallDiv, { demoReport with log := [Event.addNewPage] }, ?_, rfl, rfl, rfl, rfl,
    rfl⟩, ?_⟩
  · norm_num +decide [drawLines, Flow.ofBreak, pageBreak, paintLine,
      SetMarign, SetBorder, resetHeight, alignLine, getContentPosition, drawLine,
      selectLineType, Report.emit, tallDiv, demoReport, demoDiv,
      demoCore, clampScope, clampSide, zeroScope, NewScope,
      IsEmptyString, DIV_NONE, DIV_STRAIGHT, DIV_DASHED, DIV_DOTTED]
  · intro fuel
    apply flow_never_returns demoCore fuel tallDiv demoReport (by decide) (by decide)
    · norm_num [tallDiv, demoReport, demoDiv, zeroScope, NewScope]
    · intro m b
      have h1 : clampSide (0 : ℚ) = 0 := by simp [clampSide]
      simp only [demoCore, clampScope, NewScope, tallDiv, demoReport, demoDiv, h1]
      norm_num
    · norm_num [demoCore, clampScope, clampSide, tallDiv, demoDiv, zeroScope, NewScope]
    · norm_num [tallDiv, demoReport, demoDiv, zeroScope, NewScope]

/-! ## C8: every line is painted once, in order -/

/-- C8: when `GenerateAtomicCell` returns normally, on one page or after any
number of page breaks, the texts passed to `Cell` since the call, in call
order, are exactly the contents the block had at the call. -/
theorem cells_are_contents (core : Core) (fuel : Nat) (div : Div) (pdf : Report)
    (d2 : Div) (p2 : Report)
    (h : GenerateAtomicCell core fuel div pdf = some (Except.ok (d2, p2))) :
    cellTexts p2.log = cellTexts pdf.log ++ div.contents :=
  (GenerateAtomicCell_result core fuel div pdf d2 p2 h).1

/-- C8 at a concrete input: the three spaced lines across a page break. -/
theorem cells_are_contents_witness :
    cellTexts [Event.cell 0 20 "one".toList, Event.addNewPage,
        Event.cell 0 2 "two".toList, Event.cell 0 14 "three".toList]
      = cellTexts lowReport.log ++ spacedLines.contents :=
  cells_are_contents demoCore 2 spacedLines lowReport _ _ spacedLines_run

/-! ## C9: the cursor after the block -/

/-- C9: when `GenerateAtomicCell` returns normally on a block with at least
one line, the cursor is `(pageStartX, lastLineY + lineHeight + margin.Bottom)`
with `lastLineY` the y of the last `Cell` call, on the first or on a
continuation page, and `margin.Bottom` the bottom margin of the block as the
call leaves it. That margin is the one of the block at the call when no page
was added; after a page break it is the bottom of the scope the break set,
the normalised `(left, 0, right, 0)`. -/
theorem final_cursor (core : Core) (fuel : Nat) (div : Div) (pdf : Report)
    (d2 : Div) (p2 : Report)
    (h : GenerateAtomicCell core fuel div pdf = some (Except.ok (d2, p2)))
    (hne : div.contents ≠ []) :
    p2.currX = pdf.pageStartX ∧
    (∃ y, lastCellY p2.log = some y ∧ p2.currY = y + d2.lineHeight + d2.margin.Bottom) ∧
    (pageBreaks p2.log = pageBreaks pdf.log → d2.margin = div.margin) ∧
    (pageBreaks p2.log ≠ pageBreaks pdf.log →
      ∃ l r, d2.margin = core.ReplaceMarign (NewScope l 0 r 0)) := by
  obtain ⟨_, _, h3, h4, h5, h6⟩ := GenerateAtomicCell_result core fuel div pdf d2 p2 h
  exact ⟨h3, h4 hne, h5, h6⟩

/-- C9 at a concrete input: the three spaced lines across a page break; the
last line is painted at y = 14 and the cursor is left at y = 14 + 10 + 0. -/
theorem final_cursor_witness :
    ∃ d2 p2, GenerateAtomicCell demoCore 2 spacedLines lowReport = some (Except.ok (d2, p2)) ∧
      p2.currX = lowReport.pageStartX ∧
      (∃ y, lastCellY p2.log = some y ∧ p2.currY = y + d2.lineHeight + d2.margin.Bottom) ∧
      (pageBreaks p2.log = pageBreaks lowReport.log → d2.margin = spacedLines.margin) ∧
      (pageBreaks p2.log ≠ pageBreaks lowReport.log →
        ∃ l r, d2.margin = demoCore.ReplaceMarign (NewScope l 0 r 0)) :=
  ⟨_, _, spacedLines_run,
    final_cursor demoCore 2 spacedLines lowReport _ _ spacedLines_run (by decide)⟩

/-! ## C10: number of page transitions on uniform pages -/

theorem ceil_div_eq (N k : Nat) (hN : 1 ≤ N) (hk : 1 ≤ k) :
    Nat.ceil ((N : ℚ) / (k : ℚ)) = (N - 1) / k + 1 := by
  have hkq : (0 : ℚ) < (k : ℚ) := by exact_mod_cast hk
  rw [Nat.ceil_eq_iff (Nat.succ_ne_zero ((N - 1) / k))]
  show ((((N - 1) / k + 1 - 1 : ℕ) : ℚ) < (N : ℚ) / (k : ℚ)) ∧
    (N : ℚ) / (k : ℚ) ≤ (((N - 1) / k + 1 : ℕ) : ℚ)
  rw [Nat.add_sub_cancel]
  constructor
  · rw [lt_div_iff₀ hkq]
    have h1 : (N - 1) / k * k ≤ N - 1 := Nat.div_mul_le_self _ _
    have h2 : (N - 1) / k * k < N := by omega
    exact_mod_cast h2
  · rw [div_le_iff₀ hkq]
    have h1 : N - 1 < ((N - 1) / k + 1) * k := by
      have := Nat.lt_succ_self ((N - 1) / k)
      have h3 := Nat.div_lt_iff_lt_mul (Nat.lt_of_lt_of_le Nat.zero_lt_one hk)
        |>.1 this
      simpa [Nat.mul_comm] using h3
    have h2 : N ≤ ((N - 1) / k + 1) * k := by omega
    exact_mod_cast h2

/-- On pages that hold exactly `k` lines a block of `N ≥ 1` lines is flowed
with `(N - 1) / k` page breaks. -/
theorem uniform_flow (core : Core) (k : Nat) (hk : 1 ≤ k)
    (hRM : core.ReplaceMarign zeroScope = zeroScope)
    (hRB : core.ReplaceBorder zeroScope = zeroScope) :
    ∀ (N : Nat) (div : Div) (pdf : Report),
      div.contents.length = N → 1 ≤ N →
      IsEmptyFont div.font = false →
      div.margin = zeroScope → div.border = zeroScope →
      div.lineSpace = 0 → 0 < div.lineHeight →
      pdf.pageEndY = pdf.pageStartY + (k : ℚ) * div.lineHeight →
      pdf.currX = pdf.pageStartX → pdf.currY = pdf.pageStartY →
      pdf.pageStartX < pdf.pageEndX →
      ∃ d2 p2, GenerateAtomicCell core ((N - 1) / k + 1) div pdf = some (Except.ok (d2, p2)) ∧
        pageBreaks p2.log = pageBreaks pdf.log + (N - 1) / k := by
  intro N
  induction N using Nat.strong_induction_on with
  | _ N ih =>
    intro div pdf hlen hN hfont hm hb hls hlh hend hx hy hwide
    have key : ∀ j : Nat, (pdf.currY + div.margin.Top + div.border.Top
        + (j : ℚ) * (div.lineHeight + div.lineSpace) + div.lineHeight > pdf.pageEndY)
        ↔ k < j + 1 := by
      intro j
      rw [hm, hb, hls, hy, hend]
      simp only [zeroScope, NewScope, add_zero]
      constructor
      · intro h
        have h1 : (k : ℚ) * div.lineHeight < ((j : ℚ) + 1) * div.lineHeight := by linarith
        have h2 : (k : ℚ) < (j : ℚ) + 1 := lt_of_mul_lt_mul_right h1 (le_of_lt hlh)
        exact_mod_cast h2
      · intro h
        have h2 : (k : ℚ) < (j : ℚ) + 1 := by exact_mod_cast h
        have h1 := mul_lt_mul_of_pos_right h2 hlh
        linarith
    by_cases hle : N ≤ k
    · have hall : ∀ j, j < div.contents.length → ¬ (pdf.currY + div.margin.Top
          + div.border.Top + (j : ℚ) * (div.lineHeight + div.lineSpace) + div.lineHeight
            > pdf.pageEndY) := by
        intro j hj
        rw [key]
        omega
      have hdiv : (N - 1) / k = 0 := Nat.div_eq_of_lt (by omega)
      obtain ⟨b, evs, hrun, _, hpt, _⟩ := GenerateAtomicCell_all_fit core 0 div pdf hfont hall
      rw [hdiv]
      refine ⟨_, _, hrun, ?_⟩
      simp only [pageBreaks_append, hpt]
    · have hkN : k < div.contents.length := by omega
      have hfit : ∀ j, j < k → ¬ (pdf.currY + div.margin.Top
          + div.border.Top + (j : ℚ) * (div.lineHeight + div.lineSpace) + div.lineHeight
            > pdf.pageEndY) := by
        intro j hj
        rw [key]
        omega
      have hbrk : pdf.currY + div.margin.Top + div.border.Top
          + (k : ℚ) * (div.lineHeight + div.lineSpace) + div.lineHeight > pdf.pageEndY := by
        rw [key]
        omega
      obtain ⟨evs, _, hpt, _, hok⟩ :=
        GenerateAtomicCell_break core ((N - 1) / k) div pdf k hfont hkN hfit hbrk
      have hzero : NewScope div.margin.Left 0 div.margin.Right 0 = zeroScope := by
        rw [hm]; rfl
      have hzerob : NewScope div.border.Left div.lineSpace div.border.Right 0 = zeroScope := by
        rw [hb, hls]; rfl
      have hroom : ¬ (({ pdf with log := pdf.log ++ evs } : Report).pageEndX
          - (({ pdf with log := pdf.log ++ evs } : Report).currX
            + (core.ReplaceMarign (NewScope div.margin.Left 0 div.margin.Right 0)).Left)
              ≤ 0) := by
        rw [hzero, hRM]
        simp only [zeroScope, NewScope, add_zero, hx]
        linarith
      obtain ⟨d, p, hpb, hdm, hdb, hdc, _, hdlh, hdls, hdf, hlog, hpx, hpy, _, hsx, hsy, hex,
        hey⟩ := pageBreak_ok core { pdf with log := pdf.log ++ evs } div div.border k hroom
      have hdlen : d.contents.length = N - k := by
        rw [hdc, List.length_drop, hlen]
      obtain ⟨d2, p2, hrec, hcount⟩ := ih (N - k) (by omega) d p hdlen (by omega)
        (by rw [hdf]; exact hfont) (by rw [hdm, hzero, hRM]) (by rw [hdb, hzerob, hRB])
        (by rw [hdls]; exact hls) (by rw [hdlh]; exact hlh)
        (by rw [hey, hsy, hdlh]; exact hend)
        (by rw [hpx, if_pos hkN, hsx]; exact hx)
        (by rw [hpy, hsy])
        (by rw [hsx, hex]; exact hwide)
      have hdiv : (N - 1) / k = (N - k - 1) / k + 1 := by
        have e : N - 1 = (N - k - 1) + k := by omega
        rw [e, Nat.add_div_right _ (Nat.lt_of_lt_of_le Nat.zero_lt_one hk)]
      have hpl : pageBreaks p.log = pageBreaks pdf.log + 1 := by
        rw [hlog]
        simp only [pageBreaks_append, hpt]
        rfl
      refine ⟨d2, p2, ?_, ?_⟩
      · rw [(hok d p hpb).2, hdiv]
        exact hrec
      · rw [hcount, hpl, hdiv]
        omega

/-- C10, as stated, fails: three lines of height 10 on pages of height 20
(two lines a page) are flowed with one call to `AddNewPage`, while
`ceil(3 / 2) = 2`. -/
theorem page_transitions_counterexample :
    ∃ d p, GenerateAtomicCell demoCore 2 threeLines shortReport = some (Except.ok (d, p)) ∧
      pageBreaks p.log = 1 ∧
      Nat.ceil (((threeLines.contents.length : ℕ) : ℚ) / 2) = 2 := by
  refine ⟨{ threeLines with contents := ["three".toList], height := 10 },
    { shortReport with
      currX := 0, currY := 10
      log := [Event.cell 0 0 "one".toList, Event.cell 0 10 "two".toList, Event.addNewPage,
        Event.cell 0 0 "three".toList] }, ?_, rfl, ?_⟩
  · norm_num +decide [GenerateAtomicCell, drawLines, Flow.ofBreak, pageBreak, paintLine,
      SetMarign, SetBorder, resetHeight, alignLine, getContentPosition, drawLine,
      selectLineType, Report.emit, threeLines, shortReport, demoReport, demoDiv,
      demoCore, clampScope, clampSide, zeroScope, NewScope, IsEmptyFont, IsEmptyString,
      demoFont, DIV_NONE, DIV_STRAIGHT, DIV_DASHED, DIV_DOTTED]
  · have h := ceil_div_eq 3 2 (by decide) (by decide)
    simpa [threeLines] using h

/-- C10, amended: for a block of `N ≥ 1` lines on pages that hold exactly
`k ≥ 1` lines (zero margin, border and line spacing, page height
`k * lineHeight`, cursor at the page start, normalisations leaving the zero
scope as it is) `GenerateAtomicCell` terminates within `ceil(N / k)` calls and
returns after exactly `ceil(N / k) - 1` calls to `AddNewPage`. -/
theorem page_transitions (core : Core) (k N : Nat) (div : Div) (pdf : Report)
    (hk : 1 ≤ k) (hN : 1 ≤ N) (hlen : div.contents.length = N)
    (hRM : core.ReplaceMarign zeroScope = zeroScope)
    (hRB : core.ReplaceBorder zeroScope = zeroScope)
    (hfont : IsEmptyFont div.font = false)
    (hm : div.margin = zeroScope) (hb : div.border = zeroScope)
    (hls : div.lineSpace = 0) (hlh : 0 < div.lineHeight)
    (hend : pdf.pageEndY = pdf.pageStartY + (k : ℚ) * div.lineHeight)
    (hx : pdf.currX = pdf.pageStartX) (hy : pdf.currY = pdf.pageStartY)
    (hwide : pdf.pageStartX < pdf.pageEndX) :
    ∃ d2 p2,
      GenerateAtomicCell core (Nat.ceil ((N : ℚ) / (k : ℚ))) div pdf
        = some (Except.ok (d2, p2)) ∧
      pageBreaks p2.log = pageBreaks pdf.log + (Nat.ceil ((N : ℚ) / (k : ℚ)) - 1) := by
  rw [ceil_div_eq N k hN hk]
  simpa using uniform_flow core k hk hRM hRB N div pdf hlen hN hfont hm hb hls hlh hend hx hy
    hwide

/-- C10, amended, at a concrete input: three lines, two lines a page. -/
theorem page_transitions_witness :
    ∃ d2 p2,
      GenerateAtomicCell demoCore (Nat.ceil (((3 : ℕ) : ℚ) / ((2 : ℕ) : ℚ))) threeLines
          shortReport = some (Except.ok (d2, p2)) ∧
      pageBreaks p2.log
        = pageBreaks shortReport.log + (Nat.ceil (((3 : ℕ) : ℚ) / ((2 : ℕ) : ℚ)) - 1) :=
  page_transitions demoCore 2 3 threeLines shortReport (by decide) (by decide) (by rfl)
    (by norm_num [demoCore, clampScope, clampSide, zeroScope, NewScope])
    (by norm_num [demoCore, clampScope, clampSide, zeroScope, NewScope])
    (by decide) (by rfl) (by rfl) (by rfl)
    (by norm_num [threeLines, demoDiv])
    (by norm_num [threeLines, demoDiv, shortReport, demoReport])
    (by rfl) (by rfl)
    (by norm_num [shortReport, demoReport])

/-! ## C11: construction -/

/-- C11: `NewDiv` and `NewDivWithWidth` panic, returning no block, exactly
when `pageEndX - cursorX ≤ 0`; otherwise `NewDiv` returns a block of width
`pageEndX - cursorX` and `NewDivWithWidth w` one of width
`min w (pageEndX - cursorX)`, both with frame style none, no content and
`height = lineHeight`. -/
theorem construction (lineHeight lineSpce w : ℚ) (pdf : Report) :
    ((∃ e, NewDiv lineHeight lineSpce pdf = Except.error e) ↔ pdf.pageEndX - pdf.currX ≤ 0) ∧
    ((∃ e, NewDivWithWidth w lineHeight lineSpce pdf = Except.error e)
      ↔ pdf.pageEndX - pdf.currX ≤ 0) ∧
    (¬ (pdf.pageEndX - pdf.currX ≤ 0) →
      (∃ d, NewDiv lineHeight lineSpce pdf = Except.ok d ∧
        d.width = pdf.pageEndX - pdf.currX ∧ d.frameType = DIV_NONE ∧ d.contents = [] ∧
        d.height = lineHeight) ∧
      (∃ d, NewDivWithWidth w lineHeight lineSpce pdf = Except.ok d ∧
        d.width = min w (pdf.pageEndX - pdf.currX) ∧ d.frameType = DIV_NONE ∧
        d.contents = [] ∧ d.height = lineHeight)) := by
  have e1 : pdf.pageEndX - pdf.currX ≤ 0 →
      NewDiv lineHeight lineSpce pdf = Except.error "please modify current X" := by
    intro h
    simp only [NewDiv, h, if_true]
  have e2 : pdf.pageEndX - pdf.currX ≤ 0 →
      NewDivWithWidth w lineHeight lineSpce pdf = Except.error "please modify current X" := by
    intro h
    simp only [NewDivWithWidth, h, if_true]
  by_cases h : pdf.pageEndX - pdf.currX ≤ 0
  · exact ⟨⟨fun _ => h, fun _ => ⟨_, e1 h⟩⟩, ⟨fun _ => h, fun _ => ⟨_, e2 h⟩⟩,
      fun hn => absurd h hn⟩
  · refine ⟨⟨fun ⟨e, he⟩ => ?_, fun hn => absurd hn h⟩,
      ⟨fun ⟨e, he⟩ => ?_, fun hn => absurd hn h⟩, fun _ => ⟨?_, ?_⟩⟩
    · simp [NewDiv, h] at he
    · simp [NewDivWithWidth, h] at he
    · simp only [NewDiv, h, if_false]
      exact ⟨_, rfl, rfl, rfl, rfl, rfl⟩
    · simp only [NewDivWithWidth, h, if_false]
      refine ⟨_, rfl, ?_, rfl, rfl, rfl⟩
      simp only
      by_cases hw : pdf.pageEndX - pdf.currX ≤ w
      · rw [if_pos hw, min_eq_right hw]
      · rw [if_neg hw, min_eq_left (le_of_lt (not_le.1 hw))]

/-- C11 at concrete inputs: on the demo page (cursor 0, page end 100) a block
of requested width 150 gets width 100; with the cursor at the page end both
constructors panic. -/
theorem construction_witness :
    (∃ d, NewDivWithWidth 150 10 2 demoReport = Except.ok d ∧
        d.width = min 150 (demoReport.pageEndX - demoReport.currX) ∧ d.frameType = DIV_NONE ∧
        d.contents = [] ∧ d.height = 10) ∧
    (∃ e, NewDiv 10 2 { demoReport with currX := 100 } = Except.error e) := by
  have h1 := construction 10 2 150 demoReport
  have h2 := construction 10 2 150 { demoReport with currX := 100 }
  refine ⟨(h1.2.2 ?_).2, h2.1.2 ?_⟩
  · norm_num [demoReport]
  · norm_num [demoReport]

/-! ## C12: positive width -/

/-- C12, as stated, fails: on the demo page `NewDivWithWidth 0` returns a
block of width 0. -/
theorem positive_width_counterexample :
    ∃ d, NewDivWithWidth 0 10 2 demoReport = Except.ok d ∧ ¬ (d.width > 0) := by
  refine ⟨{ demoDiv 0 with
      font := { Family := "", Size := 0, Style := "" }, lineSpace := 2 }, ?_, ?_⟩
  · norm_num [NewDivWithWidth, demoReport, demoDiv, zeroScope, NewScope]
  · norm_num [demoDiv]

/-- C12, amended: every block returned by `NewDiv` has `width > 0`; a block
returned by `NewDivWithWidth w` has `width > 0` exactly when `w > 0`; a
`SetMarign` that returns normally on a block with `width > 0` leaves
`width > 0`; `SetBorder` on a block with `width > 0` leaves `width > 0` when
the left and right sides of the normalised border do not sum below zero. -/
theorem positive_width (core : Core) (pdf : Report) (div : Div) (lineHeight lineSpce w : ℚ)
    (s : Scope) :
    (∀ d, NewDiv lineHeight lineSpce pdf = Except.ok d → d.width > 0) ∧
    (∀ d, NewDivWithWidth w lineHeight lineSpce pdf = Except.ok d → (d.width > 0 ↔ w > 0)) ∧
    (∀ d, div.width > 0 → SetMarign core pdf div s = Except.ok d → d.width > 0) ∧
    (div.width > 0 → 0 ≤ (core.ReplaceBorder s).Left + (core.ReplaceBorder s).Right →
      (SetBorder core pdf div s).width > 0) := by
  refine ⟨?_, ?_, ?_, ?_⟩
  · intro d h
    simp only [NewDiv] at h
    split_ifs at h with h1
    injection h with h
    rw [← h]
    exact not_le.1 h1
  · intro d h
    simp only [NewDivWithWidth] at h
    split_ifs at h with h1 h2
    · injection h with h
      rw [← h]
      simp only
      have h3 := not_le.1 h1
      constructor
      · intro _; linarith
      · intro _; exact h3
    · injection h with h
      rw [← h]
  · intro d hw h
    simp only [SetMarign] at h
    split_ifs at h with h1 h2
    · injection h with h
      rw [← h]
      exact not_le.1 h1
    · injection h with h
      rw [← h]
      exact hw
  · intro hw hb
    simp only [SetBorder]
    split_ifs
    · simp only
      linarith
    · exact hw

/-- C12, amended, at concrete inputs: on the demo page a requested width of
40 gives width 40, and margin and border calls on the three-line block keep
its width positive. -/
theorem positive_width_witness :
    (∃ d, NewDivWithWidth 40 10 2 demoReport = Except.ok d ∧ (d.width > 0 ↔ (40 : ℚ) > 0)) ∧
    (∃ d, SetMarign demoCore demoReport threeLines (NewScope 60 0 0 0) = Except.ok d ∧
      d.width > 0) ∧
    (SetBorder demoCore demoReport threeLines (NewScope 2 0 3 0)).width > 0 := by
  have h := positive_width demoCore demoReport threeLines 10 2 40 (NewScope 60 0 0 0)
  have h2 := positive_width demoCore demoReport threeLines 10 2 40 (NewScope 2 0 3 0)
  have e1 : NewDivWithWidth 40 10 2 demoReport = Except.ok { demoDiv 40 with
      font := { Family := "", Size := 0, Style := "" }, lineSpace := 2 } := by
    norm_num [NewDivWithWidth, demoReport, demoDiv, zeroScope, NewScope]
  have e2 : SetMarign demoCore demoReport threeLines (NewScope 60 0 0 0)
      = Except.ok { threeLines with width := 40, margin := NewScope 60 0 0 0 } := by
    norm_num [SetMarign, demoCore, clampScope, clampSide, demoReport, threeLines, demoDiv,
      zeroScope, NewScope]
  refine ⟨⟨_, e1, h.2.1 _ e1⟩, ⟨_, e2, h.2.2.1 _ ?_ e2⟩, h2.2.2.2 ?_ ?_⟩
  · norm_num [threeLines, demoDiv]
  · norm_num [threeLines, demoDiv]
  · norm_num [demoCore, clampScope, clampSide, NewScope]

/-! ## C13: `SetMarign` -/

/-- C13: with `m'` the normalised margin, `SetMarign m` panics exactly when
`pageEndX - (cursorX + m'.Left) ≤ 0` (no block is returned, the block it was
called on is as before); otherwise it returns the block with margin `m'`,
width `min width (pageEndX - cursorX - m'.Left)` and every other field as it
was. -/
theorem setMarign_effect (core : Core) (pdf : Report) (div : Div) (m : Scope) :
    ((∃ e, SetMarign core pdf div m = Except.error e)
      ↔ pdf.pageEndX - (pdf.currX + (core.ReplaceMarign m).Left) ≤ 0) ∧
    (¬ (pdf.pageEndX - (pdf.currX + (core.ReplaceMarign m).Left) ≤ 0) →
      SetMarign core pdf div m = Except.ok { div with
        margin := core.ReplaceMarign m
        width := min div.width (pdf.pageEndX - pdf.currX - (core.ReplaceMarign m).Left) }) := by
  have hsub : pdf.pageEndX - pdf.currX - (core.ReplaceMarign m).Left
      = pdf.pageEndX - (pdf.currX + (core.ReplaceMarign m).Left) := by ring
  by_cases h : pdf.pageEndX - (pdf.currX + (core.ReplaceMarign m).Left) ≤ 0
  · have e1 : SetMarign core pdf div m = Except.error "the marign out of page boundary" := by
      simp only [SetMarign, h, if_true]
    exact ⟨⟨fun _ => h, fun _ => ⟨_, e1⟩⟩, fun hn => absurd h hn⟩
  · have e2 : SetMarign core pdf div m = Except.ok { div with
        margin := core.ReplaceMarign m
        width := min div.width (pdf.pageEndX - pdf.currX - (core.ReplaceMarign m).Left) } := by
      simp only [SetMarign, h, if_false]
      rw [hsub]
      by_cases hw : pdf.pageEndX - (pdf.currX + (core.ReplaceMarign m).Left) ≤ div.width
      · rw [if_pos hw, min_eq_right hw]
      · rw [if_neg hw, min_eq_left (le_of_lt (not_le.1 hw))]
    refine ⟨⟨fun ⟨e, he⟩ => ?_, fun hn => absurd hn h⟩, fun _ => e2⟩
    rw [e2] at he
    simp at he

/-- C13 at a concrete input: a left margin of 60 on the demo page shrinks the
three-line block from width 50 to width 40. -/
theorem setMarign_effect_witness :
    SetMarign demoCore demoReport threeLines (NewScope 60 0 0 0) = Except.ok { threeLines with
        margin := demoCore.ReplaceMarign (NewScope 60 0 0 0)
        width := min threeLines.width
          (demoReport.pageEndX - demoReport.currX
            - (demoCore.ReplaceMarign (NewScope 60 0 0 0)).Left) } ∧
    min threeLines.width
      (demoReport.pageEndX - demoReport.currX
        - (demoCore.ReplaceMarign (NewScope 60 0 0 0)).Left) = 40 := by
  refine ⟨(setMarign_effect demoCore demoReport threeLines (NewScope 60 0 0 0)).2 ?_, ?_⟩
  · norm_num [demoCore, clampScope, clampSide, NewScope, demoReport]
  · norm_num [demoCore, clampScope, clampSide, NewScope, demoReport, threeLines, demoDiv]

/-! ## C14: `SetBorder` -/

/-- With exact arithmetic the rounded `SetBorder` is `SetBorder`. -/
theorem setBorderF_exact (core : Core) (pdf : Report) (div : Div) (b : Scope) :
    SetBorderF (fun x => x) core pdf div b = SetBorder core pdf div b := by
  rfl

/-- Evaluation of `fl64` at a positive rational of known exponent. -/
theorem fl64_eval (x : ℚ) (e n : ℤ) (hlo : (2 : ℚ) ^ e ≤ x) (hhi : x < (2 : ℚ) ^ (e + 1))
    (hn : roundHalfEven (x / 2 ^ (e - 52)) = n) : fl64 x = (n : ℚ) * 2 ^ (e - 52) := by
  have hpos : (0 : ℚ) < x := lt_of_lt_of_le (by positivity) hlo
  have habs : |x| = x := abs_of_pos hpos
  have h1 : e ≤ Int.log 2 x := by
    rw [← Int.zpow_le_iff_le_log (by norm_num) hpos]
    exact_mod_cast hlo
  have h2 : Int.log 2 x < e + 1 := by
    rw [← Int.lt_zpow_iff_log_lt (by norm_num) hpos]
    exact_mod_cast hhi
  have hlog : Int.log 2 x = e := by omega
  simp only [fl64, habs, hlog, hn, hpos.ne.symm, if_false]

theorem fl64_zero : fl64 0 = 0 := by
  simp [fl64]


/-- The four sums of the run below, rounded: `0.3 + 0.2 = 0.5` exactly,
`0.5 + 0.1` rounds down to 0.6, `0.2 + 0.1` is a tie and rounds up to
0.30000000000000004, and `0.3 + 0.30000000000000004` is a tie and rounds up to
0.6000000000000001. -/
theorem narrow_sums :
    fl64 (5404319552844595 / 2 ^ 53 - 0) = 5404319552844595 / 2 ^ 53 ∧
    fl64 (5404319552844595 / 2 ^ 54 + 3602879701896397 / 2 ^ 54) = 1 / 2 ∧
    fl64 (1 / 2 + 3602879701896397 / 2 ^ 55) = 5404319552844595 / 2 ^ 53 ∧
    fl64 (3602879701896397 / 2 ^ 54 + 3602879701896397 / 2 ^ 55)
      = 5404319552844596 / 2 ^ 54 ∧
    fl64 (5404319552844595 / 2 ^ 54 + 5404319552844596 / 2 ^ 54)
      = 5404319552844596 / 2 ^ 53 := by
  refine ⟨?_, ?_, ?_, ?_, ?_⟩
  · rw [fl64_eval _ (-1) 5404319552844595 (by norm_num) (by norm_num) (by decide!)]
    norm_num
  · rw [fl64_eval _ (-1) 4503599627370496 (by norm_num) (by norm_num) (by decide!)]
    norm_num
  · rw [fl64_eval _ (-1) 5404319552844595 (by norm_num) (by norm_num) (by decide!)]
    norm_num
  · rw [fl64_eval _ (-2) 5404319552844596 (by norm_num) (by norm_num) (by decide!)]
    norm_num
  · rw [fl64_eval _ (-1) 5404319552844596 (by norm_num) (by norm_num) (by decide!)]
    norm_num

/-- The rounded `SetBorder` on the narrow block: the test passes and the
width becomes 0.6000000000000001. -/
theorem narrow_run :
    SetBorderF fl64 demoCore narrowReport narrowDiv narrowBorder
      = { narrowDiv with width := 5404319552844596 / 2 ^ 53, border := narrowBorder } := by
  obtain ⟨h1, h2, h3, h4, h5⟩ := narrow_sums
  have hb : demoCore.ReplaceBorder narrowBorder = narrowBorder := by
    norm_num [demoCore, clampScope, clampSide, narrowBorder, NewScope]
  have e0 : narrowReport.currX + narrowDiv.margin.Left = 0 := by
    norm_num [narrowReport, narrowDiv, demoReport, demoDiv, zeroScope, NewScope]
  simp only [SetBorderF, hb, e0, fl64_zero]
  simp only [narrowReport, narrowDiv, narrowBorder, demoReport, demoDiv, NewScope,
    h1, h2, h3, h4, h5]
  norm_num

/-- C14, as stated, fails in float64: on a page ending at x = 0.6 with the
cursor at 0, a block of width 0.3 and no margin is at most the available
space 0.6 wide; `SetBorder` with border 0.2 left and 0.1 right finds
`(0.3 + 0.2) + 0.1 = 0.6 ≤ 0.6` and sets the width to
`0.3 + (0.2 + 0.1) = 0.6000000000000001`, more than the available space. -/
theorem setBorder_effect_counterexample :
    narrowDiv.width
      ≤ fl64 (narrowReport.pageEndX - fl64 (narrowReport.currX + narrowDiv.margin.Left)) ∧
    (SetBorderF fl64 demoCore narrowReport narrowDiv narrowBorder).width
      = 5404319552844596 / 2 ^ 53 ∧
    ¬ ((SetBorderF fl64 demoCore narrowReport narrowDiv narrowBorder).width
      ≤ fl64 (narrowReport.pageEndX - fl64 (narrowReport.currX + narrowDiv.margin.Left))) := by
  have e0 : narrowReport.currX + narrowDiv.margin.Left = 0 := by
    norm_num [narrowReport, narrowDiv, demoReport, demoDiv, zeroScope, NewScope]
  have e1 : fl64 (narrowReport.pageEndX - 0) = 5404319552844595 / 2 ^ 53 := narrow_sums.1
  rw [narrow_run, e0, fl64_zero, e1]
  refine ⟨?_, rfl, ?_⟩
  · norm_num [narrowDiv, demoDiv]
  · norm_num

/-- C14, amended: with `b'` the normalised border and every sum rounded as
float64 computes it (any rounding `fl`), if
`pageEndX - (cursorX + margin.Left) ≥ (width + b'.Left) + b'.Right` then
`SetBorder b` sets the width to `width + (b'.Left + b'.Right)`, otherwise the
width is as it was; in both cases the border becomes `b'` and no other field
changes; and where the two sums `width + (b'.Left + b'.Right)` and
`(width + b'.Left) + b'.Right` round to the same value, a width that was at
most `pageEndX - (cursorX + margin.Left)` before the call is at most it
after. -/
theorem setBorder_effect (fl : ℚ → ℚ) (core : Core) (pdf : Report) (div : Div) (b : Scope) :
    (fl (pdf.pageEndX - fl (pdf.currX + div.margin.Left))
        ≥ fl (fl (div.width + (core.ReplaceBorder b).Left) + (core.ReplaceBorder b).Right) →
      SetBorderF fl core pdf div b = { div with
        border := core.ReplaceBorder b
        width := fl (div.width
          + fl ((core.ReplaceBorder b).Left + (core.ReplaceBorder b).Right)) }) ∧
    (¬ (fl (pdf.pageEndX - fl (pdf.currX + div.margin.Left))
        ≥ fl (fl (div.width + (core.ReplaceBorder b).Left) + (core.ReplaceBorder b).Right)) →
      SetBorderF fl core pdf div b = { div with border := core.ReplaceBorder b }) ∧
    (fl (div.width + fl ((core.ReplaceBorder b).Left + (core.ReplaceBorder b).Right))
        = fl (fl (div.width + (core.ReplaceBorder b).Left) + (core.ReplaceBorder b).Right) →
      div.width ≤ fl (pdf.pageEndX - fl (pdf.currX + div.margin.Left)) →
      (SetBorderF fl core pdf div b).width
        ≤ fl (pdf.pageEndX - fl (pdf.currX + div.margin.Left))) := by
  refine ⟨?_, ?_, ?_⟩
  · intro h
    simp only [SetBorderF, h, if_true]
  · intro h
    simp only [SetBorderF, h, if_false]
  · intro hsame hw
    simp only [SetBorderF]
    split_ifs with h
    · simp only
      rw [hsame]
      exact h
    · exact hw

/-- The sums of the witness below are exact in float64. -/
theorem wide_sums :
    fl64 (100 - 0) = 100 ∧ fl64 (50 + 2) = 52 ∧ fl64 (52 + 3) = 55 ∧ fl64 (2 + 3) = 5 ∧
      fl64 (50 + 5) = 55 := by
  refine ⟨?_, ?_, ?_, ?_, ?_⟩
  · rw [fl64_eval _ 6 7036874417766400 (by norm_num) (by norm_num) (by decide!)]
    norm_num
  · rw [fl64_eval _ 5 7318349394477056 (by norm_num) (by norm_num) (by decide!)]
    norm_num
  · rw [fl64_eval _ 5 7740561859543040 (by norm_num) (by norm_num) (by decide!)]
    norm_num
  · rw [fl64_eval _ 2 5629499534213120 (by norm_num) (by norm_num) (by decide!)]
    norm_num
  · rw [fl64_eval _ 5 7740561859543040 (by norm_num) (by norm_num) (by decide!)]
    norm_num

/-- C14, amended, at a concrete input in float64: a border (2, 0, 3, 0) on
the three-line block of width 50 on the demo page gives width 55, within the
available 100. -/
theorem setBorder_effect_witness :
    SetBorderF fl64 demoCore demoReport threeLines (NewScope 2 0 3 0) = { threeLines with
        border := demoCore.ReplaceBorder (NewScope 2 0 3 0)
        width := fl64 (threeLines.width + fl64 ((demoCore.ReplaceBorder (NewScope 2 0 3 0)).Left
          + (demoCore.ReplaceBorder (NewScope 2 0 3 0)).Right)) } ∧
    (SetBorderF fl64 demoCore demoReport threeLines (NewScope 2 0 3 0)).width
      ≤ fl64 (demoReport.pageEndX - fl64 (demoReport.currX + threeLines.margin.Left)) := by
  obtain ⟨h1, h2, h3, h4, h5⟩ := wide_sums
  have hb : demoCore.ReplaceBorder (NewScope 2 0 3 0) = NewScope 2 0 3 0 := by
    norm_num [demoCore, clampScope, clampSide, NewScope]
  have e0 : demoReport.currX + threeLines.margin.Left = 0 := by
    norm_num [demoReport, threeLines, demoDiv, zeroScope, NewScope]
  have h := setBorder_effect fl64 demoCore demoReport threeLines (NewScope 2 0 3 0)
  refine ⟨h.1 ?_, h.2.2 ?_ ?_⟩
  · rw [hb, e0, fl64_zero]
    simp only [demoReport, threeLines, demoDiv, NewScope, h1, h2, h3]
    norm_num
  · rw [hb]
    simp only [threeLines, demoDiv, NewScope, h2, h3, h4, h5]
  · rw [e0, fl64_zero]
    simp only [demoReport, threeLines, demoDiv, h1]
    norm_num

/-! ## C15 and C18: the border set for a centered line -/

/-- The alignment of the line `abcd` (measuring 40) in the centered block of
width 100 with right border 7. -/
theorem centeredDiv_align :
    alignLine demoCore fineReport centeredDiv centeredDiv.border "abcd".toList
      = { centeredDiv with border := NewScope 30 0 0 7 } := by
  norm_num +decide [alignLine, centeredDiv, fineReport, demoReport, demoDiv, demoCore,
    monoMeasure, zeroScope, NewScope]

/-- A run of the centered block of width 100 with right border 7 and one
line measuring 40: the line is painted at x = 30 and the block is returned
with the border set for that line. -/
theorem centeredDiv_run :
    GenerateAtomicCell demoCore 1 centeredDiv fineReport
      = some (Except.ok ({ centeredDiv with border := NewScope 30 0 0 7 },
          { fineReport with
            currX := 0, currY := 10, log := [Event.cell 30 0 "abcd".toList] })) := by
  norm_num +decide [GenerateAtomicCell, drawLines, Flow.ofBreak, pageBreak, paintLine,
    alignLine, getContentPosition, drawLine, selectLineType, Report.emit, centeredDiv,
    fineReport, demoReport, demoDiv, demoCore, monoMeasure, zeroScope, NewScope, IsEmptyFont,
    IsEmptyString, demoFont, DIV_NONE, DIV_STRAIGHT, DIV_DASHED, DIV_DOTTED]

/-- C15 fails on the code: for the centered block of width 100 configured
with right border 7 and a line measuring 40, the border set for the line has
left offset (100 - 40) / 2 = 30 but right offset 0, not the configured 7 (the
configured right offset lands in the bottom side); the line is painted at
x = 30. -/
theorem centered_line_border :
    demoCore.measure centeredDiv.font "abcd".toList / fineReport.unit = 40 ∧
    centeredDiv.width = 100 ∧ centeredDiv.border.Right = 7 ∧
    (alignLine demoCore fineReport centeredDiv centeredDiv.border "abcd".toList).border.Left
      = 30 ∧
    (alignLine demoCore fineReport centeredDiv centeredDiv.border "abcd".toList).border.Right
      = 0 ∧
    (alignLine demoCore fineReport centeredDiv centeredDiv.border "abcd".toList).border.Bottom
      = 7 ∧
    ∃ d p, GenerateAtomicCell demoCore 1 centeredDiv fineReport = some (Except.ok (d, p)) ∧
      p.log = [Event.cell 30 0 "abcd".toList] := by
  refine ⟨?_, rfl, rfl, ?_, ?_, ?_, _, _, centeredDiv_run, rfl⟩
  · norm_num [demoCore, monoMeasure, fineReport, demoReport]
  · rw [centeredDiv_align]; rfl
  · rw [centeredDiv_align]; rfl
  · rw [centeredDiv_align]; rfl

/-- C18 fails on the code: the single line of the centered block fits on the
page (no page is added), and `GenerateAtomicCell` returns the block with
border (30, 0, 0, 7) in place of the border (0, 0, 7, 0) it had before the
call. -/
theorem border_not_restored :
    ∃ d p, GenerateAtomicCell demoCore 1 centeredDiv fineReport = some (Except.ok (d, p)) ∧
      pageBreaks p.log = pageBreaks fineReport.log ∧
      centeredDiv.border = NewScope 0 0 7 0 ∧
      d.border = NewScope 30 0 0 7 ∧
      d.border ≠ centeredDiv.border := by
  refine ⟨_, _, centeredDiv_run, rfl, rfl, rfl, ?_⟩
  simp [centeredDiv, NewScope]

/-! ## C16: `Copy` -/

/-- C16, as stated, fails: the copy of the centered block of width 50 with
border (2, 0, 3, 0) and margin (5, 0, 0, 0) has width 55, the zero margin and
left alignment. -/
theorem copy_counterexample :
    ∃ f, Copy demoCore demoReport framedDiv "x".toList = Except.ok f ∧
      IsEmptyFont framedDiv.font = false ∧
      f.width = 55 ∧ framedDiv.width = 50 ∧
      f.margin ≠ framedDiv.margin ∧
      f.horizontalCentered ≠ framedDiv.horizontalCentered := by
  refine ⟨{ demoDiv 55 with contents := ["x".toList], border := NewScope 2 0 3 0 }, ?_,
    by decide, rfl, rfl, ?_, by decide⟩
  · norm_num +decide [Copy, SetBorder, SetFont, SetContent, framedDiv, threeLines, demoDiv,
      demoReport, demoCore, clampScope, clampSide, monoMeasure, replaceTabs, splitLines,
      zeroScope, NewScope, IsEmptyFont, demoFont, DIV_NONE]
  · simp [framedDiv, demoDiv, zeroScope, NewScope]

/-- C16, amended: for a block `d` with a font set, `d.Copy(c)` returns a block
with the line height, line spacing, frame style, font, font colour and
background colour of `d`, with the border of `d` normalised once more, and
with the width that `SetBorder` gives from the width of `d` (the left and
right border added when the page has room for them). Its contents are the
wrap of `c` alone at that width: the paragraphs of the converted text when it
measures below the budget, the result of the wrap loop from no lines
otherwise; they do not depend on the contents of `d`. -/
theorem copy_effect (core : Core) (pdf : Report) (d : Div) (content : List Char)
    (hfont : IsEmptyFont d.font = false) :
    ∃ f, Copy core pdf d content = Except.ok f ∧
      f.lineHeight = d.lineHeight ∧ f.lineSpace = d.lineSpace ∧ f.frameType = d.frameType ∧
      f.font = d.font ∧ f.fontColor = d.fontColor ∧ f.backColor = d.backColor ∧
      f.border = core.ReplaceBorder d.border ∧
      f.width = (if pdf.pageEndX - (pdf.currX + 0)
          ≥ d.width + (core.ReplaceBorder d.border).Left + (core.ReplaceBorder d.border).Right
        then d.width + ((core.ReplaceBorder d.border).Left + (core.ReplaceBorder d.border).Right)
        else d.width) ∧
      (core.measure d.font (replaceTabs content) / pdf.unit
          < f.width - |f.border.Left| - |f.border.Right| →
        f.contents = splitLines (replaceTabs content)) ∧
      (¬ core.measure d.font (replaceTabs content) / pdf.unit
          < f.width - |f.border.Left| - |f.border.Right| →
        f.contents = (splitLines (replaceTabs content)).foldl
          (wrapBlock (core.measure d.font) pdf.unit
            (f.width - |f.border.Left| - |f.border.Right|)
            (core.measure d.font (replaceTabs content))) []) ∧
      (∀ xs, Copy core pdf { d with contents := xs } content = Except.ok f) := by
  have hg : ∃ g : Div, (∀ xs, Copy core pdf { d with contents := xs } content
        = SetContent core pdf g content) ∧
      Copy core pdf d content = SetContent core pdf g content ∧
      g.contents = [] ∧ g.font = d.font ∧
      g.lineHeight = d.lineHeight ∧ g.lineSpace = d.lineSpace ∧ g.frameType = d.frameType ∧
      g.fontColor = d.fontColor ∧ g.backColor = d.backColor ∧
      g.border = core.ReplaceBorder d.border ∧
      g.width = (if pdf.pageEndX - (pdf.currX + 0)
          ≥ d.width + (core.ReplaceBorder d.border).Left + (core.ReplaceBorder d.border).Right
        then d.width + ((core.ReplaceBorder d.border).Left + (core.ReplaceBorder d.border).Right)
        else d.width) := by
    refine ⟨SetFont (SetBorder core pdf
        { font := { Family := "", Size := 0, Style := "" }
          frameType := d.frameType
          contents := []
          width := d.width
          height := 0
          lineHeight := d.lineHeight
          lineSpace := d.lineSpace
          fontColor := d.fontColor
          backColor := d.backColor
          margin := { Left := 0, Top := 0, Right := 0, Bottom := 0 }
          border := { Left := 0, Top := 0, Right := 0, Bottom := 0 }
          horizontalCentered := false
          rightAlign := false } d.border) d.font,
      fun xs => rfl, rfl, ?_, ?_, ?_, ?_, ?_, ?_, ?_, ?_, ?_⟩
    all_goals simp only [SetFont, SetBorder]
    all_goals split_ifs <;> rfl
  obtain ⟨g, hall, hcopy, hnil, hgf, hlh, hls, hft, hfc, hbc, hb, hw⟩ := hg
  have hfont2 : IsEmptyFont g.font = false := by rw [hgf]; exact hfont
  obtain ⟨f, hf, hfit, hwrap⟩ := SetContent_contents core pdf g content hfont2 hnil
  have hsame : f.lineHeight = g.lineHeight ∧ f.lineSpace = g.lineSpace ∧
      f.frameType = g.frameType ∧ f.font = g.font ∧ f.fontColor = g.fontColor ∧
      f.backColor = g.backColor ∧ f.border = g.border ∧ f.width = g.width := by
    rw [SetContent_eq core pdf g content hfont2] at hf
    split_ifs at hf
    · injection hf with hf
      rw [← hf]
      exact ⟨rfl, rfl, rfl, rfl, rfl, rfl, rfl, rfl⟩
    · injection hf with hf
      rw [← hf]
      exact ⟨rfl, rfl, rfl, rfl, rfl, rfl, rfl, rfl⟩
  obtain ⟨s1, s2, s3, s4, s5, s6, s7, s8⟩ := hsame
  refine ⟨f, by rw [hcopy, hf], by rw [s1, hlh], by rw [s2, hls], by rw [s3, hft],
    by rw [s4, hgf], by rw [s5, hfc], by rw [s6, hbc], by rw [s7, hb], by rw [s8, hw], ?_, ?_,
    fun xs => by rw [hall xs, hf]⟩
  · rw [s8, s7, ← hgf]
    exact hfit
  · rw [s8, s7, ← hgf]
    exact hwrap

/-- C16, amended, at a concrete input: the copy of the centered block of
width 50 with border (2, 0, 3, 0). -/
theorem copy_effect_witness :
    ∃ f, Copy demoCore demoReport framedDiv "x".toList = Except.ok f ∧
      f.lineHeight = framedDiv.lineHeight ∧ f.font = framedDiv.font ∧
      f.border = demoCore.ReplaceBorder framedDiv.border ∧
      Copy demoCore demoReport { framedDiv with contents := [] } "x".toList
        = Except.ok f := by
  obtain ⟨f, h1, h2, _, _, h5, _, _, h8, _, _, _, h12⟩ :=
    copy_effect demoCore demoReport framedDiv "x".toList (by decide)
  exact ⟨f, h1, h2, h5, h8, h12 []⟩

/-! ## C19: bounded overflow of the wrap -/

/-- C19: with unit 1, on a block with a font and no prior content, for a
content without newline, every line that `SetContent` produces with at least
two runes measures at most `W + 2`, with
`W = width - |border.Left| - |border.Right|`. -/
theorem bounded_overflow (core : Core) (pdf : Report) (div : Div) (content : List Char)
    (hunit : pdf.unit = 1) (hnl : '\n' ∉ content)
    (hfont : IsEmptyFont div.font = false) (hnil : div.contents = []) :
    ∃ d, SetContent core pdf div content = Except.ok d ∧
      ∀ l ∈ d.contents, 2 ≤ l.length →
        core.measure div.font l ≤ div.width - |div.border.Left| - |div.border.Right| + 2 := by
  obtain ⟨d, hd, hfit, hwrap⟩ := SetContent_contents core pdf div content hfont hnil
  refine ⟨d, hd, ?_⟩
  intro l hl hlen
  by_cases hw : core.measure div.font (replaceTabs content) / pdf.unit
      < div.width - |div.border.Left| - |div.border.Right|
  · have hn2 : '\n' ∉ replaceTabs content := by
      intro hmem
      rcases mem_replaceTabs _ _ hmem with h | h
      · exact absurd h (by decide)
      · exact hnl h
    rw [hfit hw, splitLines_of_no_nl _ hn2] at hl
    have hl2 : l = replaceTabs content := by simpa using hl
    rw [hunit, div_one] at hw
    rw [hl2]
    linarith
  · rw [hwrap hw] at hl
    have h := wrapBlocks_width (core.measure div.font) pdf.unit
      (div.width - |div.border.Left| - |div.border.Right|)
      (core.measure div.font (replaceTabs content)) hw (splitLines (replaceTabs content)) []
      (by simp) l hl
    rw [hunit] at h
    simp only [div_one, one_mul] at h
    rcases h with h | h | h
    · omega
    · linarith
    · linarith

/-- C19 at a concrete input: one-unit runes, budget 3, the text `abcdef`. -/
theorem bounded_overflow_witness :
    ∃ d, SetContent demoCore demoReport (demoDiv 3) "abcdef".toList = Except.ok d ∧
      ∀ l ∈ d.contents, 2 ≤ l.length →
        demoCore.measure (demoDiv 3).font l
          ≤ (demoDiv 3).width - |(demoDiv 3).border.Left| - |(demoDiv 3).border.Right| + 2 :=
  bounded_overflow demoCore demoReport (demoDiv 3) "abcdef".toList (by rfl) (by decide)
    (by decide) (by rfl)

/-! ## Further lemmas on the page break -/

/-- The page-break branch panics when `SetMarign` finds no room. -/
theorem pageBreak_error (core : Core) (pdf : Report) (div : Div) (border : Scope) (i : Nat)
    (h : pdf.pageEndX
      - (pdf.currX + (core.ReplaceMarign (NewScope div.margin.Left 0 div.margin.Right 0)).Left)
        ≤ 0) :
    pageBreak core pdf div border i = Except.error "the marign out of page boundary" := by
  simp only [pageBreak, SetMarign, h, if_true]

/-- The width and the styling of the block that the page-break branch hands
on, when `SetMarign` does not panic. -/
theorem pageBreak_width (core : Core) (pdf : Report) (div : Div) (border : Scope) (i : Nat)
    (hroom : ¬ (pdf.pageEndX
      - (pdf.currX + (core.ReplaceMarign (NewScope div.margin.Left 0 div.margin.Right 0)).Left)
        ≤ 0)) :
    ∃ d p, pageBreak core pdf div border i = Except.ok (d, p) ∧
      d.lineHeight = div.lineHeight ∧ d.lineSpace = div.lineSpace ∧
      d.frameType = div.frameType ∧ d.horizontalCentered = div.horizontalCentered ∧
      d.rightAlign = div.rightAlign ∧
      d.width =
        (if pdf.pageEndX - (pdf.currX
              + (core.ReplaceMarign (NewScope div.margin.Left 0 div.margin.Right 0)).Left)
            ≥ min div.width (pdf.pageEndX - (pdf.currX
                + (core.ReplaceMarign (NewScope div.margin.Left 0 div.margin.Right 0)).Left))
              + (core.ReplaceBorder (NewScope border.Left div.lineSpace border.Right 0)).Left
              + (core.ReplaceBorder (NewScope border.Left div.lineSpace border.Right 0)).Right
          then min div.width (pdf.pageEndX - (pdf.currX
                + (core.ReplaceMarign (NewScope div.margin.Left 0 div.margin.Right 0)).Left))
              + ((core.ReplaceBorder (NewScope border.Left div.lineSpace border.Right 0)).Left
                + (core.ReplaceBorder (NewScope border.Left div.lineSpace border.Right 0)).Right)
          else min div.width (pdf.pageEndX - (pdf.currX
                + (core.ReplaceMarign (NewScope div.margin.Left 0 div.margin.Right 0)).Left))) := by
  by_cases hw : pdf.pageEndX - (pdf.currX
      + (core.ReplaceMarign (NewScope div.margin.Left 0 div.margin.Right 0)).Left) ≤ div.width
  · rw [min_eq_right hw]
    simp only [pageBreak, SetMarign, hroom, if_false, hw, if_true, SetBorder, resetHeight,
      Report.emit]
    refine ⟨_, _, rfl, ?_⟩
    split_ifs <;> exact ⟨rfl, rfl, rfl, rfl, rfl, rfl⟩
  · rw [min_eq_left (le_of_lt (not_le.1 hw))]
    simp only [pageBreak, SetMarign, hroom, if_false, hw, SetBorder, resetHeight, Report.emit]
    refine ⟨_, _, rfl, ?_⟩
    split_ifs <;> exact ⟨rfl, rfl, rfl, rfl, rfl, rfl⟩

/-- The block and surface that the line loop hands to the recursive call at
the first line that does not fit are the result of the page-break branch at
that index. -/
theorem carried_is_pageBreak (core : Core) (div : Div) (pdf : Report) (k : Nat)
    (d : Div) (p : Report)
    (hfont : IsEmptyFont div.font = false) (hk : k < div.contents.length)
    (hfit : ∀ j, j < k → ¬ (pdf.currY + div.margin.Top + div.border.Top
        + (j : ℚ) * (div.lineHeight + div.lineSpace) + div.lineHeight > pdf.pageEndY))
    (hbrk : pdf.currY + div.margin.Top + div.border.Top
        + (k : ℚ) * (div.lineHeight + div.lineSpace) + div.lineHeight > pdf.pageEndY)
    (hrun : drawLines core pdf.currX pdf.currY pdf.pageEndY div.border div.contents.length 0
        div (drawLine div (selectLineType div pdf) pdf.currX pdf.currY) 0 = Flow.next d p) :
    ∃ evs, pageBreak core { pdf with log := pdf.log ++ evs } div div.border k
        = Except.ok (d, p) ∧
      ¬ (pdf.pageEndX
        - (pdf.currX + (core.ReplaceMarign (NewScope div.margin.Left 0 div.margin.Right 0)).Left)
          ≤ 0) := by
  obtain ⟨evs, _, _, herr, hok⟩ :=
    GenerateAtomicCell_break core 0 div pdf k hfont hk hfit hbrk
  rcases pageBreak_cases core { pdf with log := pdf.log ++ evs } div div.border k with
    ⟨e, he⟩ | hroom
  · have h1 := herr e he
    rw [GenerateAtomicCell_next core 0 div pdf hfont d p hrun] at h1
    simp [GenerateAtomicCell] at h1
  · obtain ⟨d1, p1, hpb, _⟩ :=
      pageBreak_ok core { pdf with log := pdf.log ++ evs } div div.border k hroom
    have h2 := (hok d1 p1 hpb).1
    rw [hrun] at h2
    injection h2 with hd hp
    rw [hd, hp]
    exact ⟨evs, hpb, hroom⟩

/-- With a font set, room for `SetMarign` at the cursor and a normalisation
that leaves `(left, 0, right, 0)` as it is, no call of the flow panics. -/
theorem flow_never_fatal (core : Core) :
    ∀ (fuel : Nat) (div : Div) (pdf : Report) (r : Except String (Div × Report)),
      IsEmptyFont div.font = false →
      core.ReplaceMarign (NewScope div.margin.Left 0 div.margin.Right 0)
        = NewScope div.margin.Left 0 div.margin.Right 0 →
      pdf.pageEndX - (pdf.currX + div.margin.Left) > 0 →
      GenerateAtomicCell core fuel div pdf = some r →
      ∃ d p, r = Except.ok (d, p) := by
  intro fuel
  induction fuel with
  | zero =>
    intro div pdf r _ _ _ h
    simp [GenerateAtomicCell] at h
  | succ fuel ih =>
    intro div pdf r hfont hM hroom h
    rcases first_failure (fun j => ¬ (pdf.currY + div.margin.Top + div.border.Top
        + (j : ℚ) * (div.lineHeight + div.lineSpace) + div.lineHeight > pdf.pageEndY))
        div.contents.length with hall | ⟨k, hk, hfit, hbrk⟩
    · obtain ⟨b, evs, hrun, _⟩ := GenerateAtomicCell_all_fit core fuel div pdf hfont hall
      rw [hrun] at h
      injection h with h
      exact ⟨_, _, h.symm⟩
    · have hbrk2 : pdf.currY + div.margin.Top + div.border.Top
          + (k : ℚ) * (div.lineHeight + div.lineSpace) + div.lineHeight > pdf.pageEndY := by
        simpa using hbrk
      obtain ⟨evs, _, _, _, hok⟩ :=
        GenerateAtomicCell_break core fuel div pdf k hfont hk hfit hbrk2
      have hroom2 : ¬ (({ pdf with log := pdf.log ++ evs } : Report).pageEndX
          - (({ pdf with log := pdf.log ++ evs } : Report).currX
            + (core.ReplaceMarign (NewScope div.margin.Left 0 div.margin.Right 0)).Left)
              ≤ 0) := by
        rw [hM]
        exact not_le.2 hroom
      obtain ⟨d, p, hpb, hm, _, _, _, _, _, hdf, _, hpx, _, _, _, _, hex, _⟩ :=
        pageBreak_ok core { pdf with log := pdf.log ++ evs } div div.border k hroom2
      rw [(hok d p hpb).2] at h
      have hdm : d.margin = NewScope div.margin.Left 0 div.margin.Right 0 := by
        rw [hm, hM]
      have hl : d.margin.Left = div.margin.Left := by rw [hdm]; rfl
      have hr : d.margin.Right = div.margin.Right := by rw [hdm]; rfl
      refine ih d p r (by rw [hdf]; exact hfont) (by rw [hl, hr]; exact hM) ?_ h
      rw [hex, hpx, if_pos hk, hl]
      exact hroom

/-! ## C17: failures of the flow -/

/-- C17, as stated, fails: the centered three-line block with left margin 5
has a font; with the cursor at x = 95 on a page ending at x = 100 its second
line does not fit, and the page break panics in `SetMarign`. -/
theorem flow_failure_counterexample :
    IsEmptyFont framedDiv.font = false ∧
    GenerateAtomicCell demoCore 2 framedDiv edgeReport
      = some (Except.error "the marign out of page boundary") := by
  refine ⟨by decide, ?_⟩
  norm_num +decide [GenerateAtomicCell, drawLines, Flow.ofBreak, pageBreak, paintLine,
    SetMarign, SetBorder, resetHeight, alignLine, getContentPosition, drawLine,
    selectLineType, Report.emit, framedDiv, threeLines, edgeReport, demoReport, demoDiv,
    demoCore, monoMeasure, clampScope, clampSide, zeroScope, NewScope, IsEmptyFont,
    IsEmptyString, demoFont, DIV_NONE, DIV_STRAIGHT, DIV_DASHED, DIV_DOTTED]

/-- C17, amended: (1) without a font `GenerateAtomicCell` panics with
"no font"; (2) with a font, when `SetMarign` finds room at the cursor
(`pageEndX - (cursorX + margin.Left) > 0`, the normalisation leaving
`(left, 0, right, 0)` as it is), every flow that terminates returns normally,
whatever the page breaks and alignments; (3) with a font, when the first line
that does not fit is reached and `SetMarign` finds no room, the call panics
with the message of `SetMarign`. -/
theorem flow_failures (core : Core) (div : Div) (pdf : Report) :
    (IsEmptyFont div.font = true →
      ∀ fuel, GenerateAtomicCell core (fuel + 1) div pdf = some (Except.error "no font")) ∧
    (IsEmptyFont div.font = false →
      core.ReplaceMarign (NewScope div.margin.Left 0 div.margin.Right 0)
        = NewScope div.margin.Left 0 div.margin.Right 0 →
      pdf.pageEndX - (pdf.currX + div.margin.Left) > 0 →
      ∀ fuel r, GenerateAtomicCell core fuel div pdf = some r → ∃ d p, r = Except.ok (d, p)) ∧
    (IsEmptyFont div.font = false →
      ∀ k, k < div.contents.length →
      (∀ j, j < k → ¬ (pdf.currY + div.margin.Top + div.border.Top
        + (j : ℚ) * (div.lineHeight + div.lineSpace) + div.lineHeight > pdf.pageEndY)) →
      (pdf.currY + div.margin.Top + div.border.Top
        + (k : ℚ) * (div.lineHeight + div.lineSpace) + div.lineHeight > pdf.pageEndY) →
      pdf.pageEndX
        - (pdf.currX + (core.ReplaceMarign (NewScope div.margin.Left 0 div.margin.Right 0)).Left)
          ≤ 0 →
      ∀ fuel, GenerateAtomicCell core (fuel + 1) div pdf
        = some (Except.error "the marign out of page boundary")) := by
  refine ⟨?_, ?_, ?_⟩
  · intro hf fuel
    simp [GenerateAtomicCell, hf]
  · intro hfont hM hroom fuel r h
    exact flow_never_fatal core fuel div pdf r hfont hM hroom h
  · intro hfont k hk hfit hbrk hno fuel
    obtain ⟨evs, _, _, herr, _⟩ :=
      GenerateAtomicCell_break core fuel div pdf k hfont hk hfit hbrk
    exact herr _ (pageBreak_error core { pdf with log := pdf.log ++ evs } div div.border k hno)

/-- C17, amended, at concrete inputs: the three spaced lines flow across a
page break without a panic; the centered block at x = 95 panics at its page
break. -/
theorem flow_failures_witness :
    (∃ r, GenerateAtomicCell demoCore 2 spacedLines lowReport = some r ∧
      ∃ d p, r = Except.ok (d, p)) ∧
    GenerateAtomicCell demoCore (1 + 1) framedDiv edgeReport
      = some (Except.error "the marign out of page boundary") := by
  refine ⟨⟨_, spacedLines_run, (flow_failures demoCore spacedLines lowReport).2.1 (by decide)
      ?_ ?_ 2 _ spacedLines_run⟩,
    (flow_failures demoCore framedDiv edgeReport).2.2 (by decide) 1 (by decide) ?_ ?_ ?_ 1⟩
  · norm_num [demoCore, clampScope, clampSide, spacedLines, NewScope]
  · norm_num [spacedLines, lowReport, demoReport, NewScope]
  · intro j hj
    obtain rfl : j = 0 := by omega
    norm_num [framedDiv, threeLines, edgeReport, demoReport, demoDiv, zeroScope, NewScope]
  · norm_num [framedDiv, threeLines, edgeReport, demoReport, demoDiv, zeroScope, NewScope]
  · norm_num [demoCore, clampScope, clampSide, framedDiv, edgeReport, demoReport, NewScope]

/-! ## C20: the width across a page break -/

/-- C20, as stated, fails: the centered block of width 50 with border
(2, 0, 3, 0), placed one line height above the page bottom, is carried to the
new page with width 55. -/
theorem carried_width_counterexample :
    ∃ d p,
      drawLines demoCore lowReport.currX lowReport.currY lowReport.pageEndY framedDiv.border
          framedDiv.contents.length 0 framedDiv
          (drawLine framedDiv (selectLineType framedDiv lowReport) lowReport.currX
            lowReport.currY) 0 = Flow.next d p ∧
      d.width = 55 ∧ framedDiv.width = 50 := by
  refine ⟨{ framedDiv with
      width := 55, contents := ["two".toList, "three".toList], height := 20 },
    { lowReport with
      currY := 0, log := [Event.cell (57 / 2) 20 "one".toList, Event.addNewPage] },
    ?_, rfl, rfl⟩
  norm_num +decide [drawLines, Flow.ofBreak, pageBreak, paintLine,
    SetMarign, SetBorder, resetHeight, alignLine, getContentPosition, drawLine,
    selectLineType, Report.emit, framedDiv, threeLines, lowReport, demoReport, demoDiv,
    demoCore, monoMeasure, clampScope, clampSide, zeroScope, NewScope,
    IsEmptyString, DIV_NONE, DIV_STRAIGHT, DIV_DASHED, DIV_DOTTED]

/-- C20, amended: the block carried to the continuation page at the first
line `k` that does not fit has the line height, line spacing, frame style and
alignment it had at the call. With `A = pageEndX - (cursorX + m'.Left)`, `m'`
the normalised `(margin.Left, 0, margin.Right, 0)` and `b'` the normalised
`(border.Left, lineSpace, border.Right, 0)`, its width is `min width A`, plus
`b'.Left + b'.Right` when `A` has room for that sum; it is the width at the
call when `width ≤ A` and `b'.Left + b'.Right = 0`. -/
theorem carried_width (core : Core) (div : Div) (pdf : Report) (k : Nat)
    (d : Div) (p : Report)
    (hfont : IsEmptyFont div.font = false) (hk : k < div.contents.length)
    (hfit : ∀ j, j < k → ¬ (pdf.currY + div.margin.Top + div.border.Top
        + (j : ℚ) * (div.lineHeight + div.lineSpace) + div.lineHeight > pdf.pageEndY))
    (hbrk : pdf.currY + div.margin.Top + div.border.Top
        + (k : ℚ) * (div.lineHeight + div.lineSpace) + div.lineHeight > pdf.pageEndY)
    (hrun : drawLines core pdf.currX pdf.currY pdf.pageEndY div.border div.contents.length 0
        div (drawLine div (selectLineType div pdf) pdf.currX pdf.currY) 0 = Flow.next d p) :
    d.lineHeight = div.lineHeight ∧ d.lineSpace = div.lineSpace ∧
    d.frameType = div.frameType ∧ d.horizontalCentered = div.horizontalCentered ∧
    d.rightAlign = div.rightAlign ∧
    d.width =
      (if pdf.pageEndX - (pdf.currX
            + (core.ReplaceMarign (NewScope div.margin.Left 0 div.margin.Right 0)).Left)
          ≥ min div.width (pdf.pageEndX - (pdf.currX
              + (core.ReplaceMarign (NewScope div.margin.Left 0 div.margin.Right 0)).Left))
            + (core.ReplaceBorder (NewScope div.border.Left div.lineSpace div.border.Right 0)).Left
            + (core.ReplaceBorder (NewScope div.border.Left div.lineSpace div.border.Right 0)).Right
        then min div.width (pdf.pageEndX - (pdf.currX
              + (core.ReplaceMarign (NewScope div.margin.Left 0 div.margin.Right 0)).Left))
            + ((core.ReplaceBorder
                  (NewScope div.border.Left div.lineSpace div.border.Right 0)).Left
              + (core.ReplaceBorder
                  (NewScope div.border.Left div.lineSpace div.border.Right 0)).Right)
        else min div.width (pdf.pageEndX - (pdf.currX
              + (core.ReplaceMarign (NewScope div.margin.Left 0 div.margin.Right 0)).Left))) ∧
    (div.width ≤ pdf.pageEndX - (pdf.currX
          + (core.ReplaceMarign (NewScope div.margin.Left 0 div.margin.Right 0)).Left) →
      (core.ReplaceBorder (NewScope div.border.Left div.lineSpace div.border.Right 0)).Left
        + (core.ReplaceBorder (NewScope div.border.Left div.lineSpace div.border.Right 0)).Right
          = 0 →
      d.width = div.width) := by
  obtain ⟨evs, hpb, hroom⟩ := carried_is_pageBreak core div pdf k d p hfont hk hfit hbrk hrun
  obtain ⟨d1, p1, hpb1, h1, h2, h3, h4, h5, h6⟩ :=
    pageBreak_width core { pdf with log := pdf.log ++ evs } div div.border k hroom
  rw [hpb] at hpb1
  injection hpb1 with hpb1
  injection hpb1 with hd _
  subst hd
  refine ⟨h1, h2, h3, h4, h5, h6, ?_⟩
  intro hle hzero
  rw [h6]
  simp only at hle ⊢
  rw [min_eq_left hle]
  split_ifs
  · rw [hzero, add_zero]
  · rfl

/-- C20, amended, at a concrete input: the three spaced lines (width 50,
no border) are carried across the page break with width 50. -/
theorem carried_width_witness :
    ∃ d p,
      drawLines demoCore lowReport.currX lowReport.currY lowReport.pageEndY spacedLines.border
          spacedLines.contents.length 0 spacedLines
          (drawLine spacedLines (selectLineType spacedLines lowReport) lowReport.currX
            lowReport.currY) 0 = Flow.next d p ∧
      d.lineHeight = spacedLines.lineHeight ∧ d.frameType = spacedLines.frameType ∧
      d.width = spacedLines.width := by
  have h := carried_width demoCore spacedLines lowReport 1 _ _ (by decide) (by decide)
    (by
      intro j hj
      obtain rfl : j = 0 := by omega
      norm_num [spacedLines, threeLines, lowReport, demoReport, demoDiv, zeroScope, NewScope])
    (by norm_num [spacedLines, threeLines, lowReport, demoReport, demoDiv, zeroScope, NewScope])
    spacedLines_break
  refine ⟨_, _, spacedLines_break, h.1, h.2.2.1, h.2.2.2.2.2.2 ?_ ?_⟩
  · norm_num [demoCore, clampScope, clampSide, spacedLines, threeLines, lowReport, demoReport,
      demoDiv, NewScope]
  · norm_num [demoCore, clampScope, clampSide, spacedLines, threeLines, demoDiv, zeroScope,
      NewScope]

end Gopdf
